import Mathlib

/-!
# log2: sink composition and severity routing

A shallow embedding of `config.go`, `logger.go` and `helpers.go` of the `log2`
package: the configuration builder (`Config.tidy`, `Config.Build`), the severity
router (`levelEnableWithExcept`, `newLevelEnablerWithExcept`), the rotation
defaults (`fillLumberjack`), the logger constructor (`NewLogger`), the node
operations and logging methods of `logger`, the re-leveling operation
(`logger.SetLevel`) and the de-dup set (`Exist`).

Conventions of the embedding.

* A Go map is an association list with pairwise distinct keys (`GoMap`); `range`
  over a map visits the entries in list order.  Go leaves that order
  unspecified: the redirect mapping of a configuration may be given in any list
  order, the parsed map keeps the order of first occurrence, and the general
  theorems hold for every order.
* A nilable pointer, interface or map is an `Option`.
* The process-wide variables of `config.go` are the record `Globals`, threaded
  explicitly through `Build` and `SetLevel`.
* A run-time panic (nil pointer dereference) is the outcome `fault`.  A sink
  made by `zapcore.NewCore` may hold a nil encoder (the process-wide `encoder`
  before any build), and a composite may hold a nil entry (a nil sink supplied
  to `Build`): attaching fields to such a composite, or logging through it,
  panics inside zap.
* An addition of Go `int` wraps around at 64 bits (`wrapInt`).
* The de-dup set is the list of its keys; the node operations write only sets
  they have just copied, so a node holds its set as a value.  Where aliasing is
  the question, the sets live in a store (`ExistStore`), and nodes and sets
  together in a memory (`Heap`) in which they are written in place through
  pointers; the operations on values are shown to agree with those in memory.
* The two library functions the builder calls and whose result depends on data
  outside the package, `zapcore.ParseLevel` and `time.LoadLocation`, are the
  fields of an environment `Env`.
-/

namespace log2

/-! ## Go maps -/

/-- Go `map[κ]ν` as an association list; `range` visits it in list order. -/
abbrev GoMap (κ ν : Type) := List (κ × ν)

namespace GoMap

variable {κ ν : Type} [DecidableEq κ]

/-- Keys of the map, in iteration order. -/
def keys (m : GoMap κ ν) : List κ := m.map Prod.fst

/-- Go `v, ok := m[k]`. -/
def get? (m : GoMap κ ν) (k : κ) : Option ν := (m.find? (fun e => e.1 = k)).map Prod.snd

/-- Go `m[k] = v`: overwrite the entry of `k` or add one. -/
def set : GoMap κ ν → κ → ν → GoMap κ ν
  | [], k, v => [(k, v)]
  | e :: rest, k, v => if e.1 = k then (k, v) :: rest else e :: set rest k v

/-- Go `delete(m, k)`. -/
def delete (m : GoMap κ ν) (k : κ) : GoMap κ ν := m.filter (fun e => e.1 ≠ k)

end GoMap

/-! ## The parts of zap, lumberjack and time that the builder configures -/

namespace zapcore

/-- Severity `zapcore.Level`, an `int8` in Go; the order is the integer order. -/
abbrev Level := Int

def DebugLevel : Level := -1
def InfoLevel : Level := 0
def WarnLevel : Level := 1
def ErrorLevel : Level := 2
def DPanicLevel : Level := 3
def PanicLevel : Level := 4
def FatalLevel : Level := 5

/-- Implementations of the interface `zapcore.LevelEnabler` that can stand as
the base of a router: a plain `zapcore.Level`, a `zap.AtomicLevel` holding a
level, or any other implementation given by its `Enabled` method. -/
inductive LevelEnabler where
  | level (l : Level)
  | atomic (l : Level)
  | custom (f : Level → Bool)

/-- Method `Enabled` of a level used as an enabler: `lvl >= l`. -/
def LevelEnabler.Enabled : LevelEnabler → Level → Bool
  | .level l, lvl => decide (l ≤ lvl)
  | .atomic l, lvl => decide (l ≤ lvl)
  | .custom f, lvl => f lvl

end zapcore

namespace time

/-- A loaded time zone, `*time.Location`. -/
structure Location where
  name : String
  deriving DecidableEq, Repr

end time

namespace lumberjack

/-- The fields of `lumberjack.Logger` that the builder sets. -/
structure Logger where
  Filename : String
  MaxSize : Int
  MaxBackups : Int
  MaxAge : Int
  Compress : Bool
  deriving DecidableEq, Repr

end lumberjack

/-- Library functions whose result depends on data outside the package. -/
structure Env where
  /-- Function `zapcore.ParseLevel`; `none` is the error result. -/
  ParseLevel : String → Option zapcore.Level
  /-- Function `time.LoadLocation`; `none` is the error result. -/
  LoadLocation : String → Option time.Location

/-! ## config.go: constants and types -/

def defaultTimeZone : String := "Asia/Shanghai"
def defaultTimeLayout : String := "2006-01-02 15:04:05.000"
def defaultRotateMaxSize : Int := 100
def defaultRotateMaxBackups : Int := 50
def defaultRotateMaxAge : Int := 7

/-- Caller encoder chosen by `newEncoderConfig`. -/
inductive CallerEncoder where
  | short
  | full
  deriving DecidableEq, Repr

/-- The fields of `zapcore.EncoderConfig` that depend on the configuration; the
key names and the level and duration encoders are constants of the source. -/
structure EncoderConfig where
  location : Option time.Location
  TimeLayout : String
  EncodeCaller : CallerEncoder
  deriving DecidableEq, Repr

/-- An encoder: `zapcore.NewJSONEncoder` or `zapcore.NewConsoleEncoder`. -/
inductive Encoder where
  | json (c : EncoderConfig)
  | console (c : EncoderConfig)
  deriving DecidableEq, Repr

/-- Destinations wrapped as `zapcore.WriteSyncer`. -/
inductive WriteSyncer where
  /-- The value `zapcore.NewMultiWriteSyncer(zapcore.AddSync(lumberjackLogger))`. -/
  | rotate (lj : lumberjack.Logger)
  /-- The value `os.Stdout`. -/
  | stdout
  /-- The value `zapcore.AddSync(hook.Writer())`, the writer named by a number. -/
  | addSync (writer : Nat)
  deriving DecidableEq, Repr

/-- Interface `Hook`: a writer and a minimum level. -/
structure Hook where
  Writer : Nat
  MinLevel : zapcore.Level
  deriving DecidableEq, Repr

/-- Struct `RotateConfig`. -/
structure RotateConfig where
  MaxSize : Int
  MaxBackups : Int
  MaxAge : Int
  DisableCompress : Bool
  deriving DecidableEq, Repr

/-- The zero value `RotateConfig{}`. -/
def RotateConfig.zero : RotateConfig :=
  { MaxSize := 0, MaxBackups := 0, MaxAge := 0, DisableCompress := false }

/-- Struct `levelEnableWithExcept`: an embedded enabler and the map `except`. -/
structure levelEnableWithExcept where
  LevelEnabler : zapcore.LevelEnabler
  except : GoMap zapcore.Level Bool

/-- Method `levelEnableWithExcept.Enabled`. -/
def levelEnableWithExcept.Enabled (l : levelEnableWithExcept) (level : zapcore.Level) : Bool :=
  if !l.LevelEnabler.Enabled level then
    false
  else
    !((l.except.get? level).getD false)

/-- Function `newLevelEnablerWithExcept`: every key of `except` is marked, then
every level of `exceptLevels` is deleted from the marks. -/
def newLevelEnablerWithExcept {T : Type} (enabler : zapcore.LevelEnabler)
    (except : GoMap zapcore.Level T) (exceptLevels : List zapcore.Level) : levelEnableWithExcept :=
  let marked : GoMap zapcore.Level Bool :=
    except.keys.foldl (fun acc level => acc.set level true) []
  { LevelEnabler := enabler
    except := exceptLevels.foldl (fun acc exceptLevel => acc.delete exceptLevel) marked }

/-- The third argument of `zapcore.NewCore`: a plain enabler or a router. -/
inductive CoreEnabler where
  | plain (e : zapcore.LevelEnabler)
  | router (e : levelEnableWithExcept)

def CoreEnabler.Enabled : CoreEnabler → zapcore.Level → Bool
  | .plain e, lvl => e.Enabled lvl
  | .router e, lvl => e.Enabled lvl

/-- A sink, `zapcore.Core`: one made by `zapcore.NewCore`, or one supplied by the
caller of `Build`, known only by a number and its `Enabled` method. -/
inductive Core where
  | ioCore (enc : Option Encoder) (ws : WriteSyncer) (enab : CoreEnabler)
  | injected (id : Nat) (enabled : zapcore.Level → Bool)

/-- Method `Enabled` of a sink. -/
def Core.Enabled : Core → zapcore.Level → Bool
  | .ioCore _ _ enab, lvl => enab.Enabled lvl
  | .injected _ f, lvl => f lvl

/-- The argument list of `zapcore.NewTee`; an entry `none` is a nil interface. -/
abbrev Tee := List (Option Core)

/-- The sinks of a composite that write a record of level `lvl`: the `Check`
method of a composite asks every sink in turn, and a sink adds itself to the
entry exactly when its `Enabled` holds.  Nil entries are passed over; the sinks
that `Build` and `SetLevel` construct are never nil. -/
def Tee.accepting (t : Tee) (lvl : zapcore.Level) : List Core :=
  (t.filterMap id).filter (fun c => c.Enabled lvl)

/-- The records, named by their levels, that a sink writes out of the emitted
ones. -/
def Core.received (c : Core) (emitted : List zapcore.Level) : List zapcore.Level :=
  emitted.filter (fun lvl => c.Enabled lvl)

/-- The destination of a sink made by `zapcore.NewCore`. -/
def Core.destination : Core → Option WriteSyncer
  | .ioCore _ ws _ => some ws
  | .injected _ _ => none

/-- Function `fillLumberjack`. -/
def fillLumberjack (lumberjackLogger : lumberjack.Logger) : lumberjack.Logger :=
  let l1 := if lumberjackLogger.MaxSize = 0 then
    { lumberjackLogger with MaxSize := defaultRotateMaxSize } else lumberjackLogger
  let l2 := if l1.MaxAge = 0 then { l1 with MaxAge := defaultRotateMaxAge } else l1
  if l2.MaxBackups = 0 then { l2 with MaxBackups := defaultRotateMaxBackups } else l2

/-- Struct `Config`. -/
structure Config where
  Rotate : Option RotateConfig
  levelToPath : Option (GoMap zapcore.Level String)
  LevelToPath : GoMap String String
  location : Option time.Location
  TimeZone : String
  TimeLayout : String
  Service : String
  FilePath : String
  Hooks : List Hook
  Debug : Bool
  Dev : Bool
  JSON : Bool
  HideConsole : Bool
  Level : zapcore.Level
  deriving DecidableEq, Repr

/-- Function `NewConfig`: the zero value of `Config`. -/
def NewConfig : Config :=
  { Rotate := none, levelToPath := none, LevelToPath := [], location := none, TimeZone := "",
    TimeLayout := "", Service := "", FilePath := "", Hooks := [], Debug := false, Dev := false,
    JSON := false, HideConsole := false, Level := 0 }

/-- The process-wide variables of `config.go`. -/
structure Globals where
  core : Option Tee
  encoder : Option Encoder
  writeSyncer : Option WriteSyncer
  inputCores : Tee
  HiddenConsole : Bool

/-- The process-wide variables before any build. -/
def Globals.initial : Globals :=
  { core := none, encoder := none, writeSyncer := none, inputCores := [], HiddenConsole := false }

/-! ## logger.go: the logger node and its constructor -/

namespace zap

/-- A structured field, `zap.Field`, reduced to a key and a rendered value. -/
structure Field where
  Key : String
  Value : String
  deriving DecidableEq, Repr

/-- The state of a `*zap.Logger` that the package reads or changes. -/
structure Logger where
  core : Tee
  context : List Field
  name : String
  addCaller : Bool
  callerSkip : Int

/-- Function `zap.New(core)` followed by the option `zap.AddCaller()` when `addCaller`. -/
def New (core : Tee) (addCaller : Bool) : Logger :=
  { core := core, context := [], name := "", addCaller := addCaller, callerSkip := 0 }

/-- Method `With`: the fields join the context of the sinks. -/
def Logger.With (log : Logger) (fields : List Field) : Logger :=
  { log with context := log.context ++ fields }

/-- Method `Named` on a non-nil logger: an empty segment changes nothing. -/
def Logger.Named (log : Logger) (s : String) : Logger :=
  if s = "" then log
  else if log.name = "" then { log with name := s }
  else { log with name := log.name ++ "." ++ s }

end zap

/-- A run-time panic of the Go program. -/
inductive Panic where
  | nilPointer
  deriving DecidableEq, Repr

/-- Method `Named` on a `*zap.Logger` that may be nil: the empty segment returns
the receiver untouched, any other segment clones it and so dereferences it. -/
def zapNamed (log : Option zap.Logger) (s : String) : Except Panic (Option zap.Logger) :=
  if s = "" then .ok log
  else match log with
    | none => .error .nilPointer
    | some lg => .ok (some (lg.Named s))

/-- The value that an addition of Go leaves in an `int` of 64 bits for the
mathematical result `x`: a result outside the range wraps around. -/
def wrapInt (x : Int) : Int :=
  (x + 9223372036854775808) % 18446744073709551616 - 9223372036854775808

/-- Call `WithOptions(zap.AddCallerSkip(skip))` on a `*zap.Logger` that may be nil:
the option runs `log.callerSkip += skip` on the clone, an addition of `int`. -/
def zapAddCallerSkip (log : Option zap.Logger) (skip : Int) : Except Panic (Option zap.Logger) :=
  match log with
  | none => .error .nilPointer
  | some lg => .ok (some { lg with callerSkip := wrapInt (lg.callerSkip + skip) })

/-- Whether method `With` of a sink panics: a sink made by `zapcore.NewCore`
clones its encoder first, and the encoder may be a nil interface. -/
def Core.withFaults : Core → Bool
  | .ioCore none _ _ => true
  | _ => false

/-- Whether attaching fields to the composite `zapcore.NewTee(t...)` of a new
logger panics.  `NewTee` of a single entry is that entry, and for the nil sink
`zap.New` returns the no-op logger; otherwise `With` of the composite calls
`With` of every entry, a nil entry included. -/
def Tee.withFaults : Tee → Bool
  | [none] => false
  | t => t.any (fun c =>
      match c with
      | none => true
      | some c => c.withFaults)

/-- The expression `zap.New(zapcore.NewTee(t...), opts...)`, where `opts` holds
`zap.AddCaller()` when `addCaller`: for the nil sink `zap.New` returns the no-op
logger, to which no option is applied and whose sink accepts nothing. -/
def zapNew (t : Tee) (addCaller : Bool) : zap.Logger :=
  match t with
  | [none] => zap.New t false
  | _ => zap.New t addCaller

/-- Method `With` of a `*zap.Logger` that is not nil: without a field it returns
its receiver; with a field it calls `With` of the composite, which panics when a
sink of the composite cannot take fields. -/
def zapWith (log : zap.Logger) (fields : List zap.Field) : Except Panic zap.Logger :=
  if fields.isEmpty then .ok log
  else if log.core.withFaults then .error .nilPointer
  else .ok (log.With fields)

/-- The expression `zap.New(zapcore.NewTee(t...), opts...).With(fields...)`. -/
def zapNewWith (t : Tee) (addCaller : Bool) (fields : List zap.Field) :
    Except Panic zap.Logger :=
  zapWith (zapNew t addCaller) fields

/-- Struct `Exist` of `helpers.go`: the keys of its map `data`. -/
structure Exist where
  data : List String
  deriving DecidableEq, Repr

/-- Function `NewExist`. -/
def NewExist (_initCapacity : Int) : Exist := { data := [] }

/-- Function `ensureDuplicateKeys`. -/
def ensureDuplicateKeys (data : Option Exist) : Exist :=
  match data with
  | some d => d
  | none => NewExist 10

/-- Method `Exist.Exist`: is the key in the map. -/
def Exist.Exist (e : log2.Exist) (key : String) : Bool := decide (key ∈ e.data)

/-- Method `Exist.Set`: `e.data[key] = struct{}{}`. -/
def Exist.Set (e : log2.Exist) (key : String) : log2.Exist :=
  if key ∈ e.data then e else { data := e.data ++ [key] }

/-- Method `Exist.Copy`: a new set into which every key of the receiver is put. -/
def Exist.Copy (e : log2.Exist) : log2.Exist :=
  e.data.foldl (fun result key => result.Set key) (NewExist e.data.length)

/-- The `Exist` objects made so far.  A `*Exist` is a position in `cells`; a
position without a cell stands for a nil pointer. -/
structure ExistStore where
  cells : List Exist
  deriving DecidableEq, Repr

/-- Function `NewExist` with the store made explicit: the new set has a cell of
its own, and the result is the pointer to it. -/
def ExistStore.NewExist (s : ExistStore) (initCapacity : Int) : ExistStore × Nat :=
  ({ cells := s.cells ++ [log2.NewExist initCapacity] }, s.cells.length)

/-- Method `Exist.Exist` through a pointer. -/
def ExistStore.Exist (s : ExistStore) (e : Nat) (key : String) : Except Panic Bool :=
  match s.cells[e]? with
  | some c => .ok (c.Exist key)
  | none => .error .nilPointer

/-- Method `Exist.Set` through a pointer: the map of the receiver is written in
place. -/
def ExistStore.Set (s : ExistStore) (e : Nat) (key : String) : Except Panic ExistStore :=
  match s.cells[e]? with
  | some c => .ok { cells := s.cells.set e (c.Set key) }
  | none => .error .nilPointer

/-- Method `Exist.Copy` through a pointer: `NewExist` makes a new cell, the loop
writes every key of the receiver into the map of the new cell, and the pointer
to the new cell is returned. -/
def ExistStore.Copy (s : ExistStore) (e : Nat) : Except Panic (ExistStore × Nat) :=
  match s.cells[e]? with
  | none => .error .nilPointer
  | some c =>
    let result := s.NewExist c.data.length
    let written : Except Panic ExistStore :=
      c.data.foldl (fun st key => st.bind (fun s1 => s1.Set result.2 key)) (.ok result.1)
    match written with
    | .ok s2 => .ok (s2, result.2)
    | .error p => .error p

/-- Function `strings.Split(s, ".")` on the characters of `s`. -/
def splitDot : List Char → List (List Char)
  | [] => [[]]
  | c :: cs =>
    if c = '.' then [] :: splitDot cs
    else match splitDot cs with
      | seg :: rest => (c :: seg) :: rest
      | [] => [[c]]

/-- The expression `nameFields[len(nameFields)-1]` of `NewLogger`, where
`nameFields` is `strings.Split(name, ".")`. -/
def lastNameField (name : String) : String :=
  String.mk ((splitDot name.data).getLastD [])

/-- Struct `logger`. -/
structure logger where
  underlying : Option zap.Logger
  levelToPath : Option (GoMap zapcore.Level String)
  duplicateKeys : Option Exist
  name : String
  fields : List zap.Field
  skip : Int

/-- Function `NewLogger`. -/
def NewLogger (underlying : Option zap.Logger) (name : String) (skip : Int) (setName last : Bool)
    (levelToPath : Option (GoMap zapcore.Level String)) (duplicateKeys : Option Exist)
    (fields : List zap.Field) : Except Panic logger := do
  let u1 ←
    if setName then
      if last then
        zapNamed underlying (lastNameField name)
      else
        zapNamed underlying name
    else
      pure underlying
  if 0 ≤ skip then
    let u2 ← zapAddCallerSkip u1 skip
    pure { underlying := u2, levelToPath := levelToPath,
           duplicateKeys := some (ensureDuplicateKeys duplicateKeys),
           name := name, fields := fields, skip := skip }
  else
    pure { underlying := u1, levelToPath := levelToPath,
           duplicateKeys := some (ensureDuplicateKeys duplicateKeys),
           name := name, fields := fields, skip := 0 }

/-! ## config.go: the builder -/

/-- The loop of `Config.tidy` over the entries of `LevelToPath`: the first name
that does not parse ends it with that name as the error. -/
def tidyLoop (env : Env) :
    GoMap String String → GoMap zapcore.Level String → Option String × GoMap zapcore.Level String
  | [], m => (none, m)
  | (levelText, path) :: rest, m =>
    match env.ParseLevel levelText with
    | none => (some levelText, m)
    | some level => tidyLoop env rest (m.set level path)

/-- Method `Config.tidy`: the error (the offending name) if any, and the receiver
afterwards. -/
def Config.tidy (env : Env) (l : Config) : Option String × Config :=
  let r := tidyLoop env l.LevelToPath []
  (r.1, { l with levelToPath := some r.2 })

/-- Method `Config.newEncoderConfig`. -/
def Config.newEncoderConfig (l : Config) : EncoderConfig :=
  { location := l.location, TimeLayout := l.TimeLayout,
    EncodeCaller := if l.Dev then .full else .short }

/-- The two ways `Build` returns an error. -/
inductive BuildError where
  | tidy (levelText : String)
  | loadLocation (timeZone : String)
  deriving DecidableEq, Repr

/-- How a call of `Build` ends. -/
inductive Outcome where
  | ok (logger : logger)
  | error (err : BuildError)
  | fault (p : Panic)

/-- What a call of `Build` leaves behind: its outcome, the receiver and the
process-wide variables. -/
structure BuildResult where
  outcome : Outcome
  config : Config
  globals : Globals

/-- Lines 152 to 158 of `Build`: the default zone and layout for empty fields. -/
def Config.withDefaults (l : Config) : Config :=
  let l2 := if l.TimeZone = "" then { l with TimeZone := defaultTimeZone } else l
  if l2.TimeLayout = "" then { l2 with TimeLayout := defaultTimeLayout } else l2

/-- Lines 166 to 172 of `Build`: the encoder. -/
def Build.newEncoder (l : Config) : Encoder :=
  if l.JSON then Encoder.json l.newEncoderConfig else Encoder.console l.newEncoderConfig

/-- Lines 179 to 195 of `Build`, once `Rotate` is known to be set: the writer at
`<FilePath>.log` and the generic file sink. -/
def Build.genericSink (filePath : String) (rotate : RotateConfig)
    (cfgLevel : zapcore.LevelEnabler) (encoder : Encoder)
    (levelToPath : Option (GoMap zapcore.Level String)) : WriteSyncer × Core :=
  let lumberjackLogger := fillLumberjack
    { Filename := filePath ++ ".log", MaxSize := rotate.MaxSize,
      MaxBackups := rotate.MaxBackups, MaxAge := rotate.MaxAge,
      Compress := !rotate.DisableCompress }
  let ws := WriteSyncer.rotate lumberjackLogger
  (ws, Core.ioCore (some encoder) ws
    (.router (newLevelEnablerWithExcept cfgLevel (levelToPath.getD []) [])))

/-- Lines 174 to 196 of `Build`: the generic file sink, when `FilePath` is set; a
nil `Rotate` is replaced by the zero value first.  The result is the receiver,
the process-wide variables and `allCores`. -/
def Build.fileSink (l : Config) (cfgLevel : zapcore.LevelEnabler) (encoder : Encoder)
    (g : Globals) : Config × Globals × Tee :=
  if l.FilePath ≠ "" then
    let rotate : RotateConfig := l.Rotate.getD RotateConfig.zero
    let sink := Build.genericSink l.FilePath rotate cfgLevel encoder l.levelToPath
    ({ l with Rotate := some rotate }, { g with writeSyncer := some sink.1 }, [some sink.2])
  else
    (l, g, [])

/-- Lines 200 to 212 of `Build`, the body of the loop for one key once `l.Rotate`
has been dereferenced: the writer and the dedicated sink. -/
def Build.redirectSink (rotate : RotateConfig) (encoder : Encoder)
    (levelToPath : GoMap zapcore.Level String) (level : zapcore.Level) : WriteSyncer × Core :=
  let lumberjackLogger := fillLumberjack
    { Filename := (levelToPath.get? level).getD "", MaxSize := rotate.MaxSize,
      MaxBackups := rotate.MaxBackups, MaxAge := rotate.MaxAge, Compress := true }
  let ws := WriteSyncer.rotate lumberjackLogger
  (ws, Core.ioCore (some encoder) ws
    (.router (newLevelEnablerWithExcept (.level level) levelToPath [level])))

/-- Lines 199 to 213 of `Build`: the loop over the keys of `levelToPath`, one
dedicated sink per key.  The body reads `l.Rotate.MaxSize` first, so a nil
`Rotate` panics at the first key. -/
def Build.redirectSinks (l : Config) (encoder : Encoder) (levelToPath : GoMap zapcore.Level String) :
    List zapcore.Level → Globals × Tee → Except Panic (Globals × Tee)
  | [], st => .ok st
  | level :: rest, st =>
    match l.Rotate with
    | none => .error .nilPointer
    | some rotate =>
      let sink := Build.redirectSink rotate encoder levelToPath level
      Build.redirectSinks l encoder levelToPath rest
        ({ st.1 with writeSyncer := some sink.1 }, st.2 ++ [some sink.2])

/-- Lines 216 to 226 of `Build`: console sink, hook sinks, supplied sinks. -/
def Build.otherSinks (l : Config) (cfgLevel : zapcore.LevelEnabler) (encoder : Encoder)
    (cores : Tee) : Tee :=
  (if !l.HideConsole then [some (Core.ioCore (some encoder) .stdout (.plain cfgLevel))] else [])
    ++ l.Hooks.map (fun hook =>
        some (Core.ioCore (some encoder) (.addSync hook.Writer) (.plain (.level hook.MinLevel))))
    ++ cores

/-- Lines 174 to 231 of `Build`: the sinks are constructed and merged, the
composite is recorded, the field of the service is attached to the new logger
(a panic when a sink of the composite cannot take it), and the root node is
made. -/
def Build.assemble (l : Config) (cfgLevel : zapcore.LevelEnabler) (encoder : Encoder)
    (cores : Tee) (g : Globals) : BuildResult :=
  let fs := Build.fileSink l cfgLevel encoder g
  let l5 := fs.1
  let looped : Except Panic (Globals × Tee) :=
    match l5.levelToPath with
    | some m => Build.redirectSinks l5 encoder m m.keys (fs.2.1, fs.2.2)
    | none => .ok (fs.2.1, fs.2.2)
  match looped with
  | .error p => { outcome := .fault p, config := l5, globals := fs.2.1 }
  | .ok st =>
    let allCores := st.2 ++ Build.otherSinks l5 cfgLevel encoder cores
    let g5 := { st.1 with core := some allCores }
    match zapNewWith allCores true [{ Key := "系统", Value := l5.Service }] with
    | .error p => { outcome := .fault p, config := l5, globals := g5 }
    | .ok withService =>
      match NewLogger (some withService) "" 1 true false l5.levelToPath none [] with
      | .error p => { outcome := .fault p, config := l5, globals := g5 }
      | .ok lg => { outcome := .ok lg, config := l5, globals := g5 }

/-- Method `Config.Build`. -/
def Config.Build (env : Env) (l : Config) (cores : Tee) (g : Globals) : BuildResult :=
  let t := l.tidy env
  match t.1 with
  | some levelText => { outcome := .error (.tidy levelText), config := t.2, globals := g }
  | none =>
    let g1 := { g with HiddenConsole := t.2.HideConsole, inputCores := cores }
    let l3 := t.2.withDefaults
    match env.LoadLocation l3.TimeZone with
    | none =>
      { outcome := .error (.loadLocation l3.TimeZone), config := { l3 with location := none },
        globals := g1 }
    | some loc =>
      let l4 := { l3 with location := some loc }
      let encoder := Build.newEncoder l4
      Build.assemble l4 (.atomic l4.Level) encoder cores { g1 with encoder := some encoder }

/-! ## logger.go: re-leveling -/

/-- Method `logger.SetLevel`: the returned node (or the panic) and the
process-wide variables afterwards.  The composite is recorded before the own
fields are attached to the new logger, which panics when there is a field and a
sink of the composite has the nil encoder of a process without a build. -/
def logger.SetLevel (l : logger) (level : zapcore.Level) (g : Globals) :
    Except Panic logger × Globals :=
  let fileCore : Tee := match g.writeSyncer with
    | some ws => [some (Core.ioCore g.encoder ws (.plain (.level level)))]
    | none => []
  let injectedCores : Tee := g.inputCores.filter (fun inputCore => inputCore.isSome)
  let consoleCore : Tee :=
    if !g.HiddenConsole then [some (Core.ioCore g.encoder .stdout (.plain (.level level)))] else []
  let allCore := fileCore ++ injectedCores ++ consoleCore
  let g1 := { g with core := some allCore }
  match zapNewWith allCore false l.fields with
  | .error p => (.error p, g1)
  | .ok withFields =>
    let resultLogger := { withFields with addCaller := true }
    (NewLogger (some resultLogger) l.name 1 true false l.levelToPath none l.fields, g1)

/-! ## logger.go: derivation and field attachment -/

/-- Method `logger.Derive`.  The arguments of `NewLogger` are evaluated first, so
a nil `duplicateKeys` panics in `Copy`. -/
def logger.Derive (l : logger) (s : String) : Except Panic logger :=
  let names : List String := if l.name = "" then [s] else [l.name, s]
  match l.duplicateKeys with
  | none => .error .nilPointer
  | some d =>
    NewLogger l.underlying (".".intercalate names) (-1) true true l.levelToPath
      (some d.Copy) l.fields

/-- Method `logger.With`: without an underlying logger the receiver comes back;
otherwise the own fields of the node followed by the given ones go to the
underlying logger (a panic when there is a field and a sink of its composite
cannot take fields), and the new node has no own fields. -/
def logger.With (l : logger) (fields : List zap.Field) : Except Panic logger :=
  match l.underlying with
  | none => .ok l
  | some u =>
    match zapWith u (l.fields ++ fields) with
    | .error p => .error p
    | .ok withFields =>
      match l.duplicateKeys with
      | none => .error .nilPointer
      | some d =>
        NewLogger (some withFields) l.name (-1) false false l.levelToPath (some d.Copy) []

/-- Method `logger.WithWhenNotExist`: when the key is new and there is an
underlying logger, the own fields of the node followed by the field go to the
underlying logger, a panic when a sink of its composite cannot take fields. -/
def logger.WithWhenNotExist (l : logger) (key : String) (field : zap.Field) :
    Except Panic logger :=
  match l.duplicateKeys with
  | none => .error .nilPointer
  | some d =>
    if d.Exist key then .ok l
    else match l.underlying with
      | none => .ok l
      | some u =>
        let duplicate := d.Copy.Set key
        match zapWith u (l.fields ++ [field]) with
        | .error p => .error p
        | .ok withFields =>
          NewLogger (some withFields) l.name (-1) false false l.levelToPath (some duplicate) []

/-- Method `logger.Start`; `taskID` is the text of the fresh object identifier. -/
def logger.Start (l : logger) (taskID : String) : Except Panic logger :=
  l.With [{ Key := "任务ID", Value := taskID }]

/-- Method `logger.AddCallerSkip`. -/
def logger.AddCallerSkip (l : logger) (skip : Int) : Except Panic logger :=
  NewLogger l.underlying l.name skip false false l.levelToPath l.duplicateKeys []

/-! ## logger.go: the logging operations -/

/-- A log entry as the underlying logger hands it to its composite: level,
logger name, message, and the context fields followed by the fields of the
call. -/
structure Entry where
  Level : zapcore.Level
  LoggerName : String
  Message : String
  Fields : List zap.Field
  deriving DecidableEq, Repr

/-- How a logging call ends: it returns, the process exits (fatal), or it
panics (panic). -/
inductive Ending where
  | returns
  | exits
  | panics
  deriving DecidableEq, Repr

/-- What a logging call does: the entries handed to the composite, and how the
call ends. -/
structure Emission where
  entries : List Entry
  ending : Ending
  deriving DecidableEq, Repr

/-- Whether the composite `zapcore.NewTee(t...)` of a logger panics on an entry
of level `lvl`: the composite of two or more entries calls `Check` of every
entry, a nil entry included, and a sink made by `zapcore.NewCore` that accepts
the level encodes the entry with its encoder, which may be a nil interface. -/
def Tee.logFaults (t : Tee) (lvl : zapcore.Level) : Bool :=
  match t with
  | [none] => false
  | _ => t.any (fun c =>
      match c with
      | none => true
      | some c => c.withFaults && c.Enabled lvl)

/-- The methods `Debug` to `Panic` of a `*zap.Logger` that is not nil: one entry
goes to the composite, which panics when a sink of it cannot handle the entry;
after it a fatal call exits and a panic call panics. -/
def zap.Logger.log (log : zap.Logger) (lvl : zapcore.Level) (msg : String)
    (fields : List zap.Field) : Emission :=
  { entries := [{ Level := lvl, LoggerName := log.name, Message := msg,
                  Fields := log.context ++ fields }]
    ending := if log.core.logFaults lvl then .panics
              else if lvl = zapcore.PanicLevel then .panics
              else if lvl = zapcore.FatalLevel then .exits else .returns }

/-- The body shared by the six logging methods of `logger`: nothing happens
without an underlying logger. -/
def logger.log (l : logger) (lvl : zapcore.Level) (msg : String) (fields : List zap.Field) :
    Emission :=
  match l.underlying with
  | some u => u.log lvl msg fields
  | none => { entries := [], ending := .returns }

/-- Method `logger.Info`. -/
def logger.Info (l : logger) (msg : String) (fields : List zap.Field) : Emission :=
  l.log zapcore.InfoLevel msg fields

/-- Method `logger.Debug`. -/
def logger.Debug (l : logger) (msg : String) (fields : List zap.Field) : Emission :=
  l.log zapcore.DebugLevel msg fields

/-- Method `logger.Warn`. -/
def logger.Warn (l : logger) (msg : String) (fields : List zap.Field) : Emission :=
  l.log zapcore.WarnLevel msg fields

/-- Method `logger.Error`. -/
def logger.Error (l : logger) (msg : String) (fields : List zap.Field) : Emission :=
  l.log zapcore.ErrorLevel msg fields

/-- Method `logger.Fatal`. -/
def logger.Fatal (l : logger) (msg : String) (fields : List zap.Field) : Emission :=
  l.log zapcore.FatalLevel msg fields

/-- Method `logger.Panic`. -/
def logger.Panic (l : logger) (msg : String) (fields : List zap.Field) : Emission :=
  l.log zapcore.PanicLevel msg fields

/-! ## Sequences of operations -/

/-- One step of a chain of node operations: `Derive`, `With` or `AddCallerSkip`. -/
inductive ChainStep where
  | derive (s : String)
  | withFields (fs : List zap.Field)
  | addCallerSkip (skip : Int)

/-- The step applied to a node. -/
def ChainStep.run (st : ChainStep) (l : logger) : Except Panic logger :=
  match st with
  | .derive s => l.Derive s
  | .withFields fs => l.With fs
  | .addCallerSkip skip => l.AddCallerSkip skip

/-- The fields that the steps of a chain hand to `With`, in order. -/
def chainFields : List ChainStep → List zap.Field
  | [] => []
  | .withFields fs :: rest => fs ++ chainFields rest
  | _ :: rest => chainFields rest

/-- A chain of steps applied to a node, each step to the node the one before
returned; a panic ends the chain. -/
def runChain : List ChainStep → logger → Except Panic logger
  | [], l => .ok l
  | st :: rest, l =>
    match st.run l with
    | .ok l2 => runChain rest l2
    | .error p => .error p

/-- One operation of a node that returns a node: `Derive`, `With`,
`WithWhenNotExist`, `Start` (with the text of its fresh identifier),
`AddCallerSkip` or `SetLevel`. -/
inductive NodeOp where
  | derive (s : String)
  | withFields (fs : List zap.Field)
  | withWhenNotExist (key : String) (field : zap.Field)
  | start (taskID : String)
  | addCallerSkip (skip : Int)
  | setLevel (level : zapcore.Level)

/-- The operation applied to a node under the process-wide variables: the node
it returns (or the panic) and the variables afterwards. -/
def NodeOp.run (op : NodeOp) (l : logger) (g : Globals) : Except Panic logger × Globals :=
  match op with
  | .derive s => (l.Derive s, g)
  | .withFields fs => (l.With fs, g)
  | .withWhenNotExist key field => (l.WithWhenNotExist key field, g)
  | .start taskID => (l.Start taskID, g)
  | .addCallerSkip skip => (l.AddCallerSkip skip, g)
  | .setLevel level => l.SetLevel level g

/-- A sequence of operations, each applied to the node the one before returned;
a panic ends the sequence. -/
def runOps : List NodeOp → logger → Globals → Except Panic logger × Globals
  | [], l, g => (.ok l, g)
  | op :: rest, l, g =>
    match op.run l g with
    | (.ok l2, g2) => runOps rest l2 g2
    | (.error p, g2) => (.error p, g2)

/-! ## The nodes and their sets in memory -/

/-- Struct `logger` as it lies in memory: `duplicateKeys` is a pointer into the
store of sets, `none` being nil.  The `*zap.Logger` is held by value: zap never
writes a logger it has handed out, every option and every `With` works on a
clone. -/
structure loggerCell where
  underlying : Option zap.Logger
  levelToPath : Option (GoMap zapcore.Level String)
  duplicateKeys : Option Nat
  name : String
  fields : List zap.Field
  skip : Int

/-- The memory of the package: the process-wide variables, the `Exist` objects
and the `logger` objects made so far.  A `*logger` is a position in `nodes`; a
position without a node stands for a nil pointer. -/
structure Heap where
  globals : Globals
  sets : ExistStore
  nodes : List loggerCell

/-- An assignment to the node behind a pointer. -/
def Heap.write (h : Heap) (p : Nat) (c : loggerCell) : Heap :=
  { h with nodes := h.nodes.set p c }

/-- Function `ensureDuplicateKeys` on pointers: a pointer that is not nil is
returned, otherwise `NewExist(10)` makes a new set. -/
def Heap.ensureDuplicateKeys (h : Heap) (data : Option Nat) : Heap × Nat :=
  match data with
  | some d => (h, d)
  | none =>
    let r := h.sets.NewExist 10
    ({ h with sets := r.1 }, r.2)

/-- Function `NewLogger` in memory: `result := &logger{...}` makes a new node,
and the assignments `result.underlying = ...`, `result.skip = skip` and
`result.levelToPath = levelToPath` write it through the pointer `result`.  The
outcome is the pointer, or the panic, and the memory afterwards. -/
def Heap.NewLogger (h : Heap) (underlying : Option zap.Logger) (name : String) (skip : Int)
    (setName last : Bool) (levelToPath : Option (GoMap zapcore.Level String))
    (duplicateKeys : Option Nat) (fields : List zap.Field) : Except Panic Nat × Heap :=
  let e := h.ensureDuplicateKeys duplicateKeys
  let result := e.1.nodes.length
  let c0 : loggerCell :=
    { underlying := underlying, levelToPath := none, duplicateKeys := some e.2, name := name,
      fields := fields, skip := 0 }
  let h0 : Heap := { e.1 with nodes := e.1.nodes ++ [c0] }
  let named : Except Panic (loggerCell × Heap) :=
    if setName then
      match zapNamed underlying (if last then lastNameField name else name) with
      | .ok u1 => .ok ({ c0 with underlying := u1 }, h0.write result { c0 with underlying := u1 })
      | .error p => .error p
    else .ok (c0, h0)
  match named with
  | .error p => (.error p, h0)
  | .ok (c1, h1) =>
    if 0 ≤ skip then
      match zapAddCallerSkip c1.underlying skip with
      | .error p => (.error p, h1)
      | .ok u2 =>
        let c2 := { c1 with underlying := u2 }
        let c3 := { c2 with skip := skip }
        let h3 := (h1.write result c2).write result c3
        (.ok result, h3.write result { c3 with levelToPath := levelToPath })
    else
      (.ok result, h1.write result { c1 with levelToPath := levelToPath })

/-- Method `logger.Derive` in memory, on the node behind the pointer `l`.  The
arguments of `NewLogger` are evaluated first: `l.duplicateKeys.Copy()` makes the
set of the new node. -/
def Heap.Derive (h : Heap) (l : Nat) (s : String) : Except Panic Nat × Heap :=
  match h.nodes[l]? with
  | none => (.error .nilPointer, h)
  | some c =>
    let names : List String := if c.name = "" then [s] else [c.name, s]
    match c.duplicateKeys with
    | none => (.error .nilPointer, h)
    | some d =>
      match h.sets.Copy d with
      | .error p => (.error p, h)
      | .ok (sets2, copy) =>
        Heap.NewLogger { h with sets := sets2 } c.underlying (".".intercalate names) (-1) true
          true c.levelToPath (some copy) c.fields

/-- Method `logger.With` in memory.  The receiver is a value, the copy `c` of the
node behind the pointer; `return &l` hands out a pointer to that copy, a new
object that holds the pointer to the set of the node. -/
def Heap.With (h : Heap) (l : Nat) (fields : List zap.Field) : Except Panic Nat × Heap :=
  match h.nodes[l]? with
  | none => (.error .nilPointer, h)
  | some c =>
    match c.underlying with
    | none => (.ok h.nodes.length, { h with nodes := h.nodes ++ [c] })
    | some u =>
      match zapWith u (c.fields ++ fields) with
      | .error p => (.error p, h)
      | .ok withFields =>
        match c.duplicateKeys with
        | none => (.error .nilPointer, h)
        | some d =>
          match h.sets.Copy d with
          | .error p => (.error p, h)
          | .ok (sets2, copy) =>
            Heap.NewLogger { h with sets := sets2 } (some withFields) c.name
              (-1) false false c.levelToPath (some copy) []

/-- Method `logger.WithWhenNotExist` in memory: `duplicate := l.duplicateKeys.Copy()`
makes a new set, and `duplicate.Set(key)` writes that new set, both before the
fields go to the underlying logger. -/
def Heap.WithWhenNotExist (h : Heap) (l : Nat) (key : String) (field : zap.Field) :
    Except Panic Nat × Heap :=
  match h.nodes[l]? with
  | none => (.error .nilPointer, h)
  | some c =>
    match c.duplicateKeys with
    | none => (.error .nilPointer, h)
    | some d =>
      match h.sets.Exist d key with
      | .error p => (.error p, h)
      | .ok true => (.ok h.nodes.length, { h with nodes := h.nodes ++ [c] })
      | .ok false =>
        match c.underlying with
        | none => (.ok h.nodes.length, { h with nodes := h.nodes ++ [c] })
        | some u =>
          match h.sets.Copy d with
          | .error p => (.error p, h)
          | .ok (sets2, duplicate) =>
            match sets2.Set duplicate key with
            | .error p => (.error p, { h with sets := sets2 })
            | .ok sets3 =>
              match zapWith u (c.fields ++ [field]) with
              | .error p => (.error p, { h with sets := sets3 })
              | .ok withFields =>
                Heap.NewLogger { h with sets := sets3 } (some withFields)
                  c.name (-1) false false c.levelToPath (some duplicate) []

/-- Method `logger.SetLevel` in memory.  The receiver is a value, the copy `c` of
the node behind the pointer; the method reads the process-wide variables,
assigns the variable `core`, and makes the new node with `NewLogger`. -/
def Heap.SetLevel (h : Heap) (l : Nat) (level : zapcore.Level) : Except Panic Nat × Heap :=
  match h.nodes[l]? with
  | none => (.error .nilPointer, h)
  | some c =>
    let fileCore : Tee := match h.globals.writeSyncer with
      | some ws => [some (Core.ioCore h.globals.encoder ws (.plain (.level level)))]
      | none => []
    let injectedCores : Tee := h.globals.inputCores.filter (fun inputCore => inputCore.isSome)
    let consoleCore : Tee :=
      if !h.globals.HiddenConsole then
        [some (Core.ioCore h.globals.encoder .stdout (.plain (.level level)))]
      else []
    let allCore := fileCore ++ injectedCores ++ consoleCore
    let h1 : Heap := { h with globals := { h.globals with core := some allCore } }
    match zapNewWith allCore false c.fields with
    | .error p => (.error p, h1)
    | .ok withFields =>
      let resultLogger := { withFields with addCaller := true }
      Heap.NewLogger h1 (some resultLogger) c.name 1 true false c.levelToPath none c.fields

/-- Method `logger.Start` in memory; `taskID` is the text of the fresh object
identifier. -/
def Heap.Start (h : Heap) (l : Nat) (taskID : String) : Except Panic Nat × Heap :=
  h.With l [{ Key := "任务ID", Value := taskID }]

/-- Method `logger.AddCallerSkip` in memory: the new node holds the pointer to
the set of the node. -/
def Heap.AddCallerSkip (h : Heap) (l : Nat) (skip : Int) : Except Panic Nat × Heap :=
  match h.nodes[l]? with
  | none => (.error .nilPointer, h)
  | some c => Heap.NewLogger h c.underlying c.name skip false false c.levelToPath c.duplicateKeys []

/-- The node behind a pointer with its set read out of the store: the node as a
value. -/
def Heap.view (h : Heap) (p : Nat) : Option logger :=
  match h.nodes[p]? with
  | none => none
  | some c =>
    some { underlying := c.underlying, levelToPath := c.levelToPath,
           duplicateKeys := c.duplicateKeys.bind (fun d => h.sets.cells[d]?),
           name := c.name, fields := c.fields, skip := c.skip }

/-! ## A concrete environment for closed statements -/

/-- A stand-in for `zapcore.ParseLevel` that knows the lower- and upper-case
level names, the empty name standing for info, and rejects every other text.
(The library also accepts other spellings of the same names by lower-casing;
the closed statements below use `debug`, `info` and `verbose` only.) -/
def sampleParseLevel (text : String) : Option zapcore.Level :=
  if text = "debug" ∨ text = "DEBUG" then some zapcore.DebugLevel
  else if text = "info" ∨ text = "INFO" ∨ text = "" then some zapcore.InfoLevel
  else if text = "warn" ∨ text = "WARN" then some zapcore.WarnLevel
  else if text = "error" ∨ text = "ERROR" then some zapcore.ErrorLevel
  else if text = "dpanic" ∨ text = "DPANIC" then some zapcore.DPanicLevel
  else if text = "panic" ∨ text = "PANIC" then some zapcore.PanicLevel
  else if text = "fatal" ∨ text = "FATAL" then some zapcore.FatalLevel
  else none

/-- A stand-in for `time.LoadLocation` over a zone database that holds UTC and
the default zone of the package. -/
def sampleLoadLocation (name : String) : Option time.Location :=
  if name = "" ∨ name = "UTC" then some { name := "UTC" }
  else if name = "Asia/Shanghai" then some { name := "Asia/Shanghai" }
  else none

/-- The environment used by the closed statements below. -/
def sampleEnv : Env :=
  { ParseLevel := sampleParseLevel, LoadLocation := sampleLoadLocation }

/-- A configuration with a base file path and the redirect map of debug and
info, the minimum severity being debug. -/
def routingExample : Config :=
  { NewConfig with
    FilePath := "logs/app"
    Level := zapcore.DebugLevel
    LevelToPath := [("debug", "logs/debug.log"), ("info", "logs/info.log")] }

/-- The rotating writer at a file with the default limits and compression on. -/
def rotatedFile (filename : String) : WriteSyncer :=
  .rotate { Filename := filename, MaxSize := 100, MaxBackups := 50, MaxAge := 7, Compress := true }

/-- A configuration with a base file path and debug alone redirected, the
minimum severity being debug. -/
def singleRedirectExample : Config :=
  { NewConfig with
    FilePath := "logs/app"
    Level := zapcore.DebugLevel
    LevelToPath := [("debug", "logs/debug.log")] }

/-- A configuration with a base file path and nothing else. -/
def baseOnlyExample : Config :=
  { NewConfig with FilePath := "logs/app" }

/-- A configuration without file destinations that names its service. -/
def serviceExample : Config :=
  { NewConfig with Service := "test", Level := zapcore.DebugLevel }

/-- Two fields for the closed statements. -/
def fieldA : zap.Field := { Key := "a", Value := "x" }

/-- The second field for the closed statements. -/
def fieldB : zap.Field := { Key := "b", Value := "y" }

/-- The node `&logger{underlying: nil}` of the tests. -/
def sinklessNode : logger :=
  { underlying := none, levelToPath := none, duplicateKeys := none, name := "", fields := [],
    skip := 0 }

/-- A configuration whose redirect mapping holds a name that is no severity,
with every other field set to something that would make a sink. -/
def badNameExample : Config :=
  { NewConfig with
    FilePath := "logs/app"
    Rotate := some { MaxSize := 200, MaxBackups := 0, MaxAge := 0, DisableCompress := false }
    HideConsole := true
    Hooks := [{ Writer := 1, MinLevel := zapcore.WarnLevel }]
    LevelToPath := [("debug", "logs/debug.log"), ("verbose", "logs/verbose.log")] }

/-- A configuration without file destinations whose zone is in no database, with
the console hidden. -/
def badZoneExample : Config :=
  { NewConfig with TimeZone := "Mars/Olympus", HideConsole := true }

/-- The configuration of `TestLogger_AddLogrus` without its `Rotate` field: a
redirect map, no base file path, no rotation limits. -/
def redirectOnlyExample : Config :=
  { NewConfig with
    Service := "test"
    Level := zapcore.DebugLevel
    Debug := true
    LevelToPath := [("debug", "debug.log"), ("info", "info.log")] }

/-- A configuration with a base file path and debug redirected, whose rotation
limits switch compression off. -/
def compressionExample : Config :=
  { NewConfig with
    FilePath := "logs/app"
    Level := zapcore.DebugLevel
    Rotate := some { MaxSize := 0, MaxBackups := 0, MaxAge := 0, DisableCompress := true }
    LevelToPath := [("debug", "logs/debug.log")] }

/-- A configuration with a base file path, debug redirected and one hook. -/
def hookExample : Config :=
  { NewConfig with
    FilePath := "logs/app"
    Level := zapcore.DebugLevel
    Hooks := [{ Writer := 1, MinLevel := zapcore.WarnLevel }]
    LevelToPath := [("debug", "logs/debug.log")] }

/-- A sink supplied by the caller that accepts info and above, as the observer
of the tests does. -/
def observerCore : Core := .injected 0 (fun lvl => decide (zapcore.InfoLevel ≤ lvl))

/-- The node `NewLogger(zap.New(core), "test", 0, false, false, nil, nil)` of the
tests, with `observerCore` as its sink. -/
def observedNode : logger :=
  { underlying := some { core := [some observerCore], context := [], name := "",
                         addCaller := false, callerSkip := 0 },
    levelToPath := none, duplicateKeys := some (NewExist 10), name := "test", fields := [],
    skip := 0 }

/-- A store with one set, which holds `original-key`, as in the tests of `Copy`. -/
def sampleStore : ExistStore := { cells := [{ data := ["original-key"] }] }

/-- The zero configuration with one hook. -/
def hookOnlyExample : Config :=
  { NewConfig with Hooks := [{ Writer := 1, MinLevel := zapcore.WarnLevel }] }

/-- The node `NewLogger(zap.New(core), "test", 0, false, false, nil, nil, field)`:
the node of the tests with the own field `fieldA`. -/
def fieldedNode : logger := { observedNode with fields := [fieldA] }

/-- The node of the tests in memory, with its set, in a process without a
build. -/
def sampleHeap : Heap :=
  { globals := Globals.initial, sets := { cells := [NewExist 10] },
    nodes := [{ underlying := observedNode.underlying, levelToPath := none,
                duplicateKeys := some 0, name := "test", fields := [], skip := 0 }] }

/-! ## Lemmas on Go maps -/

namespace GoMap

variable {κ ν : Type} [DecidableEq κ]

theorem get?_cons (e : κ × ν) (m : GoMap κ ν) (x : κ) :
    get? (e :: m) x = if e.1 = x then some e.2 else get? m x := by
  unfold get?
  by_cases h : e.1 = x <;> simp [List.find?, h]

theorem get?_set (m : GoMap κ ν) (k x : κ) (v : ν) :
    (m.set k v).get? x = if x = k then some v else m.get? x := by
  induction m with
  | nil =>
    by_cases h : x = k
    · simp [set, get?_cons, h]
    · have h2 : ¬ k = x := fun e => h e.symm
      simp [set, get?_cons, h, h2, get?]
  | cons e rest ih =>
    by_cases hk : e.1 = k
    · by_cases h : x = k
      · simp [set, hk, get?_cons, h]
      · have h2 : ¬ k = x := fun e => h e.symm
        simp [set, hk, get?_cons, h, h2]
    · by_cases h : x = k
      · subst h
        simp only [if_true] at ih
        simp [set, hk, get?_cons, ih]
      · simp only [if_neg h] at ih
        simp [set, hk, get?_cons, ih, h]

theorem delete_cons (e : κ × ν) (m : GoMap κ ν) (k : κ) :
    delete (e :: m) k = if e.1 = k then delete m k else e :: delete m k := by
  by_cases h : e.1 = k <;> simp [delete, List.filter, h]

theorem get?_delete (m : GoMap κ ν) (k x : κ) :
    (m.delete k).get? x = if x = k then none else m.get? x := by
  induction m with
  | nil => simp [delete, get?]
  | cons e rest ih =>
    rw [delete_cons]
    by_cases hk : e.1 = k
    · rw [if_pos hk, ih]
      by_cases h : x = k
      · simp [h]
      · have h3 : ¬ e.1 = x := fun e2 => h (e2.symm.trans hk)
        simp [h, get?_cons, h3]
    · rw [if_neg hk, get?_cons, ih, get?_cons]
      by_cases h : x = k
      · have h3 : ¬ e.1 = x := fun e2 => hk (e2.trans h)
        simp [h, hk]
      · simp [h]

theorem keys_set (m : GoMap κ ν) (k : κ) (v : ν) (x : κ) :
    x ∈ (m.set k v).keys ↔ x = k ∨ x ∈ m.keys := by
  induction m with
  | nil => simp [set, keys]
  | cons e rest ih =>
    have ih2 : x ∈ List.map Prod.fst (set rest k v) ↔ x = k ∨ x ∈ List.map Prod.fst rest := ih
    by_cases hk : e.1 = k
    · simp [set, hk, keys]
    · simp [set, hk, keys, ih2]
      tauto

theorem nodup_set (m : GoMap κ ν) (k : κ) (v : ν) (h : m.keys.Nodup) :
    (m.set k v).keys.Nodup := by
  induction m with
  | nil => simp [set, keys]
  | cons e rest ih =>
    have hc : e.1 ∉ keys rest ∧ (keys rest).Nodup := by
      simpa [keys] using h
    by_cases hk : e.1 = k
    · have : keys (set (e :: rest) k v) = k :: keys rest := by simp [set, hk, keys]
      rw [this, List.nodup_cons]
      exact ⟨hk ▸ hc.1, hc.2⟩
    · have : keys (set (e :: rest) k v) = e.1 :: keys (set rest k v) := by simp [set, hk, keys]
      rw [this, List.nodup_cons]
      refine ⟨?_, ih hc.2⟩
      rw [keys_set]
      rintro (h1 | h1)
      · exact hk h1
      · exact hc.1 h1

theorem get?_of_mem (m : GoMap κ ν) (h : m.keys.Nodup) (k : κ) (v : ν) (hm : (k, v) ∈ m) :
    m.get? k = some v := by
  induction m with
  | nil => simp at hm
  | cons e rest ih =>
    have hc : e.1 ∉ keys rest ∧ (keys rest).Nodup := by
      simpa [keys] using h
    rw [get?_cons]
    rcases List.mem_cons.mp hm with he | he
    · simp [← he]
    · have hne : ¬ e.1 = k := by
        intro e2
        apply hc.1
        rw [e2]
        exact List.mem_map_of_mem Prod.fst he
      simp [hne, ih hc.2 he]

end GoMap

/-! ## The severity router -/

theorem marked_get? (ks : List zapcore.Level) (acc : GoMap zapcore.Level Bool) (x : zapcore.Level) :
    (ks.foldl (fun acc level => acc.set level true) acc).get? x
      = if x ∈ ks then some true else acc.get? x := by
  induction ks generalizing acc with
  | nil => simp
  | cons k rest ih =>
    rw [List.foldl_cons, ih, GoMap.get?_set]
    by_cases h1 : x ∈ rest
    · simp [h1]
    · by_cases h2 : x = k <;> simp [h1, h2]

theorem deleted_get? (ex : List zapcore.Level) (acc : GoMap zapcore.Level Bool) (x : zapcore.Level) :
    (ex.foldl (fun acc exceptLevel => acc.delete exceptLevel) acc).get? x
      = if x ∈ ex then none else acc.get? x := by
  induction ex generalizing acc with
  | nil => simp
  | cons k rest ih =>
    rw [List.foldl_cons, ih, GoMap.get?_delete]
    by_cases h1 : x ∈ rest
    · simp [h1]
    · by_cases h2 : x = k <;> simp [h1, h2]

/-- The marks of a router made by `newLevelEnablerWithExcept`: a level is marked
exactly when it is a key of the map and not among the exempted levels. -/
theorem newLevelEnablerWithExcept_except {T : Type} (enabler : zapcore.LevelEnabler)
    (m : GoMap zapcore.Level T) (ex : List zapcore.Level) (x : zapcore.Level) :
    (newLevelEnablerWithExcept enabler m ex).except.get? x
      = if x ∈ m.keys ∧ x ∉ ex then some true else none := by
  unfold newLevelEnablerWithExcept
  simp only [deleted_get?, marked_get?]
  by_cases h1 : x ∈ ex
  · simp [h1]
  · by_cases h2 : x ∈ m.keys <;> simp [h1, h2, GoMap.get?]

theorem newLevelEnablerWithExcept_base {T : Type} (enabler : zapcore.LevelEnabler)
    (m : GoMap zapcore.Level T) (ex : List zapcore.Level) :
    (newLevelEnablerWithExcept enabler m ex).LevelEnabler = enabler := rfl

theorem levelEnableWithExcept_Enabled_iff (l : levelEnableWithExcept) (level : zapcore.Level) :
    l.Enabled level = true
      ↔ l.LevelEnabler.Enabled level = true ∧ ¬ l.except.get? level = some true := by
  unfold levelEnableWithExcept.Enabled
  cases hb : l.LevelEnabler.Enabled level
  · simp
  · cases hg : l.except.get? level with
    | none => simp
    | some b => cases b <;> simp

/-- Acceptance of a router made by `newLevelEnablerWithExcept`. -/
theorem newLevelEnablerWithExcept_Enabled {T : Type} (enabler : zapcore.LevelEnabler)
    (m : GoMap zapcore.Level T) (ex : List zapcore.Level) (x : zapcore.Level) :
    (newLevelEnablerWithExcept enabler m ex).Enabled x = true
      ↔ enabler.Enabled x = true ∧ ¬ (x ∈ m.keys ∧ x ∉ ex) := by
  rw [levelEnableWithExcept_Enabled_iff, newLevelEnablerWithExcept_except,
    newLevelEnablerWithExcept_base]
  by_cases h : x ∈ m.keys ∧ x ∉ ex
  · simp [h]
  · simp [h]

/-! ## Parsing the redirect map -/

theorem tidyLoop_nodup (env : Env) (xs : GoMap String String) (acc : GoMap zapcore.Level String)
    (h : acc.keys.Nodup) : (tidyLoop env xs acc).2.keys.Nodup := by
  induction xs generalizing acc with
  | nil => simpa [tidyLoop] using h
  | cons e rest ih =>
    obtain ⟨levelText, path⟩ := e
    unfold tidyLoop
    cases hp : env.ParseLevel levelText with
    | none => simpa using h
    | some level => simpa using ih _ (GoMap.nodup_set acc level path h)

theorem tidyLoop_bad (env : Env) (xs : GoMap String String) (acc : GoMap zapcore.Level String)
    (h : ∃ name ∈ xs.keys, env.ParseLevel name = none) :
    ∃ bad, (tidyLoop env xs acc).1 = some bad ∧ bad ∈ xs.keys ∧ env.ParseLevel bad = none := by
  induction xs generalizing acc with
  | nil => simp [GoMap.keys] at h
  | cons e rest ih =>
    obtain ⟨levelText, path⟩ := e
    unfold tidyLoop
    cases hp : env.ParseLevel levelText with
    | none => exact ⟨levelText, rfl, by simp [GoMap.keys], hp⟩
    | some level =>
      obtain ⟨name, hmem, hnone⟩ := h
      have hrest : ∃ name ∈ GoMap.keys rest, env.ParseLevel name = none := by
        simp only [GoMap.keys, List.map_cons, List.mem_cons] at hmem
        rcases hmem with h1 | h1
        · rw [h1, hp] at hnone
          cases hnone
        · exact ⟨name, h1, hnone⟩
      obtain ⟨bad, hb1, hb2, hb3⟩ := ih (acc.set level path) hrest
      exact ⟨bad, hb1, by simp only [GoMap.keys, List.map_cons, List.mem_cons]; exact Or.inr hb2, hb3⟩

theorem tidyLoop_good (env : Env) (xs : GoMap String String) (acc : GoMap zapcore.Level String)
    (h : ∀ name ∈ xs.keys, ∃ level, env.ParseLevel name = some level) :
    (tidyLoop env xs acc).1 = none := by
  induction xs generalizing acc with
  | nil => rfl
  | cons e rest ih =>
    obtain ⟨levelText, path⟩ := e
    unfold tidyLoop
    obtain ⟨level, hl⟩ := h levelText (by simp [GoMap.keys])
    rw [hl]
    exact ih _ (fun name hn => h name (by
      simp only [GoMap.keys, List.map_cons, List.mem_cons]; exact Or.inr hn))

theorem tidyLoop_keys (env : Env) (xs : GoMap String String) (acc : GoMap zapcore.Level String)
    (h : (tidyLoop env xs acc).1 = none) (x : zapcore.Level) :
    x ∈ (tidyLoop env xs acc).2.keys
      ↔ x ∈ acc.keys ∨ ∃ name ∈ xs.keys, env.ParseLevel name = some x := by
  induction xs generalizing acc with
  | nil => simp [tidyLoop, GoMap.keys]
  | cons e rest ih =>
    obtain ⟨levelText, path⟩ := e
    unfold tidyLoop at h ⊢
    cases hp : env.ParseLevel levelText with
    | none => simp [hp] at h
    | some level =>
      simp only [hp] at h ⊢
      rw [ih _ h, GoMap.keys_set]
      simp only [GoMap.keys, List.map_cons, List.mem_cons, exists_eq_or_imp, hp,
        Option.some.injEq]
      constructor
      · rintro ((h1 | h1) | h1)
        · exact Or.inr (Or.inl h1.symm)
        · exact Or.inl h1
        · exact Or.inr (Or.inr h1)
      · rintro (h1 | h1 | h1)
        · exact Or.inl (Or.inr h1)
        · exact Or.inl (Or.inl h1.symm)
        · exact Or.inr h1

/-! ## The stages of `Build` -/

theorem withDefaults_FilePath (l : Config) : l.withDefaults.FilePath = l.FilePath := by
  simp only [Config.withDefaults]; split_ifs <;> rfl

theorem withDefaults_Rotate (l : Config) : l.withDefaults.Rotate = l.Rotate := by
  simp only [Config.withDefaults]; split_ifs <;> rfl

theorem withDefaults_levelToPath (l : Config) : l.withDefaults.levelToPath = l.levelToPath := by
  simp only [Config.withDefaults]; split_ifs <;> rfl

theorem withDefaults_HideConsole (l : Config) : l.withDefaults.HideConsole = l.HideConsole := by
  simp only [Config.withDefaults]; split_ifs <;> rfl

theorem withDefaults_Hooks (l : Config) : l.withDefaults.Hooks = l.Hooks := by
  simp only [Config.withDefaults]; split_ifs <;> rfl

theorem withDefaults_Level (l : Config) : l.withDefaults.Level = l.Level := by
  simp only [Config.withDefaults]; split_ifs <;> rfl

theorem withDefaults_Service (l : Config) : l.withDefaults.Service = l.Service := by
  simp only [Config.withDefaults]; split_ifs <;> rfl

theorem withDefaults_TimeZone (l : Config) :
    l.withDefaults.TimeZone = if l.TimeZone = "" then defaultTimeZone else l.TimeZone := by
  simp only [Config.withDefaults]; split_ifs <;> rfl

/-- With `Rotate` set the loop runs to its end: one dedicated sink per key, in
order, and the file-writer variable left at the writer of the last key. -/
theorem redirectSinks_ok (l : Config) (rotate : RotateConfig) (h : l.Rotate = some rotate)
    (encoder : Encoder) (m : GoMap zapcore.Level String) (ks : List zapcore.Level)
    (st : Globals × Tee) :
    Build.redirectSinks l encoder m ks st
      = .ok
          ({ st.1 with
              writeSyncer := ks.foldl
                (fun _ k => some (Build.redirectSink rotate encoder m k).1) st.1.writeSyncer },
            st.2 ++ ks.map (fun k => some (Build.redirectSink rotate encoder m k).2)) := by
  induction ks generalizing st with
  | nil => simp [Build.redirectSinks]
  | cons k rest ih =>
    unfold Build.redirectSinks
    simp only [h]
    rw [ih]
    simp

theorem redirectSinks_ok2 (l : Config) (rotate : RotateConfig)
    (encoder : Encoder) (m : GoMap zapcore.Level String) (ks : List zapcore.Level)
    (st : Globals × Tee) (h : l.Rotate = some rotate ∨ ks = []) :
    Build.redirectSinks l encoder m ks st
      = .ok
          ({ st.1 with
              writeSyncer := ks.foldl
                (fun _ k => some (Build.redirectSink rotate encoder m k).1) st.1.writeSyncer },
            st.2 ++ ks.map (fun k => some (Build.redirectSink rotate encoder m k).2)) := by
  rcases h with h | h
  · exact redirectSinks_ok l rotate h encoder m ks st
  · subst h
    simp [Build.redirectSinks]

/-- With `Rotate` nil the loop panics as soon as there is a key. -/
theorem redirectSinks_fault (l : Config) (h : l.Rotate = none)
    (encoder : Encoder) (m : GoMap zapcore.Level String) (k : zapcore.Level)
    (rest : List zapcore.Level) (st : Globals × Tee) :
    Build.redirectSinks l encoder m (k :: rest) st = .error .nilPointer := by
  unfold Build.redirectSinks
  simp only [h]

/-- Inside the range of `int` an addition gives the mathematical sum. -/
theorem wrapInt_of_range (x : Int) (h1 : -9223372036854775808 ≤ x)
    (h2 : x < 9223372036854775808) : wrapInt x = x := by
  unfold wrapInt
  omega

/-- The result of an addition lies in the range of `int`. -/
theorem wrapInt_range (x : Int) :
    -9223372036854775808 ≤ wrapInt x ∧ wrapInt x < 9223372036854775808 := by
  unfold wrapInt
  omega

theorem NewLogger_root (u : zap.Logger) (m : Option (GoMap zapcore.Level String)) :
    NewLogger (some u) "" 1 true false m none []
      = .ok { underlying := some { u with callerSkip := wrapInt (u.callerSkip + 1) },
              levelToPath := m,
              duplicateKeys := some (NewExist 10), name := "", fields := [], skip := 1 } := by
  rfl

theorem zapNew_core (t : Tee) (a : Bool) : (zapNew t a).core = t := by
  unfold zapNew
  split <;> rfl

theorem zapNew_context (t : Tee) (a : Bool) : (zapNew t a).context = [] := by
  unfold zapNew
  split <;> rfl

theorem zapNew_name (t : Tee) (a : Bool) : (zapNew t a).name = "" := by
  unfold zapNew
  split <;> rfl

theorem zapNew_callerSkip (t : Tee) (a : Bool) : (zapNew t a).callerSkip = 0 := by
  unfold zapNew
  split <;> rfl

theorem zapNew_eq (t : Tee) (a : Bool) :
    zapNew t a
      = { core := t, context := [], name := "", addCaller := (zapNew t a).addCaller,
          callerSkip := 0 } := by
  unfold zapNew
  split <;> rfl

theorem With_nil (u : zap.Logger) : u.With [] = u := by
  cases u
  simp [zap.Logger.With]

/-- Attaching fields to a logger returns when there is no field or every sink
of the composite can take fields. -/
theorem zapWith_ok (u : zap.Logger) (fields : List zap.Field)
    (h : fields = [] ∨ u.core.withFaults = false) :
    zapWith u fields = .ok (u.With fields) := by
  unfold zapWith
  cases fields with
  | nil =>
    simp only [List.isEmpty_nil, if_true]
    rw [With_nil]
  | cons f rest =>
    rcases h with h | h
    · cases h
    · simp only [List.isEmpty_cons, h, Bool.false_eq_true, if_false]

/-- Attaching a field to a logger whose composite holds a sink that cannot take
fields panics. -/
theorem zapWith_fault (u : zap.Logger) (fields : List zap.Field)
    (hf : fields ≠ []) (h : u.core.withFaults = true) :
    zapWith u fields = .error .nilPointer := by
  unfold zapWith
  cases fields with
  | nil => exact absurd rfl hf
  | cons f rest => simp only [List.isEmpty_cons, h, Bool.false_eq_true, if_false, if_true]

/-- Attaching fields to a new logger returns when there is no field or every
sink of the composite can take fields. -/
theorem zapNewWith_ok (t : Tee) (a : Bool) (fields : List zap.Field)
    (h : fields = [] ∨ t.withFaults = false) :
    zapNewWith t a fields
      = .ok { core := t, context := fields, name := "", addCaller := (zapNew t a).addCaller,
              callerSkip := 0 } := by
  unfold zapNewWith
  rw [zapWith_ok _ _ (by rw [zapNew_core]; exact h), zapNew_eq]
  rfl

/-- Attaching a field to a new logger whose composite holds a sink that cannot
take fields panics. -/
theorem zapNewWith_fault (t : Tee) (a : Bool) (f : zap.Field) (rest : List zap.Field)
    (h : t.withFaults = true) :
    zapNewWith t a (f :: rest) = .error .nilPointer := by
  unfold zapNewWith
  exact zapWith_fault _ _ (List.cons_ne_nil f rest) (by rw [zapNew_core]; exact h)

/-- On a composite without a nil entry the test runs over every entry. -/
theorem withFaults_of_all_some (t : Tee) (h : none ∉ t) :
    t.withFaults = t.any (fun c => match c with
      | none => true
      | some c => c.withFaults) := by
  match t with
  | [] => rfl
  | [none] => exact absurd (List.mem_singleton.2 rfl) h
  | [some _] => rfl
  | none :: _ :: _ => rfl
  | some _ :: _ :: _ => rfl

/-- An entry of a composite that cannot take fields: a nil entry, or a sink of
`zapcore.NewCore` with a nil encoder. -/
theorem entry_withFaults_iff (c : Option Core) :
    (match c with
      | none => true
      | some c => c.withFaults) = true
      ↔ c = none ∨ ∃ ws e, c = some (Core.ioCore none ws e) := by
  match c with
  | none => simp
  | some (.ioCore none ws e) => simp [Core.withFaults]
  | some (.ioCore (some enc) ws e) => simp [Core.withFaults]
  | some (.injected id f) => simp [Core.withFaults]

/-- Attaching fields to a new logger panics exactly when its composite is not
the single nil sink and holds an entry that cannot take fields. -/
theorem withFaults_iff (t : Tee) :
    t.withFaults = true
      ↔ t ≠ [none] ∧ ∃ c ∈ t, c = none ∨ ∃ ws e, c = some (Core.ioCore none ws e) := by
  have hany : ∀ t : Tee,
      t.any (fun c => match c with
        | none => true
        | some c => c.withFaults) = true
        ↔ ∃ c ∈ t, c = none ∨ ∃ ws e, c = some (Core.ioCore none ws e) := by
    intro t
    rw [List.any_eq_true]
    constructor
    · rintro ⟨c, hc, h⟩
      exact ⟨c, hc, (entry_withFaults_iff c).1 h⟩
    · rintro ⟨c, hc, h⟩
      exact ⟨c, hc, (entry_withFaults_iff c).2 h⟩
  match t with
  | [] => simp [Tee.withFaults]
  | [none] =>
    constructor
    · intro h
      cases h
    · rintro ⟨h, _⟩
      exact absurd rfl h
  | [some c] =>
    have h1 : Tee.withFaults [some c] = List.any [some c] (fun c => match c with
        | none => true
        | some c => c.withFaults) := rfl
    rw [h1, hany]
    exact ⟨fun h => ⟨(fun hc => by cases hc), h⟩, fun h => h.2⟩
  | none :: b :: rest =>
    have h1 : Tee.withFaults (none :: b :: rest) = List.any (none :: b :: rest)
        (fun c => match c with
          | none => true
          | some c => c.withFaults) := rfl
    rw [h1, hany]
    exact ⟨fun h => ⟨(fun hc => by cases hc), h⟩, fun h => h.2⟩
  | some a :: b :: rest =>
    have h1 : Tee.withFaults (some a :: b :: rest) = List.any (some a :: b :: rest)
        (fun c => match c with
          | none => true
          | some c => c.withFaults) := rfl
    rw [h1, hany]
    exact ⟨fun h => ⟨(fun hc => by cases hc), h⟩, fun h => h.2⟩

/-- The zone name that `Build` loads. -/
def Config.zone (l : Config) : String :=
  if l.TimeZone = "" then defaultTimeZone else l.TimeZone

/-- The receiver of `Build` when it reaches the construction of the sinks. -/
def Build.normalized (env : Env) (l : Config) (loc : time.Location) : Config :=
  { (l.tidy env).2.withDefaults with location := some loc }

/-- The sinks that a build hands to `zapcore.NewTee`, in order: the generic file
sink when `FilePath` is set, one dedicated sink per key of the parsed map, then
console, hooks and supplied sinks. -/
def Build.sinks (l : Config) (encoder : Encoder) (rotate : RotateConfig)
    (m : GoMap zapcore.Level String) (cores : Tee) : Tee :=
  (if l.FilePath ≠ "" then
      [some (Build.genericSink l.FilePath (l.Rotate.getD RotateConfig.zero) (.atomic l.Level)
        encoder (some m)).2]
    else [])
    ++ m.keys.map (fun k => some (Build.redirectSink rotate encoder m k).2)
    ++ Build.otherSinks l (.atomic l.Level) encoder cores

theorem tidy_fst (env : Env) (l : Config) :
    (l.tidy env).1 = (tidyLoop env l.LevelToPath []).1 := rfl

theorem normalized_FilePath (env : Env) (l : Config) (loc : time.Location) :
    (Build.normalized env l loc).FilePath = l.FilePath := by
  simp [Build.normalized, withDefaults_FilePath, Config.tidy]

theorem normalized_Rotate (env : Env) (l : Config) (loc : time.Location) :
    (Build.normalized env l loc).Rotate = l.Rotate := by
  simp [Build.normalized, withDefaults_Rotate, Config.tidy]

theorem normalized_levelToPath (env : Env) (l : Config) (loc : time.Location) :
    (Build.normalized env l loc).levelToPath = some (tidyLoop env l.LevelToPath []).2 := by
  simp [Build.normalized, withDefaults_levelToPath, Config.tidy]

theorem normalized_HideConsole (env : Env) (l : Config) (loc : time.Location) :
    (Build.normalized env l loc).HideConsole = l.HideConsole := by
  simp [Build.normalized, withDefaults_HideConsole, Config.tidy]

theorem normalized_Hooks (env : Env) (l : Config) (loc : time.Location) :
    (Build.normalized env l loc).Hooks = l.Hooks := by
  simp [Build.normalized, withDefaults_Hooks, Config.tidy]

theorem normalized_Level (env : Env) (l : Config) (loc : time.Location) :
    (Build.normalized env l loc).Level = l.Level := by
  simp [Build.normalized, withDefaults_Level, Config.tidy]

theorem normalized_Service (env : Env) (l : Config) (loc : time.Location) :
    (Build.normalized env l loc).Service = l.Service := by
  simp [Build.normalized, withDefaults_Service, Config.tidy]

theorem tidy_zone (env : Env) (l : Config) :
    (l.tidy env).2.withDefaults.TimeZone = l.zone := by
  simp [withDefaults_TimeZone, Config.tidy, Config.zone]

/-- A name that does not parse: `Build` returns the error of `tidy` and leaves
the process-wide variables as they were. -/
theorem Build_tidy_error (env : Env) (l : Config) (cores : Tee) (g : Globals) (bad : String)
    (h : (tidyLoop env l.LevelToPath []).1 = some bad) :
    l.Build env cores g
      = { outcome := .error (.tidy bad), config := (l.tidy env).2, globals := g } := by
  unfold Config.Build
  simp only [tidy_fst, h]

/-- All names parse and the zone does not load: `Build` returns the error of
`time.LoadLocation`, after the assignments of lines 141 and 142. -/
theorem Build_zone_error (env : Env) (l : Config) (cores : Tee) (g : Globals)
    (hp : (tidyLoop env l.LevelToPath []).1 = none) (hz : env.LoadLocation l.zone = none) :
    l.Build env cores g
      = { outcome := .error (.loadLocation l.zone),
          config := { (l.tidy env).2.withDefaults with location := none },
          globals := { g with HiddenConsole := l.HideConsole, inputCores := cores } } := by
  unfold Config.Build
  simp only [tidy_fst, hp, tidy_zone, hz]
  rfl

/-- All names parse and the zone loads: `Build` reaches the sinks. -/
theorem Build_eq_assemble (env : Env) (l : Config) (cores : Tee) (g : Globals)
    (loc : time.Location)
    (hp : (tidyLoop env l.LevelToPath []).1 = none) (hz : env.LoadLocation l.zone = some loc) :
    l.Build env cores g
      = Build.assemble (Build.normalized env l loc) (.atomic l.Level)
          (Build.newEncoder (Build.normalized env l loc)) cores
          { g with HiddenConsole := l.HideConsole, inputCores := cores,
                   encoder := some (Build.newEncoder (Build.normalized env l loc)) } := by
  have hz2 : env.LoadLocation (l.tidy env).2.withDefaults.TimeZone = some loc := by
    rw [tidy_zone]; exact hz
  have hl : (Build.normalized env l loc).Level = l.Level := normalized_Level env l loc
  unfold Config.Build
  simp only [tidy_fst, hp, hz2]
  rw [← hl]
  rfl

theorem fileSink_levelToPath (l : Config) (cfgLevel : zapcore.LevelEnabler) (encoder : Encoder)
    (g : Globals) : (Build.fileSink l cfgLevel encoder g).1.levelToPath = l.levelToPath := by
  unfold Build.fileSink; split <;> rfl

theorem fileSink_Service (l : Config) (cfgLevel : zapcore.LevelEnabler) (encoder : Encoder)
    (g : Globals) : (Build.fileSink l cfgLevel encoder g).1.Service = l.Service := by
  unfold Build.fileSink; split <;> rfl

theorem fileSink_otherSinks (l : Config) (cfgLevel : zapcore.LevelEnabler) (encoder : Encoder)
    (g : Globals) (c2 : zapcore.LevelEnabler) (cores : Tee) :
    Build.otherSinks (Build.fileSink l cfgLevel encoder g).1 c2 encoder cores
      = Build.otherSinks l c2 encoder cores := by
  unfold Build.fileSink; split <;> rfl

theorem fileSink_globals (l : Config) (cfgLevel : zapcore.LevelEnabler) (encoder : Encoder)
    (g : Globals) :
    (Build.fileSink l cfgLevel encoder g).2.1.core = g.core
      ∧ (Build.fileSink l cfgLevel encoder g).2.1.encoder = g.encoder
      ∧ (Build.fileSink l cfgLevel encoder g).2.1.inputCores = g.inputCores
      ∧ (Build.fileSink l cfgLevel encoder g).2.1.HiddenConsole = g.HiddenConsole := by
  unfold Build.fileSink; split <;> exact ⟨rfl, rfl, rfl, rfl⟩

/-- The loop of `Build` ended normally: the build succeeds, and its result is
spelled out. -/
theorem assemble_of_loop (l : Config) (cfgLevel : zapcore.LevelEnabler) (encoder : Encoder)
    (cores : Tee) (g : Globals) (m : GoMap zapcore.Level String) (st : Globals × Tee)
    (hm : l.levelToPath = some m)
    (hloop : Build.redirectSinks (Build.fileSink l cfgLevel encoder g).1 encoder m m.keys
      ((Build.fileSink l cfgLevel encoder g).2.1, (Build.fileSink l cfgLevel encoder g).2.2)
        = .ok st)
    (hw : (st.2 ++ Build.otherSinks l cfgLevel encoder cores).withFaults = false) :
    Build.assemble l cfgLevel encoder cores g
      = { outcome := .ok
            { underlying := some
                { core := st.2 ++ Build.otherSinks l cfgLevel encoder cores,
                  context := [{ Key := "系统", Value := l.Service }], name := "",
                  addCaller :=
                    (zapNew (st.2 ++ Build.otherSinks l cfgLevel encoder cores) true).addCaller,
                  callerSkip := 1 },
              levelToPath := some m, duplicateKeys := some (NewExist 10), name := "",
              fields := [], skip := 1 },
          config := (Build.fileSink l cfgLevel encoder g).1,
          globals := { st.1 with core := some (st.2 ++ Build.otherSinks l cfgLevel encoder cores) } } := by
  unfold Build.assemble
  simp only [fileSink_levelToPath, hm, hloop, fileSink_otherSinks, fileSink_Service,
    zapNewWith_ok _ _ _ (Or.inr hw), NewLogger_root]
  rfl

/-- The loop of `Build` ended normally and a sink of the composite cannot take
the field of the service: the build panics, after the composite was recorded. -/
theorem assemble_of_with_fault (l : Config) (cfgLevel : zapcore.LevelEnabler)
    (encoder : Encoder) (cores : Tee) (g : Globals) (m : GoMap zapcore.Level String)
    (st : Globals × Tee) (hm : l.levelToPath = some m)
    (hloop : Build.redirectSinks (Build.fileSink l cfgLevel encoder g).1 encoder m m.keys
      ((Build.fileSink l cfgLevel encoder g).2.1, (Build.fileSink l cfgLevel encoder g).2.2)
        = .ok st)
    (hw : (st.2 ++ Build.otherSinks l cfgLevel encoder cores).withFaults = true) :
    Build.assemble l cfgLevel encoder cores g
      = { outcome := .fault .nilPointer,
          config := (Build.fileSink l cfgLevel encoder g).1,
          globals := { st.1 with core := some (st.2 ++ Build.otherSinks l cfgLevel encoder cores) } } := by
  unfold Build.assemble
  simp only [fileSink_levelToPath, hm, hloop, fileSink_otherSinks, fileSink_Service,
    zapNewWith_fault _ _ _ _ hw]

/-- The loop of `Build` panicked: so does the build. -/
theorem assemble_of_fault (l : Config) (cfgLevel : zapcore.LevelEnabler) (encoder : Encoder)
    (cores : Tee) (g : Globals) (m : GoMap zapcore.Level String) (p : Panic)
    (hm : l.levelToPath = some m)
    (hloop : Build.redirectSinks (Build.fileSink l cfgLevel encoder g).1 encoder m m.keys
      ((Build.fileSink l cfgLevel encoder g).2.1, (Build.fileSink l cfgLevel encoder g).2.2)
        = .error p) :
    (Build.assemble l cfgLevel encoder cores g).outcome = .fault p := by
  unfold Build.assemble
  simp only [fileSink_levelToPath, hm, hloop]

/-- The value of `l.Rotate` when the loop of line 199 starts: line 176 has
replaced a nil pointer if `FilePath` is set. -/
def Build.rotateInLoop (l : Config) : Option RotateConfig :=
  if l.FilePath ≠ "" then some (l.Rotate.getD RotateConfig.zero) else l.Rotate

/-- The file-writer variable after a build that succeeds. -/
def Build.lastWriter (l : Config) (encoder : Encoder) (rotate : RotateConfig)
    (m : GoMap zapcore.Level String) (g : Globals) : Option WriteSyncer :=
  m.keys.foldl (fun _ k => some (Build.redirectSink rotate encoder m k).1)
    (if l.FilePath ≠ "" then
      some (Build.genericSink l.FilePath (l.Rotate.getD RotateConfig.zero) (.atomic l.Level)
        encoder (some m)).1
    else g.writeSyncer)

theorem otherSinks_normalized (env : Env) (l : Config) (loc : time.Location)
    (c : zapcore.LevelEnabler) (encoder : Encoder) (cores : Tee) :
    Build.otherSinks (Build.normalized env l loc) c encoder cores
      = Build.otherSinks l c encoder cores := by
  unfold Build.otherSinks
  rw [normalized_HideConsole, normalized_Hooks]

theorem fileSink_normalized (env : Env) (l : Config) (loc : time.Location)
    (encoder : Encoder) (g : Globals) :
    (Build.fileSink (Build.normalized env l loc) (.atomic l.Level) encoder g).1.Rotate
        = Build.rotateInLoop l
      ∧ (Build.fileSink (Build.normalized env l loc) (.atomic l.Level) encoder g).2.1
        = { g with writeSyncer :=
              if l.FilePath ≠ "" then
                some (Build.genericSink l.FilePath (l.Rotate.getD RotateConfig.zero)
                  (.atomic l.Level) encoder (some (tidyLoop env l.LevelToPath []).2)).1
              else g.writeSyncer }
      ∧ (Build.fileSink (Build.normalized env l loc) (.atomic l.Level) encoder g).2.2
        = if l.FilePath ≠ "" then
            [some (Build.genericSink l.FilePath (l.Rotate.getD RotateConfig.zero)
              (.atomic l.Level) encoder (some (tidyLoop env l.LevelToPath []).2)).2]
          else [] := by
  unfold Build.fileSink Build.rotateInLoop
  rw [normalized_FilePath, normalized_Rotate, normalized_levelToPath]
  by_cases h : l.FilePath = ""
  · simp [h, normalized_Rotate]
  · simp [h]

/-- The complete result of a build that succeeds: all names parse, the zone
loads, `Rotate` is set when the loop starts or the parsed map is empty, and
every sink of the composite can take the field of the service. -/
theorem Build_success (env : Env) (l : Config) (cores : Tee) (g : Globals)
    (loc : time.Location) (rotate : RotateConfig)
    (hp : (tidyLoop env l.LevelToPath []).1 = none) (hz : env.LoadLocation l.zone = some loc)
    (hr : Build.rotateInLoop l = some rotate ∨ (tidyLoop env l.LevelToPath []).2 = [])
    (hw : (Build.sinks l (Build.newEncoder (Build.normalized env l loc)) rotate
            (tidyLoop env l.LevelToPath []).2 cores).withFaults = false) :
    (l.Build env cores g).outcome
        = .ok { underlying := some
                  { core := Build.sinks l (Build.newEncoder (Build.normalized env l loc)) rotate
                      (tidyLoop env l.LevelToPath []).2 cores,
                    context := [{ Key := "系统", Value := l.Service }], name := "",
                    addCaller :=
                      (zapNew (Build.sinks l (Build.newEncoder (Build.normalized env l loc))
                        rotate (tidyLoop env l.LevelToPath []).2 cores) true).addCaller,
                    callerSkip := 1 },
                levelToPath := some (tidyLoop env l.LevelToPath []).2,
                duplicateKeys := some (NewExist 10), name := "", fields := [], skip := 1 }
      ∧ (l.Build env cores g).globals
        = { core := some (Build.sinks l (Build.newEncoder (Build.normalized env l loc)) rotate
              (tidyLoop env l.LevelToPath []).2 cores),
            encoder := some (Build.newEncoder (Build.normalized env l loc)),
            writeSyncer := Build.lastWriter l (Build.newEncoder (Build.normalized env l loc))
              rotate (tidyLoop env l.LevelToPath []).2 g,
            inputCores := cores,
            HiddenConsole := l.HideConsole } := by
  obtain ⟨f1, f2, f3⟩ := fileSink_normalized env l loc
    (Build.newEncoder (Build.normalized env l loc))
    { g with HiddenConsole := l.HideConsole, inputCores := cores,
             encoder := some (Build.newEncoder (Build.normalized env l loc)) }
  have hm := normalized_levelToPath env l loc
  have hs := normalized_Service env l loc
  rw [Build_eq_assemble env l cores g loc hp hz]
  have hr2 : (Build.fileSink (Build.normalized env l loc) (.atomic l.Level)
        (Build.newEncoder (Build.normalized env l loc))
        { g with HiddenConsole := l.HideConsole, inputCores := cores,
                 encoder := some (Build.newEncoder (Build.normalized env l loc)) }).1.Rotate
          = some rotate ∨ (tidyLoop env l.LevelToPath []).2.keys = [] := by
    rcases hr with hr | hr
    · exact Or.inl (f1.trans hr)
    · exact Or.inr (by rw [hr]; rfl)
  have hS : Build.sinks l (Build.newEncoder (Build.normalized env l loc)) rotate
        (tidyLoop env l.LevelToPath []).2 cores
      = ((Build.fileSink (Build.normalized env l loc) (.atomic l.Level)
          (Build.newEncoder (Build.normalized env l loc))
          { g with HiddenConsole := l.HideConsole, inputCores := cores,
                   encoder := some (Build.newEncoder (Build.normalized env l loc)) }).2.2
          ++ (tidyLoop env l.LevelToPath []).2.keys.map (fun k =>
              some (Build.redirectSink rotate (Build.newEncoder (Build.normalized env l loc))
                (tidyLoop env l.LevelToPath []).2 k).2))
        ++ Build.otherSinks (Build.normalized env l loc) (.atomic l.Level)
            (Build.newEncoder (Build.normalized env l loc)) cores := by
    rw [f3, otherSinks_normalized]
    rfl
  rw [hS] at hw
  rw [assemble_of_loop _ _ _ _ _ _ _ hm (redirectSinks_ok2 _ rotate _ _ _ _ hr2) hw]
  simp only [f2, f3, otherSinks_normalized, hs, Build.sinks, Build.lastWriter]
  exact ⟨trivial, trivial⟩

/-- All names parse, the zone loads, the loop runs to its end, and a sink of the
composite cannot take the field of the service: the build panics, having
recorded the composite. -/
theorem Build_with_fault (env : Env) (l : Config) (cores : Tee) (g : Globals)
    (loc : time.Location) (rotate : RotateConfig)
    (hp : (tidyLoop env l.LevelToPath []).1 = none) (hz : env.LoadLocation l.zone = some loc)
    (hr : Build.rotateInLoop l = some rotate ∨ (tidyLoop env l.LevelToPath []).2 = [])
    (hw : (Build.sinks l (Build.newEncoder (Build.normalized env l loc)) rotate
            (tidyLoop env l.LevelToPath []).2 cores).withFaults = true) :
    (l.Build env cores g).outcome = .fault .nilPointer
      ∧ (l.Build env cores g).globals
        = { core := some (Build.sinks l (Build.newEncoder (Build.normalized env l loc)) rotate
              (tidyLoop env l.LevelToPath []).2 cores),
            encoder := some (Build.newEncoder (Build.normalized env l loc)),
            writeSyncer := Build.lastWriter l (Build.newEncoder (Build.normalized env l loc))
              rotate (tidyLoop env l.LevelToPath []).2 g,
            inputCores := cores,
            HiddenConsole := l.HideConsole } := by
  obtain ⟨f1, f2, f3⟩ := fileSink_normalized env l loc
    (Build.newEncoder (Build.normalized env l loc))
    { g with HiddenConsole := l.HideConsole, inputCores := cores,
             encoder := some (Build.newEncoder (Build.normalized env l loc)) }
  have hm := normalized_levelToPath env l loc
  rw [Build_eq_assemble env l cores g loc hp hz]
  have hr2 : (Build.fileSink (Build.normalized env l loc) (.atomic l.Level)
        (Build.newEncoder (Build.normalized env l loc))
        { g with HiddenConsole := l.HideConsole, inputCores := cores,
                 encoder := some (Build.newEncoder (Build.normalized env l loc)) }).1.Rotate
          = some rotate ∨ (tidyLoop env l.LevelToPath []).2.keys = [] := by
    rcases hr with hr | hr
    · exact Or.inl (f1.trans hr)
    · exact Or.inr (by rw [hr]; rfl)
  have hS : Build.sinks l (Build.newEncoder (Build.normalized env l loc)) rotate
        (tidyLoop env l.LevelToPath []).2 cores
      = ((Build.fileSink (Build.normalized env l loc) (.atomic l.Level)
          (Build.newEncoder (Build.normalized env l loc))
          { g with HiddenConsole := l.HideConsole, inputCores := cores,
                   encoder := some (Build.newEncoder (Build.normalized env l loc)) }).2.2
          ++ (tidyLoop env l.LevelToPath []).2.keys.map (fun k =>
              some (Build.redirectSink rotate (Build.newEncoder (Build.normalized env l loc))
                (tidyLoop env l.LevelToPath []).2 k).2))
        ++ Build.otherSinks (Build.normalized env l loc) (.atomic l.Level)
            (Build.newEncoder (Build.normalized env l loc)) cores := by
    rw [f3, otherSinks_normalized]
    rfl
  rw [hS] at hw
  rw [assemble_of_with_fault _ _ _ _ _ _ _ hm (redirectSinks_ok2 _ rotate _ _ _ _ hr2) hw]
  simp only [f2, f3, otherSinks_normalized, Build.sinks, Build.lastWriter]
  exact ⟨trivial, trivial⟩

/-- A nil `Rotate` at the loop with a key to visit: the build panics. -/
theorem Build_fault (env : Env) (l : Config) (cores : Tee) (g : Globals)
    (loc : time.Location)
    (hp : (tidyLoop env l.LevelToPath []).1 = none) (hz : env.LoadLocation l.zone = some loc)
    (hr : Build.rotateInLoop l = none) (hne : (tidyLoop env l.LevelToPath []).2 ≠ []) :
    (l.Build env cores g).outcome = .fault .nilPointer := by
  obtain ⟨f1, _, _⟩ := fileSink_normalized env l loc
    (Build.newEncoder (Build.normalized env l loc))
    { g with HiddenConsole := l.HideConsole, inputCores := cores,
             encoder := some (Build.newEncoder (Build.normalized env l loc)) }
  have hm := normalized_levelToPath env l loc
  rw [Build_eq_assemble env l cores g loc hp hz]
  cases hk : (tidyLoop env l.LevelToPath []).2 with
  | nil => exact absurd hk hne
  | cons e rest =>
    rw [hk] at hm
    exact assemble_of_fault _ _ _ _ _ _ _ hm
      (by simp only [GoMap.keys, List.map_cons]
          exact redirectSinks_fault _ (f1.trans hr) _ _ _ _ _)

/-- The ways a call of `Build` can go. -/
theorem Build_cases (env : Env) (l : Config) :
    (∃ bad, (tidyLoop env l.LevelToPath []).1 = some bad)
    ∨ ((tidyLoop env l.LevelToPath []).1 = none ∧ env.LoadLocation l.zone = none)
    ∨ (∃ loc rotate, (tidyLoop env l.LevelToPath []).1 = none
        ∧ env.LoadLocation l.zone = some loc
        ∧ (Build.rotateInLoop l = some rotate ∨ (tidyLoop env l.LevelToPath []).2 = []))
    ∨ (∃ loc, (tidyLoop env l.LevelToPath []).1 = none
        ∧ env.LoadLocation l.zone = some loc
        ∧ Build.rotateInLoop l = none ∧ (tidyLoop env l.LevelToPath []).2 ≠ []) := by
  cases ht : (tidyLoop env l.LevelToPath []).1 with
  | some bad => exact Or.inl ⟨bad, rfl⟩
  | none =>
    cases hz : env.LoadLocation l.zone with
    | none => exact Or.inr (Or.inl ⟨rfl, rfl⟩)
    | some loc =>
      cases hr : Build.rotateInLoop l with
      | some rotate => exact Or.inr (Or.inr (Or.inl ⟨loc, rotate, rfl, rfl, Or.inl rfl⟩))
      | none =>
        by_cases hm : (tidyLoop env l.LevelToPath []).2 = []
        · exact Or.inr (Or.inr (Or.inl ⟨loc, RotateConfig.zero, rfl, rfl, Or.inr hm⟩))
        · exact Or.inr (Or.inr (Or.inr ⟨loc, rfl, rfl, rfl, hm⟩))

/-- A build that returns a logger went through all stages. -/
theorem Build_ok_inv (env : Env) (l : Config) (cores : Tee) (g : Globals) (lg : logger)
    (hok : (l.Build env cores g).outcome = .ok lg) :
    ∃ loc rotate, (tidyLoop env l.LevelToPath []).1 = none
      ∧ env.LoadLocation l.zone = some loc
      ∧ (Build.rotateInLoop l = some rotate ∨ (tidyLoop env l.LevelToPath []).2 = [])
      ∧ (Build.sinks l (Build.newEncoder (Build.normalized env l loc)) rotate
            (tidyLoop env l.LevelToPath []).2 cores).withFaults = false := by
  rcases Build_cases env l with ⟨bad, hb⟩ | ⟨hp, hz⟩ | ⟨loc, rotate, hp, hz, hr⟩
    | ⟨loc, hp, hz, hr, hm⟩
  · rw [Build_tidy_error env l cores g bad hb] at hok
    cases hok
  · rw [Build_zone_error env l cores g hp hz] at hok
    cases hok
  · refine ⟨loc, rotate, hp, hz, hr, ?_⟩
    cases hw : (Build.sinks l (Build.newEncoder (Build.normalized env l loc)) rotate
        (tidyLoop env l.LevelToPath []).2 cores).withFaults with
    | false => rfl
    | true =>
      rw [(Build_with_fault env l cores g loc rotate hp hz hr hw).1] at hok
      cases hok
  · rw [Build_fault env l cores g loc hp hz hr hm] at hok
    cases hok

/-- A build that returns an error failed in `tidy` or in `time.LoadLocation`. -/
theorem Build_error_inv (env : Env) (l : Config) (cores : Tee) (g : Globals) (err : BuildError)
    (herr : (l.Build env cores g).outcome = .error err) :
    (∃ bad, (tidyLoop env l.LevelToPath []).1 = some bad ∧ err = .tidy bad)
    ∨ ((tidyLoop env l.LevelToPath []).1 = none ∧ env.LoadLocation l.zone = none
        ∧ err = .loadLocation l.zone) := by
  rcases Build_cases env l with ⟨bad, hb⟩ | ⟨hp, hz⟩ | ⟨loc, rotate, hp, hz, hr⟩
    | ⟨loc, hp, hz, hr, hm⟩
  · rw [Build_tidy_error env l cores g bad hb] at herr
    exact Or.inl ⟨bad, hb, by cases herr; rfl⟩
  · rw [Build_zone_error env l cores g hp hz] at herr
    exact Or.inr ⟨hp, hz, by cases herr; rfl⟩
  · cases hw : (Build.sinks l (Build.newEncoder (Build.normalized env l loc)) rotate
        (tidyLoop env l.LevelToPath []).2 cores).withFaults with
    | false =>
      rw [(Build_success env l cores g loc rotate hp hz hr hw).1] at herr
      cases herr
    | true =>
      rw [(Build_with_fault env l cores g loc rotate hp hz hr hw).1] at herr
      cases herr
  · rw [Build_fault env l cores g loc hp hz hr hm] at herr
    cases herr

theorem fillLumberjack_Filename (x : lumberjack.Logger) :
    (fillLumberjack x).Filename = x.Filename := by
  simp only [fillLumberjack]; split_ifs <;> rfl

theorem fillLumberjack_Compress (x : lumberjack.Logger) :
    (fillLumberjack x).Compress = x.Compress := by
  simp only [fillLumberjack]; split_ifs <;> rfl

/-! ## The sinks of a build -/

theorem redirectSink_snd (rotate : RotateConfig) (encoder : Encoder)
    (m : GoMap zapcore.Level String) (level : zapcore.Level) :
    (Build.redirectSink rotate encoder m level).2
      = Core.ioCore (some encoder)
          (.rotate (fillLumberjack
            { Filename := (m.get? level).getD "", MaxSize := rotate.MaxSize,
              MaxBackups := rotate.MaxBackups, MaxAge := rotate.MaxAge, Compress := true }))
          (.router (newLevelEnablerWithExcept (.level level) m [level])) := rfl

theorem genericSink_snd (filePath : String) (rotate : RotateConfig)
    (cfgLevel : zapcore.LevelEnabler) (encoder : Encoder) (m : GoMap zapcore.Level String) :
    (Build.genericSink filePath rotate cfgLevel encoder (some m)).2
      = Core.ioCore (some encoder)
          (.rotate (fillLumberjack
            { Filename := filePath ++ ".log", MaxSize := rotate.MaxSize,
              MaxBackups := rotate.MaxBackups, MaxAge := rotate.MaxAge,
              Compress := !rotate.DisableCompress }))
          (.router (newLevelEnablerWithExcept cfgLevel m [])) := rfl

/-- Acceptance of the dedicated sink of `level`. -/
theorem redirectSink_Enabled (rotate : RotateConfig) (encoder : Encoder)
    (m : GoMap zapcore.Level String) (level x : zapcore.Level) :
    (Build.redirectSink rotate encoder m level).2.Enabled x = true
      ↔ level ≤ x ∧ (x = level ∨ x ∉ m.keys) := by
  rw [redirectSink_snd]
  simp only [Core.Enabled, CoreEnabler.Enabled]
  rw [newLevelEnablerWithExcept_Enabled]
  simp only [zapcore.LevelEnabler.Enabled, decide_eq_true_eq, List.mem_singleton, not_and,
    not_not]
  constructor
  · rintro ⟨h1, h2⟩
    refine ⟨h1, ?_⟩
    by_cases hx : x ∈ m.keys
    · exact Or.inl (h2 hx)
    · exact Or.inr hx
  · rintro ⟨h1, h2⟩
    refine ⟨h1, fun hx => ?_⟩
    rcases h2 with h2 | h2
    · exact h2
    · exact absurd hx h2

/-- Acceptance of the generic file sink. -/
theorem genericSink_Enabled (filePath : String) (rotate : RotateConfig) (encoder : Encoder)
    (m : GoMap zapcore.Level String) (lvl x : zapcore.Level) :
    (Build.genericSink filePath rotate (.atomic lvl) encoder (some m)).2.Enabled x = true
      ↔ lvl ≤ x ∧ x ∉ m.keys := by
  rw [genericSink_snd]
  simp only [Core.Enabled, CoreEnabler.Enabled]
  rw [newLevelEnablerWithExcept_Enabled]
  simp [zapcore.LevelEnabler.Enabled]

theorem redirect_mem_sinks (l : Config) (encoder : Encoder) (rotate : RotateConfig)
    (m : GoMap zapcore.Level String) (cores : Tee) (level : zapcore.Level)
    (h : level ∈ m.keys) :
    some (Build.redirectSink rotate encoder m level).2 ∈ Build.sinks l encoder rotate m cores := by
  simp only [Build.sinks, List.mem_append, List.mem_map]
  exact Or.inl (Or.inr ⟨level, h, rfl⟩)

theorem mem_keys_of_mem {κ ν : Type} (m : GoMap κ ν) (k : κ) (v : ν) (h : (k, v) ∈ m) :
    k ∈ m.keys :=
  List.mem_map_of_mem Prod.fst h

theorem accepting_append (a b : Tee) (x : zapcore.Level) :
    Tee.accepting (a ++ b) x = Tee.accepting a x ++ Tee.accepting b x := by
  simp [Tee.accepting, List.filterMap_append, List.filter_append]

theorem accepting_map_some {α : Type} (f : α → Core) (ks : List α) (x : zapcore.Level) :
    Tee.accepting (ks.map (fun k => some (f k))) x
      = (ks.filter (fun k => (f k).Enabled x)).map f := by
  unfold Tee.accepting
  have h1 : List.filterMap id (List.map (fun k => some (f k)) ks) = List.map f ks := by
    induction ks with
    | nil => rfl
    | cons k rest ih => simpa using ih
  rw [h1, List.filter_map]
  rfl

/-- How many dedicated sinks accept a level. -/
theorem accepting_redirect_length (rotate : RotateConfig) (encoder : Encoder)
    (m : GoMap zapcore.Level String) (ks : List zapcore.Level) (x : zapcore.Level) :
    (Tee.accepting (ks.map (fun k => some (Build.redirectSink rotate encoder m k).2)) x).length
      = ks.countP (fun k => decide (k ≤ x ∧ (x = k ∨ x ∉ m.keys))) := by
  rw [accepting_map_some, List.length_map, List.countP_eq_length_filter]
  congr 1
  apply List.filter_congr
  intro k _
  by_cases h : k ≤ x ∧ (x = k ∨ x ∉ m.keys)
  · rw [(redirectSink_Enabled rotate encoder m k x).mpr h, decide_eq_true h]
  · have : ¬ _ = true := fun h2 => h ((redirectSink_Enabled rotate encoder m k x).mp h2)
    rw [Bool.not_eq_true] at this
    rw [this, decide_eq_false h]

/-! ## Severity routing of the file sinks -/

/-- C1. Severity router acceptance: for every router, whatever its base enabler
and its exception marks, and for every level, `Enabled` holds exactly when the
base enabler accepts the level and the level is not marked as an exception.  For
a router made by `newLevelEnablerWithExcept` the marked levels are the keys of
the given map less the exempted levels, and a base that is a plain severity
accepts exactly the levels at or above it. -/
theorem C1_router_acceptance :
    (∀ (l : levelEnableWithExcept) (level : zapcore.Level),
      l.Enabled level = true
        ↔ l.LevelEnabler.Enabled level = true ∧ ¬ l.except.get? level = some true)
    ∧ (∀ (enabler : zapcore.LevelEnabler) (except : GoMap zapcore.Level String)
        (exceptLevels : List zapcore.Level) (level : zapcore.Level),
      (newLevelEnablerWithExcept enabler except exceptLevels).Enabled level = true
        ↔ enabler.Enabled level = true ∧ ¬ (level ∈ except.keys ∧ level ∉ exceptLevels))
    ∧ (∀ (threshold : zapcore.Level) (except : GoMap zapcore.Level String)
        (exceptLevels : List zapcore.Level) (level : zapcore.Level),
      (newLevelEnablerWithExcept (.level threshold) except exceptLevels).Enabled level = true
        ↔ threshold ≤ level ∧ ¬ (level ∈ except.keys ∧ level ∉ exceptLevels)) := by
  refine ⟨levelEnableWithExcept_Enabled_iff, ?_, ?_⟩
  · intro enabler except exceptLevels level
    exact newLevelEnablerWithExcept_Enabled enabler except exceptLevels level
  · intro threshold except exceptLevels level
    rw [newLevelEnablerWithExcept_Enabled]
    simp [zapcore.LevelEnabler.Enabled]

/-- C2. Generic file sink routing: when a base file path is configured and
`Build` returns a logger, the first sink of the composite writes to
`<FilePath>.log` through a router whose base is the configured minimum severity,
and it accepts a level exactly when the level is at or above that minimum and is
not a key of the parsed severity-to-path map; the keys of that map are the
severities that the names of the redirect mapping parse to. -/
theorem C2_generic_file_sink_routing (env : Env) (l : Config) (cores : Tee) (g : Globals)
    (lg : logger) (m : GoMap zapcore.Level String)
    (hpath : l.FilePath ≠ "")
    (hok : (l.Build env cores g).outcome = .ok lg)
    (hm : lg.levelToPath = some m) :
    (∀ x, x ∈ m.keys ↔ ∃ name ∈ l.LevelToPath.keys, env.ParseLevel name = some x)
    ∧ ∃ enc lj r rest,
        (l.Build env cores g).globals.core
          = some (some (Core.ioCore enc (.rotate lj) (.router r)) :: rest)
        ∧ lj.Filename = l.FilePath ++ ".log"
        ∧ r.LevelEnabler = .atomic l.Level
        ∧ ∀ x, (Core.ioCore enc (.rotate lj) (.router r)).Enabled x = true
              ↔ (l.Level ≤ x ∧ x ∉ m.keys) := by
  obtain ⟨loc, rotate, hp, hz, hr, hw⟩ := Build_ok_inv env l cores g lg hok
  obtain ⟨ho, hg⟩ := Build_success env l cores g loc rotate hp hz hr hw
  rw [ho] at hok
  injection hok with hlg
  subst hlg
  simp only [Option.some.injEq] at hm
  subst hm
  refine ⟨fun x => ?_, ?_⟩
  · rw [tidyLoop_keys env l.LevelToPath [] hp x]
    simp [GoMap.keys]
  · rw [hg]
    refine ⟨some (Build.newEncoder (Build.normalized env l loc)),
      fillLumberjack
        { Filename := l.FilePath ++ ".log",
          MaxSize := (l.Rotate.getD RotateConfig.zero).MaxSize,
          MaxBackups := (l.Rotate.getD RotateConfig.zero).MaxBackups,
          MaxAge := (l.Rotate.getD RotateConfig.zero).MaxAge,
          Compress := !(l.Rotate.getD RotateConfig.zero).DisableCompress },
      newLevelEnablerWithExcept (.atomic l.Level) (tidyLoop env l.LevelToPath []).2 [],
      (tidyLoop env l.LevelToPath []).2.keys.map
          (fun k => some (Build.redirectSink rotate
            (Build.newEncoder (Build.normalized env l loc)) (tidyLoop env l.LevelToPath []).2 k).2)
        ++ Build.otherSinks l (.atomic l.Level) (Build.newEncoder (Build.normalized env l loc))
            cores, ?_, ?_, ?_, ?_⟩
    · simp only [Build.sinks, if_pos hpath, Build.genericSink, List.singleton_append,
        List.cons_append, List.nil_append, List.append_assoc, Option.getD_some]
    · exact fillLumberjack_Filename _
    · rfl
    · intro x
      simp only [Core.Enabled, CoreEnabler.Enabled]
      rw [newLevelEnablerWithExcept_Enabled]
      simp [zapcore.LevelEnabler.Enabled, GoMap.keys]

/-- Witness of C2: the configuration `routingExample` in the sample environment. -/
theorem C2_generic_file_sink_routing_witness :
    ∃ lg m, routingExample.FilePath ≠ ""
      ∧ (routingExample.Build sampleEnv [] Globals.initial).outcome = .ok lg
      ∧ lg.levelToPath = some m
      ∧ (∀ x, x ∈ m.keys
          ↔ ∃ name ∈ routingExample.LevelToPath.keys, sampleEnv.ParseLevel name = some x)
      ∧ ∃ enc lj r rest,
          (routingExample.Build sampleEnv [] Globals.initial).globals.core
            = some (some (Core.ioCore enc (.rotate lj) (.router r)) :: rest)
          ∧ lj.Filename = routingExample.FilePath ++ ".log"
          ∧ r.LevelEnabler = .atomic routingExample.Level
          ∧ ∀ x, (Core.ioCore enc (.rotate lj) (.router r)).Enabled x = true
                ↔ (routingExample.Level ≤ x ∧ x ∉ m.keys) :=
  have h := Build_success sampleEnv routingExample [] Globals.initial
    { name := "Asia/Shanghai" } RotateConfig.zero (by decide) (by decide) (Or.inl (by decide)) (by decide)
  ⟨_, _, by decide, h.1, rfl,
    C2_generic_file_sink_routing sampleEnv routingExample [] Globals.initial _ _
      (by decide) h.1 rfl⟩

/-- C3. Dedicated sink routing as constructed: when `Build` returns a logger,
every entry of the parsed severity-to-path map, a severity `L` with its path, has
a sink in the composite that writes to that path through a router whose base is
the threshold `L` and whose marked exceptions are exactly the other redirected
severities; the sink accepts `x` exactly when `x` is at or above `L` and either
is `L` or is not a redirected severity. -/
theorem C3_dedicated_sink_routing (env : Env) (l : Config) (cores : Tee) (g : Globals)
    (lg : logger) (m : GoMap zapcore.Level String) (L : zapcore.Level) (path : String)
    (hok : (l.Build env cores g).outcome = .ok lg)
    (hm : lg.levelToPath = some m)
    (hL : (L, path) ∈ m) :
    ∃ tee enc lj r,
      (l.Build env cores g).globals.core = some tee
      ∧ some (Core.ioCore enc (.rotate lj) (.router r)) ∈ tee
      ∧ lj.Filename = path
      ∧ r.LevelEnabler = .level L
      ∧ (∀ y, r.except.get? y = some true ↔ (y ∈ m.keys ∧ y ≠ L))
      ∧ ∀ x, (Core.ioCore enc (.rotate lj) (.router r)).Enabled x = true
            ↔ (L ≤ x ∧ (x = L ∨ x ∉ m.keys)) := by
  obtain ⟨loc, rotate, hp, hz, hr, hw⟩ := Build_ok_inv env l cores g lg hok
  obtain ⟨ho, hg⟩ := Build_success env l cores g loc rotate hp hz hr hw
  rw [ho] at hok
  injection hok with hlg
  subst hlg
  simp only [Option.some.injEq] at hm
  subst hm
  have hnd : (tidyLoop env l.LevelToPath []).2.keys.Nodup :=
    tidyLoop_nodup env l.LevelToPath [] (by simp [GoMap.keys])
  have hk := mem_keys_of_mem _ L path hL
  refine ⟨_, some (Build.newEncoder (Build.normalized env l loc)),
    fillLumberjack
      { Filename := ((tidyLoop env l.LevelToPath []).2.get? L).getD "",
        MaxSize := rotate.MaxSize, MaxBackups := rotate.MaxBackups, MaxAge := rotate.MaxAge,
        Compress := true },
    newLevelEnablerWithExcept (.level L) (tidyLoop env l.LevelToPath []).2 [L],
    by rw [hg], ?_, ?_, rfl, ?_, ?_⟩
  · rw [← redirectSink_snd]
    exact redirect_mem_sinks l _ rotate _ cores L hk
  · rw [fillLumberjack_Filename, GoMap.get?_of_mem _ hnd L path hL]
    rfl
  · intro y
    rw [newLevelEnablerWithExcept_except]
    by_cases h : y ∈ (tidyLoop env l.LevelToPath []).2.keys ∧ y ∉ [L]
    · simp only [if_pos h, true_iff]
      exact ⟨h.1, by simpa using h.2⟩
    · rw [if_neg h]
      constructor
      · intro h2
        cases h2
      · intro h2
        exact absurd ⟨h2.1, by simpa using h2.2⟩ h
  · intro x
    rw [← redirectSink_snd]
    exact redirectSink_Enabled rotate _ _ L x

/-- Witness of C3: the debug entry of `routingExample`. -/
theorem C3_dedicated_sink_routing_witness :
    ∃ lg m, (routingExample.Build sampleEnv [] Globals.initial).outcome = .ok lg
      ∧ lg.levelToPath = some m
      ∧ (zapcore.DebugLevel, "logs/debug.log") ∈ m
      ∧ ∃ tee enc lj r,
          (routingExample.Build sampleEnv [] Globals.initial).globals.core = some tee
          ∧ some (Core.ioCore enc (.rotate lj) (.router r)) ∈ tee
          ∧ lj.Filename = "logs/debug.log"
          ∧ r.LevelEnabler = .level zapcore.DebugLevel
          ∧ (∀ y, r.except.get? y = some true ↔ (y ∈ m.keys ∧ y ≠ zapcore.DebugLevel))
          ∧ ∀ x, (Core.ioCore enc (.rotate lj) (.router r)).Enabled x = true
                ↔ (zapcore.DebugLevel ≤ x ∧ (x = zapcore.DebugLevel ∨ x ∉ m.keys)) :=
  have h := Build_success sampleEnv routingExample [] Globals.initial
    { name := "Asia/Shanghai" } RotateConfig.zero (by decide) (by decide) (Or.inl (by decide)) (by decide)
  ⟨_, _, h.1, rfl, by decide,
    C3_dedicated_sink_routing sampleEnv routingExample [] Globals.initial _ _
      zapcore.DebugLevel "logs/debug.log" h.1 rfl (by decide)⟩

/-- Counterexample to C4 as stated: with the redirect map of debug and info and a
base path, the dedicated sink of debug (the sink of the composite that writes to
`logs/debug.log`) accepts warn, which is not debug; of one record at each of
debug, info, warn and error it writes three, not the debug record alone. -/
theorem C4_dedicated_sink_exact_counterexample :
    ∃ lg tee c,
      (routingExample.Build sampleEnv [] Globals.initial).outcome = .ok lg
      ∧ (routingExample.Build sampleEnv [] Globals.initial).globals.core = some tee
      ∧ some c ∈ tee
      ∧ c.destination = some (rotatedFile "logs/debug.log")
      ∧ ¬ (c.Enabled zapcore.WarnLevel = true ↔ zapcore.WarnLevel = zapcore.DebugLevel)
      ∧ c.received
          [zapcore.DebugLevel, zapcore.InfoLevel, zapcore.WarnLevel, zapcore.ErrorLevel]
          = [zapcore.DebugLevel, zapcore.WarnLevel, zapcore.ErrorLevel] :=
  have h := Build_success sampleEnv routingExample [] Globals.initial
    { name := "Asia/Shanghai" } RotateConfig.zero (by decide) (by decide) (Or.inl (by decide)) (by decide)
  ⟨_, _,
    (Build.redirectSink RotateConfig.zero
      (Build.newEncoder (Build.normalized sampleEnv routingExample { name := "Asia/Shanghai" }))
      (tidyLoop sampleEnv routingExample.LevelToPath []).2 zapcore.DebugLevel).2,
    h.1, congrArg Globals.core h.2,
    redirect_mem_sinks routingExample _ RotateConfig.zero _ [] zapcore.DebugLevel (by decide),
    by decide, by decide, by decide⟩

/-- C4 as amended. With a base path set and `Build` returning a logger, the keys
of the parsed map are pairwise distinct, and for every entry, a severity `L` with
its path: the dedicated sink at that path accepts `x` exactly when `x` is `L`, or
`x` is above `L` and not a redirected severity; the base sink at
`<FilePath>.log` accepts `x` exactly when `x` is at or above the minimum and not
redirected.  Hence of any emitted records each sink writes those at the levels
it accepts. -/
theorem C4_dedicated_sink_acceptance (env : Env) (l : Config) (cores : Tee) (g : Globals)
    (lg : logger) (m : GoMap zapcore.Level String) (L : zapcore.Level) (path : String)
    (emitted : List zapcore.Level)
    (hpath : l.FilePath ≠ "")
    (hok : (l.Build env cores g).outcome = .ok lg)
    (hm : lg.levelToPath = some m)
    (hL : (L, path) ∈ m) :
    m.keys.Nodup
    ∧ ∃ tee base ded,
        (l.Build env cores g).globals.core = some tee
        ∧ tee.head? = some (some base)
        ∧ some ded ∈ tee
        ∧ (∃ lj, base.destination = some (.rotate lj) ∧ lj.Filename = l.FilePath ++ ".log")
        ∧ (∃ lj, ded.destination = some (.rotate lj) ∧ lj.Filename = path)
        ∧ (∀ x, ded.Enabled x = true ↔ (x = L ∨ (L < x ∧ x ∉ m.keys)))
        ∧ (∀ x, base.Enabled x = true ↔ (l.Level ≤ x ∧ x ∉ m.keys))
        ∧ ded.received emitted
            = emitted.filter (fun x => decide (x = L ∨ (L < x ∧ x ∉ m.keys)))
        ∧ base.received emitted
            = emitted.filter (fun x => decide (l.Level ≤ x ∧ x ∉ m.keys)) := by
  obtain ⟨loc, rotate, hp, hz, hr, hw⟩ := Build_ok_inv env l cores g lg hok
  obtain ⟨ho, hg⟩ := Build_success env l cores g loc rotate hp hz hr hw
  rw [ho] at hok
  injection hok with hlg
  subst hlg
  simp only [Option.some.injEq] at hm
  subst hm
  have hnd : (tidyLoop env l.LevelToPath []).2.keys.Nodup :=
    tidyLoop_nodup env l.LevelToPath [] (by simp [GoMap.keys])
  have hk := mem_keys_of_mem _ L path hL
  have hded : ∀ x, (Build.redirectSink rotate (Build.newEncoder (Build.normalized env l loc))
        (tidyLoop env l.LevelToPath []).2 L).2.Enabled x = true
      ↔ (x = L ∨ (L < x ∧ x ∉ (tidyLoop env l.LevelToPath []).2.keys)) := by
    intro x
    rw [redirectSink_Enabled]
    constructor
    · rintro ⟨h1, h2 | h2⟩
      · exact Or.inl h2
      · by_cases hx : x = L
        · exact Or.inl hx
        · exact Or.inr ⟨lt_of_le_of_ne h1 (fun e => hx e.symm), h2⟩
    · rintro (h1 | ⟨h1, h2⟩)
      · exact ⟨le_of_eq h1.symm, Or.inl h1⟩
      · exact ⟨le_of_lt h1, Or.inr h2⟩
  have hbase := genericSink_Enabled l.FilePath (l.Rotate.getD RotateConfig.zero)
    (Build.newEncoder (Build.normalized env l loc)) (tidyLoop env l.LevelToPath []).2 l.Level
  refine ⟨hnd, _,
    (Build.genericSink l.FilePath (l.Rotate.getD RotateConfig.zero) (.atomic l.Level)
      (Build.newEncoder (Build.normalized env l loc)) (some (tidyLoop env l.LevelToPath []).2)).2,
    (Build.redirectSink rotate (Build.newEncoder (Build.normalized env l loc))
      (tidyLoop env l.LevelToPath []).2 L).2,
    by rw [hg], ?_, redirect_mem_sinks l _ rotate _ cores L hk, ?_, ?_, hded, hbase, ?_, ?_⟩
  · simp only [Build.sinks, if_pos hpath, List.singleton_append, List.cons_append,
      List.head?_cons]
  · exact ⟨_, rfl, fillLumberjack_Filename _⟩
  · refine ⟨_, rfl, ?_⟩
    rw [fillLumberjack_Filename, GoMap.get?_of_mem _ hnd L path hL]
    rfl
  · unfold Core.received
    apply List.filter_congr
    intro x _
    by_cases hx : x = L ∨ (L < x ∧ x ∉ (tidyLoop env l.LevelToPath []).2.keys)
    · rw [(hded x).mpr hx, decide_eq_true hx]
    · have : ¬ _ = true := fun h => hx ((hded x).mp h)
      rw [Bool.not_eq_true] at this
      rw [this, decide_eq_false hx]
  · unfold Core.received
    apply List.filter_congr
    intro x _
    by_cases hx : l.Level ≤ x ∧ x ∉ (tidyLoop env l.LevelToPath []).2.keys
    · rw [(hbase x).mpr hx, decide_eq_true hx]
    · have : ¬ _ = true := fun h => hx ((hbase x).mp h)
      rw [Bool.not_eq_true] at this
      rw [this, decide_eq_false hx]

/-- Witness of C4 as amended: the debug entry of `routingExample` and one record
at each of debug, info, warn and error. -/
theorem C4_dedicated_sink_acceptance_witness :
    ∃ lg m, routingExample.FilePath ≠ ""
      ∧ (routingExample.Build sampleEnv [] Globals.initial).outcome = .ok lg
      ∧ lg.levelToPath = some m
      ∧ (zapcore.DebugLevel, "logs/debug.log") ∈ m
      ∧ m.keys.Nodup
      ∧ ∃ tee base ded,
          (routingExample.Build sampleEnv [] Globals.initial).globals.core = some tee
          ∧ tee.head? = some (some base)
          ∧ some ded ∈ tee
          ∧ (∃ lj, base.destination = some (.rotate lj)
              ∧ lj.Filename = routingExample.FilePath ++ ".log")
          ∧ (∃ lj, ded.destination = some (.rotate lj) ∧ lj.Filename = "logs/debug.log")
          ∧ (∀ x, ded.Enabled x = true
              ↔ (x = zapcore.DebugLevel ∨ (zapcore.DebugLevel < x ∧ x ∉ m.keys)))
          ∧ (∀ x, base.Enabled x = true ↔ (routingExample.Level ≤ x ∧ x ∉ m.keys))
          ∧ ded.received
              [zapcore.DebugLevel, zapcore.InfoLevel, zapcore.WarnLevel, zapcore.ErrorLevel]
              = [zapcore.DebugLevel, zapcore.InfoLevel, zapcore.WarnLevel,
                  zapcore.ErrorLevel].filter
                  (fun x => decide (x = zapcore.DebugLevel ∨ (zapcore.DebugLevel < x ∧ x ∉ m.keys)))
          ∧ base.received
              [zapcore.DebugLevel, zapcore.InfoLevel, zapcore.WarnLevel, zapcore.ErrorLevel]
              = [zapcore.DebugLevel, zapcore.InfoLevel, zapcore.WarnLevel,
                  zapcore.ErrorLevel].filter
                  (fun x => decide (routingExample.Level ≤ x ∧ x ∉ m.keys)) :=
  have h := Build_success sampleEnv routingExample [] Globals.initial
    { name := "Asia/Shanghai" } RotateConfig.zero (by decide) (by decide) (Or.inl (by decide)) (by decide)
  ⟨_, _, by decide, h.1, rfl, by decide,
    C4_dedicated_sink_acceptance sampleEnv routingExample [] Globals.initial _ _
      zapcore.DebugLevel "logs/debug.log"
      [zapcore.DebugLevel, zapcore.InfoLevel, zapcore.WarnLevel, zapcore.ErrorLevel]
      (by decide) h.1 rfl (by decide)⟩

/-- Counterexample to C5 as stated: with the redirect map of debug and info and a
base path, the three file sinks of the composite (the generic one and the two
dedicated ones) all accept warn. -/
theorem C5_no_duplicate_delivery_counterexample :
    ∃ lg tee,
      (routingExample.Build sampleEnv [] Globals.initial).outcome = .ok lg
      ∧ (routingExample.Build sampleEnv [] Globals.initial).globals.core = some tee
      ∧ (Tee.accepting (tee.take 3) zapcore.WarnLevel).map Core.destination
          = [some (rotatedFile "logs/app.log"), some (rotatedFile "logs/debug.log"),
             some (rotatedFile "logs/info.log")]
      ∧ ¬ (Tee.accepting (tee.take 3) zapcore.WarnLevel).length ≤ 1 :=
  have h := Build_success sampleEnv routingExample [] Globals.initial
    { name := "Asia/Shanghai" } RotateConfig.zero (by decide) (by decide) (Or.inl (by decide)) (by decide)
  ⟨_, _, h.1, congrArg Globals.core h.2, by decide, by decide⟩

/-- C5 as amended. When `Build` returns a logger, the composite is the file
sinks (the generic one when a base path is set, then one per key of the parsed
map) followed by console, hook and supplied sinks; a redirected severity is
accepted by exactly one file sink, and a severity that is not redirected is
accepted by the generic sink when at or above the minimum and by every dedicated
sink whose severity is at or below it. -/
theorem C5_file_sinks_accepting (env : Env) (l : Config) (cores : Tee) (g : Globals)
    (lg : logger) (m : GoMap zapcore.Level String)
    (hok : (l.Build env cores g).outcome = .ok lg)
    (hm : lg.levelToPath = some m) :
    ∃ enc fileSinks,
      (l.Build env cores g).globals.core
        = some (fileSinks ++ Build.otherSinks l (.atomic l.Level) enc cores)
      ∧ (∀ c ∈ fileSinks, ∃ c0 lj, c = some c0 ∧ c0.destination = some (.rotate lj))
      ∧ fileSinks.length = (if l.FilePath ≠ "" then 1 else 0) + m.keys.length
      ∧ (∀ x, x ∈ m.keys → (Tee.accepting fileSinks x).length = 1)
      ∧ (∀ x, x ∉ m.keys →
          (Tee.accepting fileSinks x).length
            = (if l.FilePath ≠ "" ∧ l.Level ≤ x then 1 else 0)
              + m.keys.countP (fun k => decide (k ≤ x))) := by
  obtain ⟨loc, rotate, hp, hz, hr, hw⟩ := Build_ok_inv env l cores g lg hok
  obtain ⟨ho, hg⟩ := Build_success env l cores g loc rotate hp hz hr hw
  rw [ho] at hok
  injection hok with hlg
  subst hlg
  simp only [Option.some.injEq] at hm
  subst hm
  have hnd : (tidyLoop env l.LevelToPath []).2.keys.Nodup :=
    tidyLoop_nodup env l.LevelToPath [] (by simp [GoMap.keys])
  have hbase := genericSink_Enabled l.FilePath (l.Rotate.getD RotateConfig.zero)
    (Build.newEncoder (Build.normalized env l loc)) (tidyLoop env l.LevelToPath []).2 l.Level
  refine ⟨Build.newEncoder (Build.normalized env l loc),
    (if l.FilePath ≠ "" then
        [some (Build.genericSink l.FilePath (l.Rotate.getD RotateConfig.zero) (.atomic l.Level)
          (Build.newEncoder (Build.normalized env l loc))
          (some (tidyLoop env l.LevelToPath []).2)).2]
      else [])
      ++ (tidyLoop env l.LevelToPath []).2.keys.map
          (fun k => some (Build.redirectSink rotate
            (Build.newEncoder (Build.normalized env l loc))
            (tidyLoop env l.LevelToPath []).2 k).2),
    by rw [hg]; rfl, ?_, ?_, ?_, ?_⟩
  · intro c hc
    rcases List.mem_append.mp hc with h1 | h1
    · by_cases hpath : l.FilePath = ""
      · simp [hpath] at h1
      · rw [if_pos hpath, List.mem_singleton] at h1
        exact ⟨_, _, h1, rfl⟩
    · obtain ⟨k, _, hk2⟩ := List.mem_map.mp h1
      exact ⟨_, _, hk2.symm, rfl⟩
  · by_cases hpath : l.FilePath = ""
    · simp [hpath]
    · simp [hpath, Nat.add_comm]
  · intro x hx
    rw [accepting_append, List.length_append, accepting_redirect_length]
    have h1 : (Tee.accepting
        (if l.FilePath ≠ "" then
          [some (Build.genericSink l.FilePath (l.Rotate.getD RotateConfig.zero)
            (.atomic l.Level) (Build.newEncoder (Build.normalized env l loc))
            (some (tidyLoop env l.LevelToPath []).2)).2]
        else []) x).length = 0 := by
      have hb : ¬ (Build.genericSink l.FilePath (l.Rotate.getD RotateConfig.zero)
          (.atomic l.Level) (Build.newEncoder (Build.normalized env l loc))
          (some (tidyLoop env l.LevelToPath []).2)).2.Enabled x = true :=
        fun h => ((hbase x).mp h).2 hx
      rw [Bool.not_eq_true] at hb
      by_cases hpath : l.FilePath = ""
      · simp [hpath, Tee.accepting]
      · simp [hpath, Tee.accepting, hb]
    have h2 : (tidyLoop env l.LevelToPath []).2.keys.countP
        (fun k => decide (k ≤ x ∧ (x = k ∨ x ∉ (tidyLoop env l.LevelToPath []).2.keys)))
          = (tidyLoop env l.LevelToPath []).2.keys.count x := by
      rw [List.count, List.countP_congr]
      intro k _
      simp only [decide_eq_true_eq, beq_iff_eq]
      constructor
      · rintro ⟨_, h3 | h3⟩
        · exact h3.symm
        · exact absurd hx h3
      · intro h3
        exact ⟨le_of_eq h3, Or.inl h3.symm⟩
    rw [h1, h2, List.count_eq_one_of_mem hnd hx]
  · intro x hx
    rw [accepting_append, List.length_append, accepting_redirect_length]
    have h1 : (Tee.accepting
        (if l.FilePath ≠ "" then
          [some (Build.genericSink l.FilePath (l.Rotate.getD RotateConfig.zero)
            (.atomic l.Level) (Build.newEncoder (Build.normalized env l loc))
            (some (tidyLoop env l.LevelToPath []).2)).2]
        else []) x).length = (if l.FilePath ≠ "" ∧ l.Level ≤ x then 1 else 0) := by
      by_cases hpath : l.FilePath = ""
      · simp [hpath, Tee.accepting]
      · by_cases hlv : l.Level ≤ x
        · have hb := (hbase x).mpr ⟨hlv, hx⟩
          simp [hpath, Tee.accepting, hb, hlv]
        · have hb : ¬ (Build.genericSink l.FilePath (l.Rotate.getD RotateConfig.zero)
              (.atomic l.Level) (Build.newEncoder (Build.normalized env l loc))
              (some (tidyLoop env l.LevelToPath []).2)).2.Enabled x = true :=
            fun h => hlv ((hbase x).mp h).1
          rw [Bool.not_eq_true] at hb
          simp [hpath, Tee.accepting, hb, hlv]
    have h2 : (tidyLoop env l.LevelToPath []).2.keys.countP
        (fun k => decide (k ≤ x ∧ (x = k ∨ x ∉ (tidyLoop env l.LevelToPath []).2.keys)))
          = (tidyLoop env l.LevelToPath []).2.keys.countP (fun k => decide (k ≤ x)) := by
      apply List.countP_congr
      intro k _
      simp only [decide_eq_true_eq]
      exact ⟨fun h3 => h3.1, fun h3 => ⟨h3, Or.inr hx⟩⟩
    rw [h1, h2]

/-- Witness of C5 as amended: the configuration `routingExample`. -/
theorem C5_file_sinks_accepting_witness :
    ∃ lg m, (routingExample.Build sampleEnv [] Globals.initial).outcome = .ok lg
      ∧ lg.levelToPath = some m
      ∧ ∃ enc fileSinks,
          (routingExample.Build sampleEnv [] Globals.initial).globals.core
            = some (fileSinks
                ++ Build.otherSinks routingExample (.atomic routingExample.Level) enc [])
          ∧ (∀ c ∈ fileSinks, ∃ c0 lj, c = some c0 ∧ c0.destination = some (.rotate lj))
          ∧ fileSinks.length = (if routingExample.FilePath ≠ "" then 1 else 0) + m.keys.length
          ∧ (∀ x, x ∈ m.keys → (Tee.accepting fileSinks x).length = 1)
          ∧ (∀ x, x ∉ m.keys →
              (Tee.accepting fileSinks x).length
                = (if routingExample.FilePath ≠ "" ∧ routingExample.Level ≤ x then 1 else 0)
                  + m.keys.countP (fun k => decide (k ≤ x))) :=
  have h := Build_success sampleEnv routingExample [] Globals.initial
    { name := "Asia/Shanghai" } RotateConfig.zero (by decide) (by decide) (Or.inl (by decide)) (by decide)
  ⟨_, _, h.1, rfl,
    C5_file_sinks_accepting sampleEnv routingExample [] Globals.initial _ _ h.1 rfl⟩

/-! ## Failed builds -/

/-- C6. Unparseable severity name aborts the build: if some name of the redirect
mapping does not parse, `Build` returns the error of `tidy` for such a name, no
logger, and the process-wide variables (composite, encoder, file writer,
injected sinks, hidden-console flag) are exactly those before the call, whatever
the other fields of the configuration, the supplied sinks and the earlier state
are. -/
theorem C6_unparseable_name_aborts (env : Env) (l : Config) (cores : Tee) (g : Globals)
    (h : ∃ name ∈ l.LevelToPath.keys, env.ParseLevel name = none) :
    ∃ bad, bad ∈ l.LevelToPath.keys ∧ env.ParseLevel bad = none
      ∧ (l.Build env cores g).outcome = .error (.tidy bad)
      ∧ (l.Build env cores g).globals = g := by
  obtain ⟨bad, hb1, hb2, hb3⟩ := tidyLoop_bad env l.LevelToPath [] h
  refine ⟨bad, hb2, hb3, ?_, ?_⟩
  · rw [Build_tidy_error env l cores g bad hb1]
  · rw [Build_tidy_error env l cores g bad hb1]

/-- Witness of C6: the configuration `badNameExample`, one supplied sink. -/
theorem C6_unparseable_name_aborts_witness :
    (∃ name ∈ badNameExample.LevelToPath.keys, sampleEnv.ParseLevel name = none)
    ∧ ∃ bad, bad ∈ badNameExample.LevelToPath.keys ∧ sampleEnv.ParseLevel bad = none
      ∧ (badNameExample.Build sampleEnv [some (.injected 7 (fun _ => true))]
          Globals.initial).outcome = .error (.tidy bad)
      ∧ (badNameExample.Build sampleEnv [some (.injected 7 (fun _ => true))]
          Globals.initial).globals = Globals.initial :=
  ⟨⟨"verbose", by decide, by decide⟩,
    C6_unparseable_name_aborts sampleEnv badNameExample [some (.injected 7 (fun _ => true))]
      Globals.initial ⟨"verbose", by decide, by decide⟩⟩

/-- Counterexample to C7 as stated: a build that fails on its time zone has
already overwritten the hidden-console flag and the injected sinks. -/
theorem C7_failed_build_atomic_counterexample :
    (badZoneExample.Build sampleEnv [some (.injected 7 (fun _ => true))]
        Globals.initial).outcome = .error (.loadLocation "Mars/Olympus")
    ∧ Globals.initial.HiddenConsole = false
    ∧ (badZoneExample.Build sampleEnv [some (.injected 7 (fun _ => true))]
        Globals.initial).globals.HiddenConsole = true
    ∧ Globals.initial.inputCores.length = 0
    ∧ (badZoneExample.Build sampleEnv [some (.injected 7 (fun _ => true))]
        Globals.initial).globals.inputCores.length = 1 :=
  ⟨congrArg BuildResult.outcome
      (Build_zone_error sampleEnv badZoneExample [some (.injected 7 (fun _ => true))]
        Globals.initial (by decide) (by decide)),
    rfl, by decide, rfl, by decide⟩

/-- C7 as amended. A build that returns an error leaves the encoder, the file
writer and the composite as they were; if the error is that of an unparseable
severity name, all process-wide variables are unchanged; if it is that of an
unloadable time zone, the hidden-console flag and the injected sinks are already
those of the failed call. -/
theorem C7_failed_build_descriptors (env : Env) (l : Config) (cores : Tee) (g : Globals)
    (err : BuildError)
    (herr : (l.Build env cores g).outcome = .error err) :
    (l.Build env cores g).globals.encoder = g.encoder
    ∧ (l.Build env cores g).globals.writeSyncer = g.writeSyncer
    ∧ (l.Build env cores g).globals.core = g.core
    ∧ (∀ bad, err = .tidy bad → (l.Build env cores g).globals = g)
    ∧ (∀ zone, err = .loadLocation zone →
        (l.Build env cores g).globals.HiddenConsole = l.HideConsole
        ∧ (l.Build env cores g).globals.inputCores = cores) := by
  rcases Build_error_inv env l cores g err herr with ⟨bad, hb, he⟩ | ⟨hp, hz, he⟩
  · rw [Build_tidy_error env l cores g bad hb]
    refine ⟨rfl, rfl, rfl, fun _ _ => rfl, fun zone hzone => ?_⟩
    rw [he] at hzone
    cases hzone
  · rw [Build_zone_error env l cores g hp hz]
    refine ⟨rfl, rfl, rfl, fun bad hbad => ?_, fun _ _ => ⟨rfl, rfl⟩⟩
    rw [he] at hbad
    cases hbad

/-- Witness of C7 as amended: the configuration `badZoneExample`. -/
theorem C7_failed_build_descriptors_witness :
    (badZoneExample.Build sampleEnv [] Globals.initial).outcome
        = .error (.loadLocation "Mars/Olympus")
    ∧ (badZoneExample.Build sampleEnv [] Globals.initial).globals.encoder
        = Globals.initial.encoder
    ∧ (badZoneExample.Build sampleEnv [] Globals.initial).globals.writeSyncer
        = Globals.initial.writeSyncer
    ∧ (badZoneExample.Build sampleEnv [] Globals.initial).globals.core = Globals.initial.core
    ∧ (∀ bad, BuildError.loadLocation "Mars/Olympus" = .tidy bad →
        (badZoneExample.Build sampleEnv [] Globals.initial).globals = Globals.initial)
    ∧ (∀ zone, BuildError.loadLocation "Mars/Olympus" = .loadLocation zone →
        (badZoneExample.Build sampleEnv [] Globals.initial).globals.HiddenConsole
          = badZoneExample.HideConsole
        ∧ (badZoneExample.Build sampleEnv [] Globals.initial).globals.inputCores = []) :=
  have h : (badZoneExample.Build sampleEnv [] Globals.initial).outcome
      = .error (.loadLocation "Mars/Olympus") :=
    congrArg BuildResult.outcome
      (Build_zone_error sampleEnv badZoneExample [] Globals.initial (by decide) (by decide))
  ⟨h, C7_failed_build_descriptors sampleEnv badZoneExample [] Globals.initial _ h⟩

/-! ## Builds without file destinations, and builds with a redirect map only -/

/-- Counterexample to C8 as stated: a configuration with no base file path and no
redirect map whose time zone does not load; `Build` returns an error.  And the
zero configuration, whose zone loads, with a nil sink supplied: the composite is
the console sink and the nil sink, and `Build` panics when it attaches the field
of the service. -/
theorem C8_composite_without_files_counterexample :
    badZoneExample.FilePath = "" ∧ badZoneExample.LevelToPath = []
    ∧ (badZoneExample.Build sampleEnv [] Globals.initial).outcome
        = .error (.loadLocation "Mars/Olympus")
    ∧ (∀ lg, (badZoneExample.Build sampleEnv [] Globals.initial).outcome ≠ .ok lg)
    ∧ NewConfig.FilePath = "" ∧ NewConfig.LevelToPath = []
    ∧ (NewConfig.Build sampleEnv [none] Globals.initial).outcome = .fault .nilPointer := by
  have h : (badZoneExample.Build sampleEnv [] Globals.initial).outcome
      = .error (.loadLocation "Mars/Olympus") :=
    congrArg BuildResult.outcome
      (Build_zone_error sampleEnv badZoneExample [] Globals.initial (by decide) (by decide))
  refine ⟨rfl, rfl, h, fun lg hlg => ?_, rfl, rfl,
    (Build_with_fault sampleEnv NewConfig [none] Globals.initial { name := "Asia/Shanghai" }
      RotateConfig.zero (by decide) (by decide) (Or.inr (by decide)) (by decide)).1⟩
  rw [h] at hlg
  cases hlg

/-- C8 as amended. For every configuration with no base file path and no redirect
map whose time zone loads, the sinks that `Build` merges into the composite and
records in the process-wide variable are exactly: one console sink at the
configured minimum severity unless the console is hidden, then one sink per hook
with the writer and minimum severity of the hook, then the supplied sinks as
given.  When every sink of that list can take a field, `Build` returns a logger
over it; otherwise `Build` panics while it attaches the field of the service.
A sink cannot take a field when the list is not the single nil sink and a
supplied sink is nil or lacks an encoder. -/
theorem C8_composite_without_files (env : Env) (l : Config) (cores : Tee) (g : Globals)
    (loc : time.Location)
    (hpath : l.FilePath = "") (hmap : l.LevelToPath = [])
    (hz : env.LoadLocation l.zone = some loc) :
    ∃ (enc : Encoder) (S : Tee),
      S = (if l.HideConsole = true then []
            else [some (Core.ioCore (some enc) .stdout (.plain (.atomic l.Level)))])
          ++ l.Hooks.map (fun hook =>
              some (Core.ioCore (some enc) (.addSync hook.Writer)
                (.plain (.level hook.MinLevel))))
          ++ cores
      ∧ (l.Build env cores g).globals.core = some S
      ∧ (S.withFaults = false →
          ∃ lg u, (l.Build env cores g).outcome = .ok lg ∧ lg.underlying = some u
            ∧ u.core = S)
      ∧ (S.withFaults = true → (l.Build env cores g).outcome = .fault .nilPointer)
      ∧ (S.withFaults = true
          ↔ S ≠ [none] ∧ ∃ c ∈ cores, c = none ∨ ∃ ws e, c = some (Core.ioCore none ws e)) := by
  have hp : (tidyLoop env l.LevelToPath []).1 = none := by rw [hmap]; rfl
  have hm : (tidyLoop env l.LevelToPath []).2 = [] := by rw [hmap]; rfl
  have hS : Build.sinks l (Build.newEncoder (Build.normalized env l loc)) RotateConfig.zero
        (tidyLoop env l.LevelToPath []).2 cores
      = (if l.HideConsole = true then []
          else [some (Core.ioCore (some (Build.newEncoder (Build.normalized env l loc))) .stdout
            (.plain (.atomic l.Level)))])
        ++ l.Hooks.map (fun hook =>
            some (Core.ioCore (some (Build.newEncoder (Build.normalized env l loc)))
              (.addSync hook.Writer) (.plain (.level hook.MinLevel))))
        ++ cores := by
    simp only [Build.sinks, hm, GoMap.keys, List.map_nil, List.append_nil, hpath,
      Build.otherSinks]
    cases l.HideConsole <;> simp
  refine ⟨Build.newEncoder (Build.normalized env l loc),
    Build.sinks l (Build.newEncoder (Build.normalized env l loc)) RotateConfig.zero
      (tidyLoop env l.LevelToPath []).2 cores, hS, ?_, ?_, ?_, ?_⟩
  · cases hw : (Build.sinks l (Build.newEncoder (Build.normalized env l loc)) RotateConfig.zero
        (tidyLoop env l.LevelToPath []).2 cores).withFaults with
    | false =>
      rw [(Build_success env l cores g loc RotateConfig.zero hp hz (Or.inr hm) hw).2]
    | true =>
      rw [(Build_with_fault env l cores g loc RotateConfig.zero hp hz (Or.inr hm) hw).2]
  · intro hw
    exact ⟨_, _, (Build_success env l cores g loc RotateConfig.zero hp hz (Or.inr hm) hw).1,
      rfl, rfl⟩
  · intro hw
    exact (Build_with_fault env l cores g loc RotateConfig.zero hp hz (Or.inr hm) hw).1
  · rw [withFaults_iff]
    constructor
    · rintro ⟨h1, c, hc, h2⟩
      refine ⟨h1, c, ?_, h2⟩
      rw [hS] at hc
      simp only [List.mem_append, List.mem_map] at hc
      rcases hc with (hc | ⟨hook, _, hc⟩) | hc
      · by_cases hcon : l.HideConsole = true
        · simp [hcon] at hc
        · rw [if_neg hcon, List.mem_singleton] at hc
          subst hc
          rcases h2 with h2 | ⟨ws, e, h2⟩
          · cases h2
          · cases h2
      · subst hc
        rcases h2 with h2 | ⟨ws, e, h2⟩
        · cases h2
        · cases h2
      · exact hc
    · rintro ⟨h1, c, hc, h2⟩
      refine ⟨h1, c, ?_, h2⟩
      rw [hS]
      exact List.mem_append_right _ hc

/-- Witness of C8 as amended: the zero configuration with one hook and one
supplied sink. -/
theorem C8_composite_without_files_witness :
    hookOnlyExample.FilePath = "" ∧ hookOnlyExample.LevelToPath = []
    ∧ sampleEnv.LoadLocation hookOnlyExample.zone = some { name := "Asia/Shanghai" }
    ∧ ∃ (enc : Encoder) (S : Tee),
      S = (if hookOnlyExample.HideConsole = true then []
            else [some (Core.ioCore (some enc) .stdout
              (.plain (.atomic hookOnlyExample.Level)))])
          ++ hookOnlyExample.Hooks.map (fun hook =>
              some (Core.ioCore (some enc) (.addSync hook.Writer)
                (.plain (.level hook.MinLevel))))
          ++ [some (.injected 7 (fun _ => true))]
      ∧ (hookOnlyExample.Build sampleEnv [some (.injected 7 (fun _ => true))]
          Globals.initial).globals.core = some S
      ∧ (S.withFaults = false →
          ∃ lg u, (hookOnlyExample.Build sampleEnv [some (.injected 7 (fun _ => true))]
              Globals.initial).outcome = .ok lg
            ∧ lg.underlying = some u ∧ u.core = S)
      ∧ (S.withFaults = true →
          (hookOnlyExample.Build sampleEnv [some (.injected 7 (fun _ => true))]
            Globals.initial).outcome = .fault .nilPointer)
      ∧ (S.withFaults = true
          ↔ S ≠ [none] ∧ ∃ c ∈ [some (Core.injected 7 (fun _ => true))],
              c = none ∨ ∃ ws e, c = some (Core.ioCore none ws e)) :=
  ⟨rfl, rfl, by decide,
    C8_composite_without_files sampleEnv hookOnlyExample
      [some (.injected 7 (fun _ => true))] Globals.initial { name := "Asia/Shanghai" }
      rfl rfl (by decide)⟩

/-- C9, the code at the failing input. With a redirect map, no base file path and
a nil `Rotate`, all names parsing and the zone loading, `Build` does not return:
the loop of line 199 dereferences `l.Rotate` and panics.  The same configuration
with `Rotate` set to the zero value, as in `TestLogger_AddLogrus`, and the same
configuration with a base file path, whose branch replaces the nil pointer, both
return a logger. -/
theorem C9_redirect_without_rotate_faults :
    redirectOnlyExample.FilePath = "" ∧ redirectOnlyExample.Rotate = none
    ∧ (∀ name ∈ redirectOnlyExample.LevelToPath.keys,
        (sampleEnv.ParseLevel name).isSome = true)
    ∧ sampleEnv.LoadLocation redirectOnlyExample.zone = some { name := "Asia/Shanghai" }
    ∧ (redirectOnlyExample.Build sampleEnv [] Globals.initial).outcome = .fault .nilPointer
    ∧ (∃ lg, (({ redirectOnlyExample with Rotate := some RotateConfig.zero } : Config).Build
          sampleEnv [] Globals.initial).outcome = .ok lg)
    ∧ (∃ lg, (({ redirectOnlyExample with FilePath := "a" } : Config).Build
          sampleEnv [] Globals.initial).outcome = .ok lg) :=
  ⟨rfl, rfl, by decide, by decide,
    Build_fault sampleEnv redirectOnlyExample [] Globals.initial { name := "Asia/Shanghai" }
      (by decide) (by decide) (by decide) (by decide),
    ⟨_, (Build_success sampleEnv { redirectOnlyExample with Rotate := some RotateConfig.zero }
      [] Globals.initial { name := "Asia/Shanghai" } RotateConfig.zero
      (by decide) (by decide) (Or.inl (by decide)) (by decide)).1⟩,
    ⟨_, (Build_success sampleEnv { redirectOnlyExample with FilePath := "a" }
      [] Globals.initial { name := "Asia/Shanghai" } RotateConfig.zero
      (by decide) (by decide) (Or.inl (by decide)) (by decide)).1⟩⟩

/-! ## Re-leveling -/

/-- The sinks that `SetLevel` hands to `zapcore.NewTee`: a file sink over the
recorded file writer if there is one, the recorded injected sinks that are not
nil, and a console sink unless the console is hidden. -/
def SetLevel.sinks (level : zapcore.Level) (g : Globals) : Tee :=
  (match g.writeSyncer with
    | some ws => [some (Core.ioCore g.encoder ws (.plain (.level level)))]
    | none => [])
  ++ g.inputCores.filter (fun inputCore => inputCore.isSome)
  ++ (if g.HiddenConsole = true then []
      else [some (Core.ioCore g.encoder .stdout (.plain (.level level)))])

/-- Method `SetLevel` in terms of the sinks it merges. -/
theorem SetLevel_unfold (n : logger) (level : zapcore.Level) (g : Globals) :
    n.SetLevel level g
      = match zapNewWith (SetLevel.sinks level g) false n.fields with
        | .error p => (.error p, { g with core := some (SetLevel.sinks level g) })
        | .ok withFields =>
          (NewLogger (some { withFields with addCaller := true }) n.name 1 true false
            n.levelToPath none n.fields,
           { g with core := some (SetLevel.sinks level g) }) := by
  have hc : (if (!g.HiddenConsole) = true then
        [some (Core.ioCore g.encoder .stdout (.plain (.level level)))] else [])
      = (if g.HiddenConsole = true then ([] : Tee)
          else [some (Core.ioCore g.encoder .stdout (.plain (.level level)))]) := by
    cases g.HiddenConsole <;> rfl
  simp only [logger.SetLevel, SetLevel.sinks, hc]

/-- The complete result of a `SetLevel` that returns: the node has no own field
or every sink of the new composite can take fields.  The returned node sits on
the new composite, and only the composite among the process-wide variables
changes. -/
theorem SetLevel_eq (n : logger) (level : zapcore.Level) (g : Globals)
    (hw : n.fields = [] ∨ (SetLevel.sinks level g).withFaults = false) :
    n.SetLevel level g
      = (.ok { underlying := some
                { core := SetLevel.sinks level g, context := n.fields, name := n.name,
                  addCaller := true, callerSkip := 1 },
               levelToPath := n.levelToPath, duplicateKeys := some (NewExist 10),
               name := n.name, fields := n.fields, skip := 1 },
         { g with core := some (SetLevel.sinks level g) }) := by
  rw [SetLevel_unfold, zapNewWith_ok _ _ _ hw]
  by_cases hn : n.name = ""
  · simp only [NewLogger, zapNamed, zapAddCallerSkip, hn]
    rfl
  · simp only [NewLogger, zapNamed, zapAddCallerSkip, hn, zap.Logger.Named]
    rfl

/-- A `SetLevel` that panics: the node has an own field and a sink of the new
composite cannot take fields.  The composite has been recorded. -/
theorem SetLevel_fault (n : logger) (level : zapcore.Level) (g : Globals)
    (hf : n.fields ≠ []) (hw : (SetLevel.sinks level g).withFaults = true) :
    n.SetLevel level g
      = (.error .nilPointer, { g with core := some (SetLevel.sinks level g) }) := by
  rw [SetLevel_unfold]
  cases hfs : n.fields with
  | nil => exact absurd hfs hf
  | cons f rest => rw [zapNewWith_fault _ _ _ _ hw]

/-- The process-wide variables after any `SetLevel`. -/
theorem SetLevel_globals (n : logger) (level : zapcore.Level) (g : Globals) :
    (n.SetLevel level g).2 = { g with core := some (SetLevel.sinks level g) } := by
  rw [SetLevel_unfold]
  split <;> rfl

/-- No entry of the composite of `SetLevel` is nil. -/
theorem SetLevel_sinks_some (level : zapcore.Level) (g : Globals) :
    none ∉ SetLevel.sinks level g := by
  intro hc
  simp only [SetLevel.sinks, List.mem_append, List.mem_filter] at hc
  rcases hc with (hc | hc) | hc
  · cases hw : g.writeSyncer with
    | none => simp [hw] at hc
    | some ws => simp [hw] at hc
  · simp at hc
  · by_cases hcon : g.HiddenConsole = true
    · simp [hcon] at hc
    · simp [hcon] at hc

/-- The composite of `SetLevel` holds a sink that cannot take fields exactly when
the recorded encoder is nil and a file or console sink is made, or a recorded
injected sink lacks an encoder. -/
theorem SetLevel_sinks_withFaults (level : zapcore.Level) (g : Globals) :
    (SetLevel.sinks level g).withFaults = true
      ↔ (g.encoder = none ∧ (g.writeSyncer ≠ none ∨ g.HiddenConsole = false))
        ∨ ∃ ws e, some (Core.ioCore none ws e) ∈ g.inputCores := by
  rw [withFaults_iff]
  constructor
  · rintro ⟨_, c, hc, h | ⟨ws, e, h⟩⟩
    · subst h
      exact absurd hc (SetLevel_sinks_some level g)
    · subst h
      simp only [SetLevel.sinks, List.mem_append, List.mem_filter] at hc
      rcases hc with (hc | hc) | hc
      · cases hw : g.writeSyncer with
        | none => simp [hw] at hc
        | some ws2 =>
          simp only [hw, List.mem_singleton, Option.some.injEq, Core.ioCore.injEq] at hc
          exact Or.inl ⟨hc.1.symm, Or.inl (by simp)⟩
      · exact Or.inr ⟨ws, e, hc.1⟩
      · cases hcon : g.HiddenConsole with
        | true => simp [hcon] at hc
        | false =>
          simp only [hcon, Bool.false_eq_true, if_false, List.mem_singleton,
            Option.some.injEq, Core.ioCore.injEq] at hc
          exact Or.inl ⟨hc.1.symm, Or.inr rfl⟩
  · intro h
    have hne : ∀ c, c ∈ SetLevel.sinks level g → SetLevel.sinks level g ≠ [none] := by
      intro c _ heq
      exact SetLevel_sinks_some level g (by rw [heq]; exact List.mem_singleton.2 rfl)
    rcases h with ⟨henc, hw | hcon⟩ | ⟨ws, e, hin⟩
    · cases hws : g.writeSyncer with
      | none => exact absurd hws hw
      | some ws =>
        have hmem : some (Core.ioCore none ws (.plain (.level level)))
            ∈ SetLevel.sinks level g := by
          simp [SetLevel.sinks, hws, henc]
        exact ⟨hne _ hmem, _, hmem, Or.inr ⟨_, _, rfl⟩⟩
    · have hmem : some (Core.ioCore none .stdout (.plain (.level level)))
          ∈ SetLevel.sinks level g := by
        simp [SetLevel.sinks, hcon, henc]
      exact ⟨hne _ hmem, _, hmem, Or.inr ⟨_, _, rfl⟩⟩
    · have hmem : some (Core.ioCore none ws e) ∈ SetLevel.sinks level g := by
        simp [SetLevel.sinks, hin]
      exact ⟨hne _ hmem, _, hmem, Or.inr ⟨_, _, rfl⟩⟩

/-- After a build that went through all stages, every sink of the composite of
`SetLevel` can take fields: the encoder is recorded, and a supplied sink without
an encoder would have made the build panic. -/
theorem SetLevel_after_Build (env : Env) (l : Config) (cores : Tee) (g : Globals)
    (loc : time.Location) (rotate : RotateConfig) (level : zapcore.Level)
    (hp : (tidyLoop env l.LevelToPath []).1 = none) (hz : env.LoadLocation l.zone = some loc)
    (hr : Build.rotateInLoop l = some rotate ∨ (tidyLoop env l.LevelToPath []).2 = [])
    (hw : (Build.sinks l (Build.newEncoder (Build.normalized env l loc)) rotate
            (tidyLoop env l.LevelToPath []).2 cores).withFaults = false) :
    (SetLevel.sinks level (l.Build env cores g).globals).withFaults = false := by
  cases hs : (SetLevel.sinks level (l.Build env cores g).globals).withFaults with
  | false => rfl
  | true =>
    rw [SetLevel_sinks_withFaults, (Build_success env l cores g loc rotate hp hz hr hw).2] at hs
    rcases hs with ⟨henc, _⟩ | ⟨ws, e, hin⟩
    · cases henc
    · have hmem : some (Core.ioCore none ws e)
          ∈ Build.sinks l (Build.newEncoder (Build.normalized env l loc)) rotate
              (tidyLoop env l.LevelToPath []).2 cores := by
        unfold Build.sinks Build.otherSinks
        simp only [List.mem_append]
        exact Or.inr (Or.inr hin)
      have hf : (Build.sinks l (Build.newEncoder (Build.normalized env l loc)) rotate
            (tidyLoop env l.LevelToPath []).2 cores).withFaults = true := by
        rw [withFaults_iff]
        refine ⟨?_, _, hmem, Or.inr ⟨ws, e, rfl⟩⟩
        intro heq
        rw [heq, List.mem_singleton] at hmem
        cases hmem
      rw [hf] at hw
      cases hw

/-- Counterexample to C10 as stated: the build of `singleRedirectExample` makes
sinks at `logs/app.log`, at `logs/debug.log` (the dedicated sink of debug, which
accepts debug) and at the console.  The composite that `SetLevel` builds at info
has a sink over the file of the dedicated sink and the console only: no sink
writes to `logs/app.log`, and no sink of it accepts debug any more. -/
theorem C10_setLevel_keeps_dedicated_counterexample :
    ∃ lg n2 u,
      (singleRedirectExample.Build sampleEnv [] Globals.initial).outcome = .ok lg
      ∧ ((singleRedirectExample.Build sampleEnv [] Globals.initial).globals.core.getD []).map
            (Option.map Core.destination)
          = [some (some (rotatedFile "logs/app.log")), some (some (rotatedFile "logs/debug.log")),
             some (some .stdout)]
      ∧ (Tee.accepting
            ((singleRedirectExample.Build sampleEnv [] Globals.initial).globals.core.getD [])
            zapcore.DebugLevel).map Core.destination
          = [some (rotatedFile "logs/debug.log"), some .stdout]
      ∧ (lg.SetLevel zapcore.InfoLevel
          (singleRedirectExample.Build sampleEnv [] Globals.initial).globals).1 = .ok n2
      ∧ n2.underlying = some u
      ∧ (lg.SetLevel zapcore.InfoLevel
          (singleRedirectExample.Build sampleEnv [] Globals.initial).globals).2.core
          = some u.core
      ∧ u.core.map (Option.map Core.destination)
          = [some (some (rotatedFile "logs/debug.log")), some (some .stdout)]
      ∧ Tee.accepting u.core zapcore.DebugLevel = [] := by
  have h := Build_success sampleEnv singleRedirectExample [] Globals.initial
    { name := "Asia/Shanghai" } RotateConfig.zero (by decide) (by decide) (Or.inl (by decide)) (by decide)
  refine ⟨_, ?n2, ?u, h.1, by decide, by decide, ?hnode, ?hunder, ?hcore, ?hdest, ?hacc⟩
  case hnode =>
    refine congrArg Prod.fst (SetLevel_eq _ _ _ (Or.inl ?_))
    rfl
  case hunder => exact rfl
  case hcore => exact congrArg Globals.core (SetLevel_globals _ _ _)
  case hdest => decide
  case hacc => rfl

/-- C10 as amended. After a build that returned a logger, `SetLevel` on any node
and at any level returns a node whose composite, also stored in the process-wide
variable, is: one file sink over the recorded file writer when one is recorded,
the supplied sinks of the build that are not nil, and one console sink unless the
console is hidden.  Every sink of it that is not a supplied one has the plain
threshold `level` and accepts exactly the levels at or above it, so no router of
a dedicated sink is part of it. -/
theorem C10_setLevel_composite (env : Env) (l : Config) (cores : Tee) (g : Globals)
    (lg n : logger) (level : zapcore.Level)
    (hok : (l.Build env cores g).outcome = .ok lg) :
    ∃ n2 u,
      (n.SetLevel level (l.Build env cores g).globals).1 = .ok n2
      ∧ n2.underlying = some u
      ∧ (n.SetLevel level (l.Build env cores g).globals).2.core = some u.core
      ∧ u.core
          = (match (l.Build env cores g).globals.writeSyncer with
              | some ws =>
                [some (Core.ioCore (l.Build env cores g).globals.encoder ws
                  (.plain (.level level)))]
              | none => [])
            ++ cores.filter (fun inputCore => inputCore.isSome)
            ++ (if l.HideConsole = true then []
                else [some (Core.ioCore (l.Build env cores g).globals.encoder .stdout
                  (.plain (.level level)))])
      ∧ ∀ c ∈ u.core, c ∈ cores
          ∨ ∃ enc ws, c = some (Core.ioCore enc ws (.plain (.level level)))
              ∧ ∀ x, (Core.ioCore enc ws (.plain (.level level))).Enabled x = true
                    ↔ level ≤ x := by
  obtain ⟨loc, rotate, hp, hz, hr, hw⟩ := Build_ok_inv env l cores g lg hok
  obtain ⟨_, hg⟩ := Build_success env l cores g loc rotate hp hz hr hw
  have hi : (l.Build env cores g).globals.inputCores = cores := by rw [hg]
  have hh : (l.Build env cores g).globals.HiddenConsole = l.HideConsole := by rw [hg]
  have hen : ∀ (enc : Option Encoder) (ws : WriteSyncer) (x : zapcore.Level),
      (Core.ioCore enc ws (.plain (.level level))).Enabled x = true ↔ level ≤ x := by
    intro enc ws x
    simp [Core.Enabled, CoreEnabler.Enabled, zapcore.LevelEnabler.Enabled]
  have hsl := SetLevel_after_Build env l cores g loc rotate level hp hz hr hw
  refine ⟨_, _, by rw [SetLevel_eq _ _ _ (Or.inr hsl)], rfl,
    by rw [SetLevel_eq _ _ _ (Or.inr hsl)], ?_, ?_⟩
  · simp only [SetLevel.sinks, hi, hh]
  · intro c hc
    simp only [SetLevel.sinks, hi, hh, List.mem_append, List.mem_filter] at hc
    rcases hc with (hc | hc) | hc
    · cases hw : (l.Build env cores g).globals.writeSyncer with
      | none => simp [hw] at hc
      | some ws =>
        simp only [hw, List.mem_singleton] at hc
        exact Or.inr ⟨_, _, hc, hen _ _⟩
    · exact Or.inl hc.1
    · by_cases hcon : l.HideConsole = true
      · simp [hcon] at hc
      · rw [if_neg hcon, List.mem_singleton] at hc
        exact Or.inr ⟨_, _, hc, hen _ _⟩

/-- Witness of C10 as amended: the build of `routingExample`, its root node and
the level info. -/
theorem C10_setLevel_composite_witness :
    ∃ lg,
      (routingExample.Build sampleEnv [] Globals.initial).outcome = .ok lg
      ∧ ∃ n2 u,
        (lg.SetLevel zapcore.InfoLevel
            (routingExample.Build sampleEnv [] Globals.initial).globals).1 = .ok n2
        ∧ n2.underlying = some u
        ∧ (lg.SetLevel zapcore.InfoLevel
            (routingExample.Build sampleEnv [] Globals.initial).globals).2.core = some u.core
        ∧ u.core
            = (match (routingExample.Build sampleEnv [] Globals.initial).globals.writeSyncer with
                | some ws =>
                  [some (Core.ioCore
                    (routingExample.Build sampleEnv [] Globals.initial).globals.encoder ws
                    (.plain (.level zapcore.InfoLevel)))]
                | none => [])
              ++ ([] : Tee).filter (fun inputCore => inputCore.isSome)
              ++ (if routingExample.HideConsole = true then []
                  else [some (Core.ioCore
                    (routingExample.Build sampleEnv [] Globals.initial).globals.encoder .stdout
                    (.plain (.level zapcore.InfoLevel)))])
        ∧ ∀ c ∈ u.core, c ∈ ([] : Tee)
            ∨ ∃ enc ws, c = some (Core.ioCore enc ws (.plain (.level zapcore.InfoLevel)))
                ∧ ∀ x, (Core.ioCore enc ws (.plain (.level zapcore.InfoLevel))).Enabled x = true
                      ↔ zapcore.InfoLevel ≤ x :=
  have h := Build_success sampleEnv routingExample [] Globals.initial
    { name := "Asia/Shanghai" } RotateConfig.zero (by decide) (by decide) (Or.inl (by decide)) (by decide)
  ⟨_, h.1,
    C10_setLevel_composite sampleEnv routingExample [] Globals.initial _ _ zapcore.InfoLevel h.1⟩

/-! ## What re-leveling reuses -/

/-- C11, the code at the failing inputs. With a base file path and debug
redirected, the generic file sink of the build writes to `logs/app.log`, but the
file-writer variable that `SetLevel` reuses holds the writer at `logs/debug.log`:
the loop over the redirect map assigns the same variable (line 210).  And a build
without any file destination leaves in the variable the writer that an earlier
build recorded, instead of none. -/
theorem C11_recorded_writer_at_failing_inputs :
    (((singleRedirectExample.Build sampleEnv [] Globals.initial).globals.core.getD []).head?.bind
        id).bind Core.destination = some (rotatedFile "logs/app.log")
    ∧ (singleRedirectExample.Build sampleEnv [] Globals.initial).globals.writeSyncer
        = some (rotatedFile "logs/debug.log")
    ∧ rotatedFile "logs/debug.log" ≠ rotatedFile "logs/app.log"
    ∧ NewConfig.FilePath = "" ∧ NewConfig.LevelToPath = []
    ∧ (baseOnlyExample.Build sampleEnv [] Globals.initial).globals.writeSyncer
        = some (rotatedFile "logs/app.log")
    ∧ (NewConfig.Build sampleEnv []
        (baseOnlyExample.Build sampleEnv [] Globals.initial).globals).globals.writeSyncer
        = some (rotatedFile "logs/app.log") := by
  refine ⟨by decide, by decide, by decide, rfl, rfl, by decide, by decide⟩

/-- C12, the code at the failing input. The root node that `Build` returns for a
service named `test` emits records that carry the field of the service, and a
node made from it with `With` carries one more field; the nodes that `SetLevel`
returns for them emit records without any field, because `SetLevel` attaches the
own field list of the node, which is empty for both. -/
theorem C12_setLevel_loses_fields_at_failing_input :
    ∃ root withA root2 withA2,
      (serviceExample.Build sampleEnv [] Globals.initial).outcome = .ok root
      ∧ root.With [{ Key := "a", Value := "x" }] = .ok withA
      ∧ (root.Info "m" []).entries.map Entry.Fields = [[{ Key := "系统", Value := "test" }]]
      ∧ (withA.Info "m" []).entries.map Entry.Fields
          = [[{ Key := "系统", Value := "test" }, { Key := "a", Value := "x" }]]
      ∧ (root.SetLevel zapcore.InfoLevel
          (serviceExample.Build sampleEnv [] Globals.initial).globals).1 = .ok root2
      ∧ (withA.SetLevel zapcore.InfoLevel
          (serviceExample.Build sampleEnv [] Globals.initial).globals).1 = .ok withA2
      ∧ (root2.Info "m" []).entries.map Entry.Fields = [[]]
      ∧ (withA2.Info "m" []).entries.map Entry.Fields = [[]] := by
  have h := Build_success sampleEnv serviceExample [] Globals.initial
    { name := "Asia/Shanghai" } RotateConfig.zero (by decide) (by decide) (Or.inr (by decide)) (by decide)
  refine ⟨_, ?withA, ?root2, ?withA2, h.1, ?h1, ?h2, ?h3, ?h4, ?h5, ?h6, ?h7⟩
  case h1 => exact rfl
  case h2 => decide
  case h3 => decide
  case h4 =>
    refine congrArg Prod.fst (SetLevel_eq _ _ _ (Or.inl ?_))
    rfl
  case h5 =>
    refine congrArg Prod.fst (SetLevel_eq _ _ _ (Or.inl ?_))
    rfl
  case h6 => decide
  case h7 => decide

/-! ## Lemmas on the de-dup set and on the node operations -/

theorem Exist_Set_mem (e : Exist) (j k : String) :
    k ∈ (e.Set j).data ↔ k = j ∨ k ∈ e.data := by
  unfold Exist.Set
  by_cases h : j ∈ e.data
  · rw [if_pos h]
    constructor
    · exact fun hk => Or.inr hk
    · rintro (hk | hk)
      · rw [hk]; exact h
      · exact hk
  · rw [if_neg h]
    simp only [List.mem_append, List.mem_singleton]
    tauto

theorem Exist_fold_mem (keys : List String) (acc : Exist) (k : String) :
    k ∈ (keys.foldl (fun result key => result.Set key) acc).data ↔ k ∈ acc.data ∨ k ∈ keys := by
  induction keys generalizing acc with
  | nil => simp
  | cons j rest ih =>
    rw [List.foldl_cons, ih, Exist_Set_mem]
    simp only [List.mem_cons]
    tauto

/-- A copy holds the keys of the original. -/
theorem Exist_Copy_mem (e : Exist) (k : String) : k ∈ e.Copy.data ↔ k ∈ e.data := by
  unfold Exist.Copy
  rw [Exist_fold_mem]
  simp [NewExist]

theorem Exist_Copy_Exist (e : Exist) (k : String) : e.Copy.Exist k = e.Exist k := by
  unfold Exist.Exist
  rw [decide_eq_decide]
  exact Exist_Copy_mem e k

theorem Exist_Set_Exist (e : Exist) (j k : String) :
    (e.Set j).Exist k = (decide (k = j) || e.Exist k) := by
  unfold Exist.Exist
  rw [← Bool.decide_or, decide_eq_decide]
  exact Exist_Set_mem e j k

theorem zapNamed_some (u : zap.Logger) (s : String) :
    zapNamed (some u) s = .ok (some (u.Named s)) := by
  unfold zapNamed zap.Logger.Named
  by_cases h : s = ""
  · simp [h]
  · simp [h]

/-- The constructor without naming and without a skip: nothing is dereferenced. -/
theorem NewLogger_plain (underlying : Option zap.Logger) (name : String)
    (m : Option (GoMap zapcore.Level String)) (dk : Option Exist) (fields : List zap.Field) :
    NewLogger underlying name (-1) false false m dk fields
      = .ok { underlying := underlying, levelToPath := m,
              duplicateKeys := some (ensureDuplicateKeys dk), name := name, fields := fields,
              skip := 0 } := rfl

/-- The constructor as `Derive` calls it, on a logger that is not nil. -/
theorem NewLogger_last (u : zap.Logger) (name : String)
    (m : Option (GoMap zapcore.Level String)) (dk : Option Exist) (fields : List zap.Field) :
    NewLogger (some u) name (-1) true true m dk fields
      = .ok { underlying := some (u.Named (lastNameField name)), levelToPath := m,
              duplicateKeys := some (ensureDuplicateKeys dk), name := name, fields := fields,
              skip := 0 } := by
  unfold NewLogger
  simp only [if_true, zapNamed_some]
  rfl

/-- The name path that `Derive` composes. -/
def derivedName (name s : String) : String :=
  if name = "" then s else name ++ "." ++ s

theorem intercalate_names (name s : String) :
    ".".intercalate (if name = "" then [s] else [name, s]) = derivedName name s := by
  unfold derivedName
  by_cases h : name = ""
  · simp [h, String.intercalate, String.intercalate.go]
  · simp [h, String.intercalate, String.intercalate.go]

theorem Derive_eq (l : logger) (s : String) (u : zap.Logger) (d : Exist)
    (hu : l.underlying = some u) (hd : l.duplicateKeys = some d) :
    l.Derive s
      = .ok { underlying := some (u.Named (lastNameField (derivedName l.name s))),
              levelToPath := l.levelToPath, duplicateKeys := some d.Copy,
              name := derivedName l.name s, fields := l.fields, skip := 0 } := by
  unfold logger.Derive
  simp only [hu, hd, intercalate_names, NewLogger_last]
  rfl

theorem With_eq (l : logger) (fields : List zap.Field) (u : zap.Logger) (d : Exist)
    (hu : l.underlying = some u) (hd : l.duplicateKeys = some d)
    (hw : l.fields ++ fields = [] ∨ u.core.withFaults = false) :
    l.With fields
      = .ok { underlying := some (u.With (l.fields ++ fields)), levelToPath := l.levelToPath,
              duplicateKeys := some d.Copy, name := l.name, fields := [], skip := 0 } := by
  unfold logger.With
  simp only [hu, hd, zapWith_ok u _ hw, NewLogger_plain]
  rfl

/-- With a field to attach and a sink that cannot take fields, `With` panics. -/
theorem With_fault (l : logger) (fields : List zap.Field) (u : zap.Logger)
    (hu : l.underlying = some u) (hf : l.fields ++ fields ≠ [])
    (hw : u.core.withFaults = true) :
    l.With fields = .error .nilPointer := by
  unfold logger.With
  simp only [hu, zapWith_fault u _ hf hw]

theorem WithWhenNotExist_present (l : logger) (key : String) (field : zap.Field) (d : Exist)
    (hd : l.duplicateKeys = some d) (hk : d.Exist key = true) :
    l.WithWhenNotExist key field = .ok l := by
  unfold logger.WithWhenNotExist
  simp only [hd, hk, if_true]

theorem WithWhenNotExist_absent (l : logger) (key : String) (field : zap.Field)
    (u : zap.Logger) (d : Exist)
    (hu : l.underlying = some u) (hd : l.duplicateKeys = some d) (hk : d.Exist key = false)
    (hw : u.core.withFaults = false) :
    l.WithWhenNotExist key field
      = .ok { underlying := some (u.With (l.fields ++ [field])), levelToPath := l.levelToPath,
              duplicateKeys := some (d.Copy.Set key), name := l.name, fields := [],
              skip := 0 } := by
  unfold logger.WithWhenNotExist
  simp only [hu, hd, hk, zapWith_ok u _ (Or.inr hw), NewLogger_plain]
  rfl

/-- With a new key and a sink that cannot take fields, `WithWhenNotExist` panics. -/
theorem WithWhenNotExist_fault (l : logger) (key : String) (field : zap.Field)
    (u : zap.Logger) (d : Exist)
    (hu : l.underlying = some u) (hd : l.duplicateKeys = some d) (hk : d.Exist key = false)
    (hw : u.core.withFaults = true) :
    l.WithWhenNotExist key field = .error .nilPointer := by
  unfold logger.WithWhenNotExist
  simp only [hu, hd, hk, zapWith_fault u (l.fields ++ [field]) (by simp) hw]
  rfl

theorem AddCallerSkip_eq (l : logger) (skip : Int) (u : zap.Logger)
    (hu : l.underlying = some u) :
    l.AddCallerSkip skip
      = .ok { underlying :=
                some (if 0 ≤ skip then { u with callerSkip := wrapInt (u.callerSkip + skip) }
                      else u),
              levelToPath := l.levelToPath,
              duplicateKeys := some (ensureDuplicateKeys l.duplicateKeys), name := l.name,
              fields := [], skip := if 0 ≤ skip then skip else 0 } := by
  unfold logger.AddCallerSkip NewLogger
  by_cases h : 0 ≤ skip
  · simp only [hu, h, if_true, zapAddCallerSkip]
    rfl
  · simp only [hu, h, if_false]
    rfl

theorem splitDot_ne_nil (cs : List Char) : splitDot cs ≠ [] := by
  cases cs with
  | nil => simp [splitDot]
  | cons c rest =>
    unfold splitDot
    by_cases h : c = '.'
    · simp [h]
    · rw [if_neg h]
      cases splitDot rest <;> simp

theorem getLastD_of_ne_nil {α : Type} (l : List α) (a b : α) (h : l ≠ []) :
    l.getLastD a = l.getLastD b := by
  cases l with
  | nil => exact absurd rfl h
  | cons x rest => rfl

theorem splitDot_append_dot (xs ys : List Char) :
    ∃ seg rest, splitDot (xs ++ '.' :: ys) = seg :: rest ∧ rest ≠ []
      ∧ rest.getLastD [] = (splitDot ys).getLastD [] := by
  induction xs with
  | nil =>
    refine ⟨[], splitDot ys, ?_, splitDot_ne_nil ys, rfl⟩
    simp [splitDot]
  | cons c rest ih =>
    obtain ⟨seg, tl, h1, h2, h3⟩ := ih
    by_cases hc : c = '.'
    · refine ⟨[], seg :: tl, ?_, by simp, ?_⟩
      · simp [splitDot, hc, h1]
      · rw [List.getLastD_cons, getLastD_of_ne_nil tl seg [] h2, h3]
    · refine ⟨c :: seg, tl, ?_, h2, h3⟩
      rw [List.cons_append]
      unfold splitDot
      rw [if_neg hc, h1]

/-- The last segment of a composed name path is the last segment of the name
that was added. -/
theorem lastNameField_derivedName (name s : String) :
    lastNameField (derivedName name s) = lastNameField s := by
  unfold derivedName
  by_cases h : name = ""
  · rw [if_pos h]
  · rw [if_neg h]
    unfold lastNameField
    have hd : (name ++ "." ++ s).data = name.data ++ '.' :: s.data := by
      simp [String.data_append]
    obtain ⟨seg, tl, h1, h2, h3⟩ := splitDot_append_dot name.data s.data
    rw [hd, h1, List.getLastD_cons, getLastD_of_ne_nil tl seg [] h2, h3]

theorem log_some (l : logger) (u : zap.Logger) (hu : l.underlying = some u)
    (lvl : zapcore.Level) (msg : String) (fields : List zap.Field) :
    (l.log lvl msg fields).entries
      = [{ Level := lvl, LoggerName := u.name, Message := msg, Fields := u.context ++ fields }] := by
  unfold logger.log
  rw [hu]
  rfl

theorem Named_name (u : zap.Logger) (seg : String) :
    (u.Named seg).name
      = if seg = "" then u.name else if u.name = "" then seg else u.name ++ "." ++ seg := by
  unfold zap.Logger.Named
  by_cases h1 : seg = ""
  · simp [h1]
  · by_cases h2 : u.name = ""
    · simp [h1, h2]
    · simp [h1, h2]

/-! ## Derivation -/

/-- C14. For every node with an underlying logger and a de-dup set and every name
`s`, `Derive` returns a node whose name path is `s` when the path of the node is
empty and the path, a dot and `s` otherwise; the root of a build derived with
`user` and then `create` has the path `user.create`.  At the failing input, a
node that `NewLogger` makes without an underlying logger, `Derive` does not
return: it panics on the nil logger. -/
theorem C14_derive_name_path :
    (∀ (n : logger) (s : String) (u : zap.Logger) (d : Exist),
      n.underlying = some u → n.duplicateKeys = some d →
      ∃ r, n.Derive s = .ok r
        ∧ r.name = (if n.name = "" then s else n.name ++ "." ++ s))
    ∧ (∃ root user create,
        (serviceExample.Build sampleEnv [] Globals.initial).outcome = .ok root
        ∧ root.Derive "user" = .ok user ∧ user.Derive "create" = .ok create
        ∧ user.name = "user" ∧ create.name = "user.create")
    ∧ (∃ n, NewLogger none "" (-1) false false none none [] = .ok n
        ∧ n.underlying = none ∧ n.name = ""
        ∧ n.Derive "user" = .error .nilPointer) := by
  refine ⟨?_, ?_, ?_⟩
  · intro n s u d hu hd
    exact ⟨_, Derive_eq n s u d hu hd, rfl⟩
  · have h := Build_success sampleEnv serviceExample [] Globals.initial
      { name := "Asia/Shanghai" } RotateConfig.zero (by decide) (by decide) (Or.inr (by decide)) (by decide)
    refine ⟨_, ?user, ?create, h.1, ?h1, ?h2, ?h3, ?h4⟩
    case h1 => exact rfl
    case h2 => exact rfl
    case h3 => decide
    case h4 => decide
  · exact ⟨_, rfl, rfl, rfl, rfl⟩

/-- Counterexample to C15 as stated: the records of the root of a build derived
with `user` and then `create` display the logger name `user.create`, not the
last segment `create` of the name path. -/
theorem C15_derive_last_segment_counterexample :
    ∃ root user create,
      (serviceExample.Build sampleEnv [] Globals.initial).outcome = .ok root
      ∧ root.Derive "user" = .ok user ∧ user.Derive "create" = .ok create
      ∧ create.name = "user.create"
      ∧ lastNameField create.name = "create"
      ∧ (create.Info "m" []).entries.map Entry.LoggerName = ["user.create"]
      ∧ "user.create" ≠ "create" := by
  have h := Build_success sampleEnv serviceExample [] Globals.initial
    { name := "Asia/Shanghai" } RotateConfig.zero (by decide) (by decide) (Or.inr (by decide)) (by decide)
  refine ⟨_, ?user, ?create, h.1, ?h1, ?h2, ?h3, ?h4, ?h5, ?h6⟩
  case h1 => exact rfl
  case h2 => exact rfl
  case h3 => decide
  case h4 => decide
  case h5 => decide
  case h6 => decide

/-- C15 as amended. For every node with an underlying logger and a de-dup set and
every name `s`, the last segment of the name path of the derived node is the last
segment of `s`, and the logger name in the records of the derived node is the
logger name in the records of the node extended by that segment after a dot:
the name of the node alone when the segment is empty, the segment alone when the
node displays no name. -/
theorem C15_derive_displayed_name (n : logger) (s : String) (u : zap.Logger) (d : Exist)
    (lvl : zapcore.Level) (msg : String) (fields : List zap.Field)
    (hu : n.underlying = some u) (hd : n.duplicateKeys = some d) :
    ∃ r, n.Derive s = .ok r
      ∧ lastNameField r.name = lastNameField s
      ∧ (n.log lvl msg fields).entries.map Entry.LoggerName = [u.name]
      ∧ (r.log lvl msg fields).entries.map Entry.LoggerName
          = [if lastNameField s = "" then u.name
             else if u.name = "" then lastNameField s
             else u.name ++ "." ++ lastNameField s] := by
  refine ⟨_, Derive_eq n s u d hu hd, lastNameField_derivedName n.name s, ?_, ?_⟩
  · rw [log_some n u hu]
    rfl
  · rw [log_some _ _ rfl]
    simp only [List.map_cons, List.map_nil, Named_name, lastNameField_derivedName]

/-- Witness of C15 as amended: a node named `user` derived with `create`. -/
theorem C15_derive_displayed_name_witness :
    ({ underlying := some { zap.New [] true with name := "user" }, levelToPath := none,
       duplicateKeys := some (NewExist 10), name := "user", fields := [], skip := 0 }
        : logger).underlying = some { zap.New [] true with name := "user" }
    ∧ ({ underlying := some { zap.New [] true with name := "user" }, levelToPath := none,
         duplicateKeys := some (NewExist 10), name := "user", fields := [], skip := 0 }
          : logger).duplicateKeys = some (NewExist 10)
    ∧ ∃ r, ({ underlying := some { zap.New [] true with name := "user" }, levelToPath := none,
              duplicateKeys := some (NewExist 10), name := "user", fields := [], skip := 0 }
              : logger).Derive "create" = .ok r
      ∧ lastNameField r.name = lastNameField "create"
      ∧ (({ underlying := some { zap.New [] true with name := "user" }, levelToPath := none,
            duplicateKeys := some (NewExist 10), name := "user", fields := [], skip := 0 }
            : logger).log zapcore.InfoLevel "m" []).entries.map Entry.LoggerName
          = [({ zap.New [] true with name := "user" } : zap.Logger).name]
      ∧ (r.log zapcore.InfoLevel "m" []).entries.map Entry.LoggerName
          = [if lastNameField "create" = ""
              then ({ zap.New [] true with name := "user" } : zap.Logger).name
             else if ({ zap.New [] true with name := "user" } : zap.Logger).name = ""
              then lastNameField "create"
             else ({ zap.New [] true with name := "user" } : zap.Logger).name ++ "."
              ++ lastNameField "create"] :=
  ⟨rfl, rfl,
    C15_derive_displayed_name _ "create" { zap.New [] true with name := "user" } (NewExist 10)
      zapcore.InfoLevel "m" [] rfl rfl⟩

/-! ## Field attachment -/

/-- C17. `WithWhenNotExist` is a no-op on a present key: for every node with a
de-dup set that holds the key, and every field, the method returns the node
itself, so name path, own field list, underlying logger (composite, context,
caller skip), recorded skip and de-dup set are those of the node, and the
records of the result carry what the records of the node carry. -/
theorem C17_withWhenNotExist_present_noop (n : logger) (k : String) (f : zap.Field) (d : Exist)
    (hd : n.duplicateKeys = some d) (hk : d.Exist k = true) :
    ∃ r, n.WithWhenNotExist k f = .ok r
      ∧ r.name = n.name ∧ r.fields = n.fields ∧ r.underlying = n.underlying
      ∧ r.skip = n.skip ∧ r.duplicateKeys = n.duplicateKeys
      ∧ ∀ lvl msg fields, r.log lvl msg fields = n.log lvl msg fields :=
  ⟨n, WithWhenNotExist_present n k f d hd hk, rfl, rfl, rfl, rfl, rfl, fun _ _ _ => rfl⟩

/-- Witness of C17: the node of `TestLogger_WithWhenNotExist` whose set holds
`key`. -/
theorem C17_withWhenNotExist_present_noop_witness :
    ∃ n, NewLogger (some (zap.New [] false)) "test" 0 false false none
          (some ((NewExist 10).Set "key")) [] = .ok n
      ∧ n.duplicateKeys = some ((NewExist 10).Set "key")
      ∧ ((NewExist 10).Set "key").Exist "key" = true
      ∧ ∃ r, n.WithWhenNotExist "key" { Key := "key", Value := "value" } = .ok r
        ∧ r.name = n.name ∧ r.fields = n.fields ∧ r.underlying = n.underlying
        ∧ r.skip = n.skip ∧ r.duplicateKeys = n.duplicateKeys
        ∧ ∀ lvl msg fields, r.log lvl msg fields = n.log lvl msg fields :=
  ⟨_, rfl, rfl, by decide,
    C17_withWhenNotExist_present_noop _ "key" { Key := "key", Value := "value" }
      ((NewExist 10).Set "key") rfl (by decide)⟩

/-- Counterexample to C19 as stated: a node made by `NewLogger` with one own
field, as in `TestNewLoggerFunc`, emits records without fields; the records of
the node that `With` returns for one more field carry the own field and then the
new one, not the new one alone.  And the node that `SetLevel` returns before any
build has a console sink without encoder: `With` of one field on it panics. -/
theorem C19_with_appends_counterexample :
    (∃ n r, NewLogger (some (zap.New [] false)) "test" 0 true false none none [fieldA] = .ok n
      ∧ n.With [fieldB] = .ok r
      ∧ (n.Info "m" []).entries.map Entry.Fields = [[]]
      ∧ (r.Info "m" []).entries.map Entry.Fields = [[fieldA, fieldB]]
      ∧ [fieldA, fieldB] ≠ [] ++ [fieldB])
    ∧ ∃ m um, (observedNode.SetLevel zapcore.InfoLevel Globals.initial).1 = .ok m
      ∧ m.underlying = some um
      ∧ um.core = [some (Core.ioCore none .stdout (.plain (.level zapcore.InfoLevel)))]
      ∧ m.With [fieldB] = .error .nilPointer := by
  refine ⟨⟨?n, ?r, ?h1, ?h2, ?h3, ?h4, ?h5⟩, ?m, ?um, ?h6, ?h7, ?h8, ?h9⟩
  case h1 => exact rfl
  case h2 => exact rfl
  case h3 => decide
  case h4 => decide
  case h5 => decide
  case h6 => exact rfl
  case h7 => exact rfl
  case h8 => exact rfl
  case h9 => exact rfl

/-- C19 as amended. For every node with an underlying logger and a de-dup set and
every field list: when there is no field to attach or every sink of the
composite can take fields, `With` returns a node whose records carry the fields
of the records of the node, then the own field list of the node, then the given
fields, then the fields of the call; the returned node has the name path, the
displayed name, the composite and the caller skip of the underlying logger of
the node, an empty own field list and the recorded skip 0.  When there is a field
to attach and a sink of the composite cannot take fields, `With` panics. -/
theorem C19_with_appends_own_and_given (n : logger) (fs : List zap.Field) (u : zap.Logger)
    (d : Exist) (hu : n.underlying = some u) (hd : n.duplicateKeys = some d) :
    (n.fields ++ fs = [] ∨ u.core.withFaults = false →
      ∃ r ru, n.With fs = .ok r ∧ r.underlying = some ru
        ∧ (∀ lvl msg cf, (n.log lvl msg cf).entries.map Entry.Fields = [u.context ++ cf])
        ∧ (∀ lvl msg cf,
            (r.log lvl msg cf).entries.map Entry.Fields = [u.context ++ n.fields ++ fs ++ cf])
        ∧ r.name = n.name ∧ ru.name = u.name ∧ ru.core = u.core
        ∧ ru.callerSkip = u.callerSkip
        ∧ r.fields = [] ∧ r.skip = 0)
    ∧ (n.fields ++ fs ≠ [] → u.core.withFaults = true → n.With fs = .error .nilPointer) := by
  refine ⟨fun hw => ?_, fun hf hw => With_fault n fs u hu hf hw⟩
  refine ⟨_, _, With_eq n fs u d hu hd hw, rfl, ?_, ?_, rfl, rfl, rfl, rfl, rfl, rfl⟩
  · intro lvl msg cf
    rw [log_some n u hu]
    rfl
  · intro lvl msg cf
    rw [log_some _ _ rfl]
    simp [zap.Logger.log, zap.Logger.With, List.append_assoc]

/-- Witness of C19 as amended: the root of the build of `serviceExample`. -/
theorem C19_with_appends_own_and_given_witness :
    ∃ root u d, (serviceExample.Build sampleEnv [] Globals.initial).outcome = .ok root
      ∧ root.underlying = some u ∧ root.duplicateKeys = some d
      ∧ u.core.withFaults = false
      ∧ ∃ r ru, root.With [fieldA] = .ok r ∧ r.underlying = some ru
        ∧ (∀ lvl msg cf, (root.log lvl msg cf).entries.map Entry.Fields = [u.context ++ cf])
        ∧ (∀ lvl msg cf,
            (r.log lvl msg cf).entries.map Entry.Fields
              = [u.context ++ root.fields ++ [fieldA] ++ cf])
        ∧ r.name = root.name ∧ ru.name = u.name ∧ ru.core = u.core
        ∧ ru.callerSkip = u.callerSkip
        ∧ r.fields = [] ∧ r.skip = 0 :=
  have h := Build_success sampleEnv serviceExample [] Globals.initial
    { name := "Asia/Shanghai" } RotateConfig.zero (by decide) (by decide) (Or.inr (by decide)) (by decide)
  ⟨_, _, _, h.1, rfl, rfl, by decide,
    (C19_with_appends_own_and_given _ [fieldA] _ _ rfl rfl).1 (Or.inr (by decide))⟩

/-! ## Logging without an underlying logger -/

/-- C20. Logging through a node without an underlying logger is a silent no-op:
for every such node, every message and every field list, `Debug`, `Info`, `Warn`,
`Error` and `Fatal` hand no entry to any composite and return. -/
theorem C20_sinkless_logging_noop (n : logger) (msg : String) (fields : List zap.Field)
    (h : n.underlying = none) :
    n.Debug msg fields = { entries := [], ending := .returns }
    ∧ n.Info msg fields = { entries := [], ending := .returns }
    ∧ n.Warn msg fields = { entries := [], ending := .returns }
    ∧ n.Error msg fields = { entries := [], ending := .returns }
    ∧ n.Fatal msg fields = { entries := [], ending := .returns } := by
  unfold logger.Debug logger.Info logger.Warn logger.Error logger.Fatal logger.log
  simp only [h, and_self]

/-- Witness of C20: the node `&logger{underlying: nil}` of the tests. -/
theorem C20_sinkless_logging_noop_witness :
    sinklessNode.underlying = none
    ∧ sinklessNode.Debug "test message" [] = { entries := [], ending := .returns }
    ∧ sinklessNode.Info "test message" [] = { entries := [], ending := .returns }
    ∧ sinklessNode.Warn "test message" [] = { entries := [], ending := .returns }
    ∧ sinklessNode.Error "test message" [] = { entries := [], ending := .returns }
    ∧ sinklessNode.Fatal "test message" [] = { entries := [], ending := .returns } :=
  ⟨rfl, C20_sinkless_logging_noop sinklessNode "test message" [] rfl⟩

/-! ## The de-dup set along branches -/

/-- Counterexample to C16 as stated: a node with the own field `fieldA`, whose
set lacks `k`. `WithWhenNotExist` with `k` and that field on one derived branch
marks `k` there; on the sibling branch the same call is not suppressed, but it
attaches the field twice: once from the own field list and once as given. -/
theorem C16_sibling_attaches_once_counterexample :
    ∃ p pa pb wa wb,
      NewLogger (some (zap.New [] false)) "p" 0 true false none none [fieldA] = .ok p
      ∧ p.Derive "a" = .ok pa ∧ p.Derive "b" = .ok pb
      ∧ pa.WithWhenNotExist "k" fieldA = .ok wa
      ∧ pb.WithWhenNotExist "k" fieldA = .ok wb
      ∧ (pb.Info "m" []).entries.map Entry.Fields = [[]]
      ∧ (wb.Info "m" []).entries.map Entry.Fields = [[fieldA, fieldA]]
      ∧ List.count fieldA [fieldA, fieldA] = 2 := by
  refine ⟨?p, ?pa, ?pb, ?wa, ?wb, ?h1, ?h2, ?h3, ?h4, ?h5, ?h6, ?h7, ?h8⟩
  case h1 => exact rfl
  case h2 => exact rfl
  case h3 => exact rfl
  case h4 => exact rfl
  case h5 => exact rfl
  case h6 => decide
  case h7 => decide
  case h8 => decide

theorem Named_context (u : zap.Logger) (seg : String) : (u.Named seg).context = u.context := by
  unfold zap.Logger.Named
  split_ifs <;> rfl

theorem Named_core (u : zap.Logger) (seg : String) : (u.Named seg).core = u.core := by
  unfold zap.Logger.Named
  split_ifs <;> rfl

/-- Along a chain of `Derive`, `With` and `AddCallerSkip` steps from a node with
an underlying logger whose sinks can take fields, a marked key and no own
fields: no step panics, the key stays marked, the own field list stays empty,
and the context grows by the fields of the `With` steps. -/
theorem runChain_marked (k : String) (steps : List ChainStep) (l : logger) (u : zap.Logger)
    (d : Exist) (hu : l.underlying = some u) (hd : l.duplicateKeys = some d)
    (hk : d.Exist k = true) (hf : l.fields = []) (hw : u.core.withFaults = false) :
    ∃ r ur dr, runChain steps l = .ok r ∧ r.underlying = some ur ∧ r.duplicateKeys = some dr
      ∧ dr.Exist k = true ∧ r.fields = [] ∧ ur.context = u.context ++ chainFields steps := by
  induction steps generalizing l u d with
  | nil => exact ⟨l, u, d, rfl, hu, hd, hk, hf, by simp [chainFields]⟩
  | cons st rest ih =>
    have hcopy : d.Copy.Exist k = true := by rw [Exist_Copy_Exist]; exact hk
    cases st with
    | derive s =>
      obtain ⟨r, ur, dr, h1, h2, h3, h4, h5, h6⟩ :=
        ih { underlying := some (u.Named (lastNameField (derivedName l.name s))),
             levelToPath := l.levelToPath, duplicateKeys := some d.Copy,
             name := derivedName l.name s, fields := l.fields, skip := 0 }
          (u.Named (lastNameField (derivedName l.name s))) d.Copy rfl rfl hcopy hf
          (by rw [Named_core]; exact hw)
      refine ⟨r, ur, dr, ?_, h2, h3, h4, h5, ?_⟩
      · simp only [runChain, ChainStep.run, Derive_eq l s u d hu hd]
        exact h1
      · rw [h6, Named_context]
        rfl
    | withFields fs =>
      obtain ⟨r, ur, dr, h1, h2, h3, h4, h5, h6⟩ :=
        ih { underlying := some (u.With (l.fields ++ fs)), levelToPath := l.levelToPath,
             duplicateKeys := some d.Copy, name := l.name, fields := [], skip := 0 }
          (u.With (l.fields ++ fs)) d.Copy rfl rfl hcopy rfl hw
      refine ⟨r, ur, dr, ?_, h2, h3, h4, h5, ?_⟩
      · simp only [runChain, ChainStep.run, With_eq l fs u d hu hd (Or.inr hw)]
        exact h1
      · rw [h6, hf]
        simp [zap.Logger.With, chainFields, List.append_assoc]
    | addCallerSkip skip =>
      obtain ⟨r, ur, dr, h1, h2, h3, h4, h5, h6⟩ :=
        ih { underlying :=
               some (if 0 ≤ skip then { u with callerSkip := wrapInt (u.callerSkip + skip) }
                     else u),
             levelToPath := l.levelToPath,
             duplicateKeys := some (ensureDuplicateKeys l.duplicateKeys), name := l.name,
             fields := [], skip := if 0 ≤ skip then skip else 0 }
          (if 0 ≤ skip then { u with callerSkip := wrapInt (u.callerSkip + skip) } else u)
          (ensureDuplicateKeys l.duplicateKeys) rfl rfl
          (by rw [hd]; exact hk) rfl
          (by split_ifs
              · exact hw
              · exact hw)
      refine ⟨r, ur, dr, ?_, h2, h3, h4, h5, ?_⟩
      · simp only [runChain, ChainStep.run, AddCallerSkip_eq l skip u hu]
        exact h1
      · rw [h6]
        split_ifs <;> rfl

/-- Counterexample to C18 as stated: on the root of a build, `WithWhenNotExist`
with `k` and `fieldA`, then a `With` step that attaches `fieldA`; a further
`WithWhenNotExist` with `k` attaches nothing, but the records of the descendant
carry `fieldA` twice.  And the node that `SetLevel` returns before any build has
a console sink without encoder: `WithWhenNotExist` with a new key on it panics,
so the field is attached not even once. -/
theorem C18_attached_exactly_once_counterexample :
    (∃ root w desc again,
      (serviceExample.Build sampleEnv [] Globals.initial).outcome = .ok root
      ∧ root.WithWhenNotExist "k" fieldA = .ok w
      ∧ runChain [.withFields [fieldA]] w = .ok desc
      ∧ desc.WithWhenNotExist "k" fieldB = .ok again
      ∧ (again.Info "m" []).entries.map Entry.Fields
          = [[{ Key := "系统", Value := "test" }, fieldA, fieldA]]
      ∧ List.count fieldA [{ Key := "系统", Value := "test" }, fieldA, fieldA] = 2)
    ∧ ∃ m um dm, (observedNode.SetLevel zapcore.InfoLevel Globals.initial).1 = .ok m
      ∧ m.underlying = some um
      ∧ um.core = [some (Core.ioCore none .stdout (.plain (.level zapcore.InfoLevel)))]
      ∧ m.duplicateKeys = some dm ∧ dm.Exist "k" = false
      ∧ m.WithWhenNotExist "k" fieldA = .error .nilPointer := by
  have h := Build_success sampleEnv serviceExample [] Globals.initial
    { name := "Asia/Shanghai" } RotateConfig.zero (by decide) (by decide) (Or.inr (by decide)) (by decide)
  refine ⟨⟨_, ?w, ?desc, ?again, h.1, ?h1, ?h2, ?h3, ?h4, ?h5⟩,
    ?m, ?um, ?dm, ?h6, ?h7, ?h8, ?h9, ?h10, ?h11⟩
  case h1 => exact rfl
  case h2 => exact rfl
  case h3 => exact rfl
  case h4 => decide
  case h5 => decide
  case h6 => exact rfl
  case h7 => exact rfl
  case h8 => exact rfl
  case h9 => exact rfl
  case h10 => decide
  case h11 => exact rfl

/-- C18 as amended. For every node with an underlying logger whose de-dup set
lacks `k`: when every sink of the composite can take fields, then for every
chain of `Derive`, `With` and `AddCallerSkip` steps applied to the node that
`WithWhenNotExist` with `k` and `f` returns, no step panics, and a further
`WithWhenNotExist` with `k` on the descendant returns the descendant itself,
attaching nothing.  The records of the descendant carry the fields of the
records of the node, then its own field list, then `f`, then the fields of the
`With` steps: `f` exactly once when none of the others holds it.  When a sink of
the composite cannot take fields, the first `WithWhenNotExist` panics. -/
theorem C18_withWhenNotExist_once_along_branch (n : logger) (k : String) (f g : zap.Field)
    (steps : List ChainStep) (u : zap.Logger) (d : Exist)
    (hu : n.underlying = some u) (hd : n.duplicateKeys = some d) (hk : d.Exist k = false) :
    (u.core.withFaults = false →
      ∃ w desc,
        n.WithWhenNotExist k f = .ok w
        ∧ runChain steps w = .ok desc
        ∧ desc.WithWhenNotExist k g = .ok desc
        ∧ (∀ lvl msg cf,
            (desc.log lvl msg cf).entries.map Entry.Fields
              = [u.context ++ n.fields ++ [f] ++ chainFields steps ++ cf])
        ∧ (f ∉ u.context → f ∉ n.fields → f ∉ chainFields steps →
            (u.context ++ n.fields ++ [f] ++ chainFields steps).count f = 1))
    ∧ (u.core.withFaults = true → n.WithWhenNotExist k f = .error .nilPointer) := by
  refine ⟨fun hw => ?_, fun hw => WithWhenNotExist_fault n k f u d hu hd hk hw⟩
  have hset : (d.Copy.Set k).Exist k = true := by
    rw [Exist_Set_Exist]
    simp
  obtain ⟨desc, ur, dr, h1, h2, h3, h4, _, h6⟩ :=
    runChain_marked k steps
      { underlying := some (u.With (n.fields ++ [f])), levelToPath := n.levelToPath,
        duplicateKeys := some (d.Copy.Set k), name := n.name, fields := [], skip := 0 }
      (u.With (n.fields ++ [f])) (d.Copy.Set k) rfl rfl hset rfl hw
  refine ⟨_, desc, WithWhenNotExist_absent n k f u d hu hd hk hw, h1,
    WithWhenNotExist_present desc k g dr h3 h4, ?_, ?_⟩
  · intro lvl msg cf
    rw [log_some desc ur h2, h6]
    simp [zap.Logger.With, List.append_assoc]
  · intro h1 h2 h3
    simp [List.count_append, List.count_eq_zero_of_not_mem h1,
      List.count_eq_zero_of_not_mem h2, List.count_eq_zero_of_not_mem h3]

/-- Witness of C18 as amended: the root of the build of `serviceExample` and a
chain of one step of each kind. -/
theorem C18_withWhenNotExist_once_along_branch_witness :
    ∃ n u d, (serviceExample.Build sampleEnv [] Globals.initial).outcome = .ok n
      ∧ n.underlying = some u ∧ n.duplicateKeys = some d ∧ d.Exist "k" = false
      ∧ u.core.withFaults = false
      ∧ ∃ w desc,
        n.WithWhenNotExist "k" fieldA = .ok w
        ∧ runChain [.derive "user", .withFields [fieldB], .addCallerSkip 1] w = .ok desc
        ∧ desc.WithWhenNotExist "k" fieldB = .ok desc
        ∧ (∀ lvl msg cf,
            (desc.log lvl msg cf).entries.map Entry.Fields
              = [u.context ++ n.fields ++ [fieldA]
                  ++ chainFields [.derive "user", .withFields [fieldB], .addCallerSkip 1] ++ cf])
        ∧ (fieldA ∉ u.context → fieldA ∉ n.fields →
            fieldA ∉ chainFields [.derive "user", .withFields [fieldB], .addCallerSkip 1] →
            (u.context ++ n.fields ++ [fieldA]
              ++ chainFields [.derive "user", .withFields [fieldB], .addCallerSkip 1]).count fieldA
              = 1) :=
  have h := Build_success sampleEnv serviceExample [] Globals.initial
    { name := "Asia/Shanghai" } RotateConfig.zero (by decide) (by decide) (Or.inr (by decide)) (by decide)
  ⟨_, _, _, h.1, rfl, rfl, by decide, by decide,
    (C18_withWhenNotExist_once_along_branch _ "k" fieldA fieldB
      [.derive "user", .withFields [fieldB], .addCallerSkip 1] _ _ rfl rfl (by decide)).1
      (by decide)⟩

/-! ## Snapshot semantics of re-leveling -/

/-- Every sink that `SetLevel` hands to `zapcore.NewTee` is a recorded injected
sink or has the plain threshold `level`. -/
theorem SetLevel_sinks_mem (level : zapcore.Level) (g : Globals) (c : Option Core)
    (hc : c ∈ SetLevel.sinks level g) :
    c ∈ g.inputCores
      ∨ ∃ enc ws, c = some (Core.ioCore enc ws (.plain (.level level)))
          ∧ ∀ x, (Core.ioCore enc ws (.plain (.level level))).Enabled x = true ↔ level ≤ x := by
  have hen : ∀ (enc : Option Encoder) (ws : WriteSyncer) (x : zapcore.Level),
      (Core.ioCore enc ws (.plain (.level level))).Enabled x = true ↔ level ≤ x := by
    intro enc ws x
    simp [Core.Enabled, CoreEnabler.Enabled, zapcore.LevelEnabler.Enabled]
  simp only [SetLevel.sinks, List.mem_append, List.mem_filter] at hc
  rcases hc with (hc | hc) | hc
  · cases hw : g.writeSyncer with
    | none => simp [hw] at hc
    | some ws =>
      simp only [hw, List.mem_singleton] at hc
      exact Or.inr ⟨_, _, hc, hen _ _⟩
  · exact Or.inl hc.1
  · by_cases hcon : g.HiddenConsole = true
    · simp [hcon] at hc
    · rw [if_neg hcon, List.mem_singleton] at hc
      exact Or.inr ⟨_, _, hc, hen _ _⟩

/-! ## The panic operation -/

/-- Counterexample to C21 as stated: on the node `&logger{underlying: nil}` of the
tests, `Panic` hands no entry to any composite and returns; it does not panic. -/
theorem C21_panic_sinkless_returns_counterexample :
    sinklessNode.underlying = none
    ∧ sinklessNode.Panic "test message" [] = { entries := [], ending := .returns }
    ∧ (sinklessNode.Panic "test message" []).ending ≠ .panics :=
  ⟨rfl, rfl, by decide⟩

/-- C21 (amended). `Panic` panics exactly when the node has an underlying logger.
For every node, message and field list: on a node with an underlying logger one
entry of level panic, with the context of the logger followed by the fields of
the call, is handed to the composite and the call panics; on a node without one
nothing is handed on and the call returns, as for the five other operations. -/
theorem C21_panic_raises_with_sink (n : logger) (msg : String) (fields : List zap.Field) :
    ((n.Panic msg fields).ending = .panics ↔ n.underlying.isSome = true)
    ∧ (∀ u, n.underlying = some u →
        n.Panic msg fields
          = { entries := [{ Level := zapcore.PanicLevel, LoggerName := u.name, Message := msg,
                            Fields := u.context ++ fields }],
              ending := .panics })
    ∧ (n.underlying = none → n.Panic msg fields = { entries := [], ending := .returns }) := by
  unfold logger.Panic logger.log
  cases hu : n.underlying with
  | none =>
    refine ⟨?_, ?_, ?_⟩
    · simp
    · intro u h
      cases h
    · intro _
      rfl
  | some u =>
    have hend : (u.log zapcore.PanicLevel msg fields).ending = .panics := by
      unfold zap.Logger.log
      split_ifs <;> first | rfl | contradiction
    refine ⟨?_, ?_, ?_⟩
    · simp [hend]
    · intro u2 h
      injection h with h
      subst h
      have he : (u.log zapcore.PanicLevel msg fields).entries
          = [{ Level := zapcore.PanicLevel, LoggerName := u.name, Message := msg,
               Fields := u.context ++ fields }] := rfl
      calc u.log zapcore.PanicLevel msg fields
          = { entries := (u.log zapcore.PanicLevel msg fields).entries,
              ending := (u.log zapcore.PanicLevel msg fields).ending } := rfl
        _ = _ := by rw [hend, he]
    · intro h
      cases h

/-- Witness of C21 (amended): the node of the tests that has an observer as its
sink panics after handing on one entry. -/
theorem C21_panic_raises_with_sink_witness :
    observedNode.underlying.isSome = true
    ∧ (observedNode.Panic "test panic message" []).ending = .panics
    ∧ (observedNode.Panic "test panic message" []).entries
        = [{ Level := zapcore.PanicLevel, LoggerName := "", Message := "test panic message",
             Fields := [] }] :=
  ⟨rfl, (C21_panic_raises_with_sink observedNode "test panic message" []).1.2 rfl, rfl⟩

/-! ## The root node of a build -/

/-- Counterexample to C22 as stated: `serviceExample` names its service `test`
and its build succeeds, yet the root node has the empty name: its records show
no logger name, and `Derive` with `user` gives the name path `user`, not one that
extends `test`.  The service name is the value of the field `系统`. -/
theorem C22_root_named_by_service_counterexample :
    ∃ root u d,
      (serviceExample.Build sampleEnv [] Globals.initial).outcome = .ok root
      ∧ serviceExample.Service = "test"
      ∧ root.name = ""
      ∧ root.underlying = some u ∧ u.name = ""
      ∧ (root.Info "started" []).entries
          = [{ Level := zapcore.InfoLevel, LoggerName := "", Message := "started",
               Fields := [{ Key := "系统", Value := "test" }] }]
      ∧ root.Derive "user" = .ok d ∧ d.name = "user" := by
  have h := Build_success sampleEnv serviceExample [] Globals.initial
    { name := "Asia/Shanghai" } RotateConfig.zero (by decide) (by decide) (Or.inr (by decide)) (by decide)
  refine ⟨_, _, ?dv, h.1, rfl, rfl, rfl, rfl, ?e, ?d, ?n⟩
  case e => exact rfl
  case d => exact rfl
  case n => exact rfl

/-- C22 (amended). For every configuration on which `Build` succeeds, the root
node has the empty name path and its underlying logger has no name; the service
name is attached as the single context field `系统`, so every record of the root
shows an empty logger name and carries that field in front of the fields of the
call; `Derive` with `s` gives the name path `s` alone, displayed as the last
segment of `s`. -/
theorem C22_root_name_empty (env : Env) (l : Config) (cores : Tee) (g : Globals)
    (root : logger) (hok : (l.Build env cores g).outcome = .ok root) :
    root.name = ""
    ∧ ∃ u, root.underlying = some u ∧ u.name = ""
        ∧ u.context = [{ Key := "系统", Value := l.Service }]
        ∧ (∀ msg fs, (root.Info msg fs).entries
            = [{ Level := zapcore.InfoLevel, LoggerName := "", Message := msg,
                 Fields := { Key := "系统", Value := l.Service } :: fs }])
        ∧ ∀ s, ∃ d ud, root.Derive s = .ok d ∧ d.name = s
            ∧ d.underlying = some ud ∧ ud.name = lastNameField s := by
  obtain ⟨loc, rotate, hp, hz, hr, hw⟩ := Build_ok_inv env l cores g root hok
  have h := (Build_success env l cores g loc rotate hp hz hr hw).1
  rw [h] at hok
  injection hok with hok
  subst hok
  refine ⟨rfl, _, rfl, rfl, rfl, ?_, ?_⟩
  · intro msg fs
    rfl
  · intro s
    refine ⟨_, _, Derive_eq _ s _ _ rfl rfl, ?_, rfl, ?_⟩
    · simp [derivedName]
    · rw [Named_name]
      simp only [derivedName, if_true]
      by_cases hs : lastNameField s = ""
      · rw [if_pos hs, hs]
      · rw [if_neg hs]

/-- Witness of C22 (amended): the build of `serviceExample`. -/
theorem C22_root_name_empty_witness :
    ∃ root,
      (serviceExample.Build sampleEnv [] Globals.initial).outcome = .ok root
      ∧ root.name = ""
      ∧ ∃ u, root.underlying = some u ∧ u.name = ""
          ∧ u.context = [{ Key := "系统", Value := serviceExample.Service }]
          ∧ (∀ msg fs, (root.Info msg fs).entries
              = [{ Level := zapcore.InfoLevel, LoggerName := "", Message := msg,
                   Fields := { Key := "系统", Value := serviceExample.Service } :: fs }])
          ∧ ∀ s, ∃ d ud, root.Derive s = .ok d ∧ d.name = s
              ∧ d.underlying = some ud ∧ ud.name = lastNameField s :=
  have h := Build_success sampleEnv serviceExample [] Globals.initial
    { name := "Asia/Shanghai" } RotateConfig.zero (by decide) (by decide) (Or.inr (by decide)) (by decide)
  ⟨_, h.1, C22_root_name_empty sampleEnv serviceExample [] Globals.initial _ h.1⟩

/-! ## Rotation limits -/

/-- C23. For every rotating writer, `fillLumberjack` puts 100 for a zero
`MaxSize`, 50 for a zero `MaxBackups` and 7 for a zero `MaxAge`, leaves every
component that is not zero as it is, and leaves file name and compression as they
are; so limits left at zero become (100, 50, 7), as in the generic and the
dedicated sink that `Build` makes from the zero value of `RotateConfig`. -/
theorem C23_rotation_defaults :
    (∀ x : lumberjack.Logger,
      (fillLumberjack x).MaxSize = (if x.MaxSize = 0 then 100 else x.MaxSize)
      ∧ (fillLumberjack x).MaxBackups = (if x.MaxBackups = 0 then 50 else x.MaxBackups)
      ∧ (fillLumberjack x).MaxAge = (if x.MaxAge = 0 then 7 else x.MaxAge)
      ∧ (fillLumberjack x).Filename = x.Filename
      ∧ (fillLumberjack x).Compress = x.Compress)
    ∧ (∀ (filename : String) (compress : Bool),
        fillLumberjack { Filename := filename, MaxSize := 0, MaxBackups := 0, MaxAge := 0,
                         Compress := compress }
          = { Filename := filename, MaxSize := 100, MaxBackups := 50, MaxAge := 7,
              Compress := compress })
    ∧ (∀ (path : String) (c : zapcore.LevelEnabler) (enc : Encoder)
        (m : Option (GoMap zapcore.Level String)),
        (Build.genericSink path RotateConfig.zero c enc m).1
          = .rotate { Filename := path ++ ".log", MaxSize := 100, MaxBackups := 50, MaxAge := 7,
                      Compress := true })
    ∧ (∀ (enc : Encoder) (m : GoMap zapcore.Level String) (level : zapcore.Level),
        (Build.redirectSink RotateConfig.zero enc m level).1
          = .rotate { Filename := (m.get? level).getD "", MaxSize := 100, MaxBackups := 50,
                      MaxAge := 7, Compress := true }) := by
  refine ⟨?_, ?_, ?_, ?_⟩
  · intro x
    refine ⟨?_, ?_, ?_, fillLumberjack_Filename x, fillLumberjack_Compress x⟩
    · simp only [fillLumberjack, defaultRotateMaxSize]
      split_ifs <;> rfl
    · simp only [fillLumberjack, defaultRotateMaxBackups]
      split_ifs <;> rfl
    · simp only [fillLumberjack, defaultRotateMaxAge]
      split_ifs <;> rfl
  · intro filename compress
    rfl
  · intro path c enc m
    rfl
  · intro enc m level
    rfl

/-! ## Compression of the rotating files -/

/-- C24. At the failing input `compressionExample` (compression switched off, a
base file path, debug redirected) the build succeeds and its composite writes,
in order, to the generic file with compression off, to the dedicated file of
debug with compression on, and to the console.  In general the generic file
sink compresses exactly when `DisableCompress` is not set, while a dedicated
sink compresses whatever the flag says. -/
theorem C24_dedicated_sink_compresses_at_failing_input :
    (∃ root u,
      (compressionExample.Build sampleEnv [] Globals.initial).outcome = .ok root
      ∧ root.underlying = some u
      ∧ compressionExample.Rotate.map (fun r => r.DisableCompress) = some true
      ∧ u.core.map (fun c => c.bind Core.destination)
          = [some (.rotate { Filename := "logs/app.log", MaxSize := 100, MaxBackups := 50,
                             MaxAge := 7, Compress := false }),
             some (.rotate { Filename := "logs/debug.log", MaxSize := 100, MaxBackups := 50,
                             MaxAge := 7, Compress := true }),
             some .stdout])
    ∧ (∀ (path : String) (rotate : RotateConfig) (c : zapcore.LevelEnabler) (enc : Encoder)
        (m : Option (GoMap zapcore.Level String)),
        ∃ lj, (Build.genericSink path rotate c enc m).1 = .rotate lj
          ∧ lj.Compress = !rotate.DisableCompress)
    ∧ (∀ (rotate : RotateConfig) (enc : Encoder) (m : GoMap zapcore.Level String)
        (level : zapcore.Level),
        ∃ lj, (Build.redirectSink rotate enc m level).1 = .rotate lj ∧ lj.Compress = true) := by
  have h := Build_success sampleEnv compressionExample [] Globals.initial
    { name := "Asia/Shanghai" }
    { MaxSize := 0, MaxBackups := 0, MaxAge := 0, DisableCompress := true }
    (by decide) (by decide) (Or.inl (by decide)) (by decide)
  refine ⟨⟨_, _, h.1, rfl, rfl, ?_⟩, ?_, ?_⟩
  · decide
  · intro path rotate c enc m
    exact ⟨_, rfl, fillLumberjack_Compress _⟩
  · intro rotate enc m level
    exact ⟨_, rfl, fillLumberjack_Compress _⟩

/-! ## The order of the severities -/

/-- Counterexample to C25 as stated: panic lies below fatal, so a router whose
threshold is fatal and whose exception set is empty rejects panic, and one whose
threshold is panic admits fatal; the same holds for a console sink. -/
theorem C25_fatal_above_panic_counterexample :
    zapcore.PanicLevel < zapcore.FatalLevel
    ∧ (newLevelEnablerWithExcept (.level zapcore.FatalLevel)
        ([] : GoMap zapcore.Level String) []).Enabled zapcore.PanicLevel = false
    ∧ (newLevelEnablerWithExcept (.level zapcore.PanicLevel)
        ([] : GoMap zapcore.Level String) []).Enabled zapcore.FatalLevel = true
    ∧ (Core.ioCore none .stdout (.plain (.atomic zapcore.FatalLevel))).Enabled zapcore.PanicLevel
        = false
    ∧ (Core.ioCore none .stdout (.plain (.atomic zapcore.PanicLevel))).Enabled zapcore.FatalLevel
        = true := by
  decide

/-- C25 (amended). The severities are ordered debug < info < warn < error <
dpanic < panic < fatal, and a threshold without exceptions admits exactly the
severities at or above it in this order: this holds for a router with an empty
exception set, for the router `newLevelEnablerWithExcept` makes from an empty
map, and for a sink with a plain or an atomic threshold, such as the console
sink.  So a threshold of fatal admits fatal alone among the seven, and a
threshold of panic admits panic and fatal. -/
theorem C25_severity_order :
    (zapcore.DebugLevel < zapcore.InfoLevel ∧ zapcore.InfoLevel < zapcore.WarnLevel
      ∧ zapcore.WarnLevel < zapcore.ErrorLevel ∧ zapcore.ErrorLevel < zapcore.DPanicLevel
      ∧ zapcore.DPanicLevel < zapcore.PanicLevel ∧ zapcore.PanicLevel < zapcore.FatalLevel)
    ∧ (∀ t x : zapcore.Level,
        (levelEnableWithExcept.Enabled { LevelEnabler := .level t, except := [] } x = true
          ↔ t ≤ x)
        ∧ ((newLevelEnablerWithExcept (.level t) ([] : GoMap zapcore.Level String) []).Enabled x
            = true ↔ t ≤ x)
        ∧ (∀ enc ws, (Core.ioCore enc ws (.plain (.level t))).Enabled x = true ↔ t ≤ x)
        ∧ (∀ enc ws, (Core.ioCore enc ws (.plain (.atomic t))).Enabled x = true ↔ t ≤ x))
    ∧ (∀ x ∈ [zapcore.DebugLevel, zapcore.InfoLevel, zapcore.WarnLevel, zapcore.ErrorLevel,
              zapcore.DPanicLevel, zapcore.PanicLevel, zapcore.FatalLevel],
        ((Core.ioCore none .stdout (.plain (.level zapcore.FatalLevel))).Enabled x = true
          ↔ x = zapcore.FatalLevel)
        ∧ ((Core.ioCore none .stdout (.plain (.level zapcore.PanicLevel))).Enabled x = true
          ↔ x = zapcore.PanicLevel ∨ x = zapcore.FatalLevel)) := by
  refine ⟨by decide, ?_, by decide⟩
  intro t x
  refine ⟨?_, ?_, ?_, ?_⟩
  · simp [levelEnableWithExcept.Enabled, zapcore.LevelEnabler.Enabled, GoMap.get?]
  · rw [newLevelEnablerWithExcept_Enabled]
    simp [zapcore.LevelEnabler.Enabled, GoMap.keys]
  · intro enc ws
    simp [Core.Enabled, CoreEnabler.Enabled, zapcore.LevelEnabler.Enabled]
  · intro enc ws
    simp [Core.Enabled, CoreEnabler.Enabled, zapcore.LevelEnabler.Enabled]

/-! ## The caller skip -/

/-- Counterexample to C26 as stated: the root of the build of `serviceExample`
skips one frame; `AddCallerSkip` with -1 returns a node that still skips one
frame, not none.  And `AddCallerSkip` with the largest `int` returns a node
whose skip has wrapped around to the smallest `int`. -/
theorem C26_addCallerSkip_negative_counterexample :
    ∃ root u r ru r2 ru2,
      (serviceExample.Build sampleEnv [] Globals.initial).outcome = .ok root
      ∧ root.underlying = some u ∧ u.callerSkip = 1
      ∧ root.AddCallerSkip (-1) = .ok r
      ∧ r.underlying = some ru ∧ ru.callerSkip = 1
      ∧ ru.callerSkip ≠ u.callerSkip + (-1)
      ∧ root.AddCallerSkip 9223372036854775807 = .ok r2
      ∧ r2.underlying = some ru2 ∧ ru2.callerSkip = -9223372036854775808
      ∧ ru2.callerSkip ≠ u.callerSkip + 9223372036854775807 := by
  have h := Build_success sampleEnv serviceExample [] Globals.initial
    { name := "Asia/Shanghai" } RotateConfig.zero (by decide) (by decide) (Or.inr (by decide))
    (by decide)
  refine ⟨_, _, ?rv, ?ruv, ?r2v, ?ru2v, h.1, rfl, rfl, ?h1, ?h2, ?h3, ?h4, ?h5, ?h6, ?h7, ?h8⟩
  case h1 => exact rfl
  case h2 => exact rfl
  case h3 => exact rfl
  case h4 => decide
  case h5 => exact rfl
  case h6 => exact rfl
  case h7 => decide
  case h8 => decide

/-- C26 (amended). For every node with an underlying logger and every integer
`k`, `AddCallerSkip` returns a node with the same name path whose underlying
logger has the same name, context fields, composite and caller option, so every
logging call through it hands on the record the node itself would hand on.  Its
caller skip is the `int` sum of that of the node and `k` when `k` is not
negative, which is their sum whenever the sum lies in the range of `int`, and
that of the node when `k` is negative.  The own field list of the returned node
is empty, and its de-dup set is the set of the node. -/
theorem C26_addCallerSkip (n : logger) (k : Int) (u : zap.Logger)
    (hu : n.underlying = some u) :
    ∃ r ru,
      n.AddCallerSkip k = .ok r ∧ r.underlying = some ru
      ∧ r.name = n.name ∧ ru.name = u.name ∧ ru.context = u.context ∧ ru.core = u.core
      ∧ ru.addCaller = u.addCaller
      ∧ ru.callerSkip = (if 0 ≤ k then wrapInt (u.callerSkip + k) else u.callerSkip)
      ∧ (0 ≤ k → -9223372036854775808 ≤ u.callerSkip + k →
          u.callerSkip + k < 9223372036854775808 → ru.callerSkip = u.callerSkip + k)
      ∧ (k < 0 → ru.callerSkip = u.callerSkip)
      ∧ r.fields = [] ∧ r.levelToPath = n.levelToPath
      ∧ r.duplicateKeys = some (ensureDuplicateKeys n.duplicateKeys)
      ∧ ∀ lvl msg fs, r.log lvl msg fs = n.log lvl msg fs := by
  refine ⟨_, _, AddCallerSkip_eq n k u hu, rfl, rfl, ?_, ?_, ?_, ?_, ?_, ?_, ?_, rfl, rfl, rfl,
    ?_⟩
  · split_ifs <;> rfl
  · split_ifs <;> rfl
  · split_ifs <;> rfl
  · split_ifs <;> rfl
  · split_ifs <;> rfl
  · intro hk h1 h2
    rw [if_pos hk]
    exact wrapInt_of_range _ h1 h2
  · intro hk
    rw [if_neg (not_le.2 hk)]
  · intro lvl msg fs
    unfold logger.log
    rw [hu]
    by_cases hk : 0 ≤ k
    · simp only [hk, if_true]
      rfl
    · simp only [hk, if_false]

/-- Witness of C26 (amended): `AddCallerSkip(2)` on the node of the tests. -/
theorem C26_addCallerSkip_witness :
    ∃ u, observedNode.underlying = some u
      ∧ ∃ r ru,
        observedNode.AddCallerSkip 2 = .ok r ∧ r.underlying = some ru
        ∧ r.name = observedNode.name ∧ ru.name = u.name ∧ ru.context = u.context
        ∧ ru.core = u.core ∧ ru.addCaller = u.addCaller
        ∧ ru.callerSkip = (if (0 : Int) ≤ 2 then wrapInt (u.callerSkip + 2) else u.callerSkip)
        ∧ ((0 : Int) ≤ 2 → -9223372036854775808 ≤ u.callerSkip + 2 →
            u.callerSkip + 2 < 9223372036854775808 → ru.callerSkip = u.callerSkip + 2)
        ∧ ((2 : Int) < 0 → ru.callerSkip = u.callerSkip)
        ∧ r.fields = [] ∧ r.levelToPath = observedNode.levelToPath
        ∧ r.duplicateKeys = some (ensureDuplicateKeys observedNode.duplicateKeys)
        ∧ ∀ lvl msg fs, r.log lvl msg fs = observedNode.log lvl msg fs :=
  ⟨_, rfl, C26_addCallerSkip observedNode 2 _ rfl⟩

/-! ## The de-dup set -/

/-- Keys written one after the other through the pointer to the last cell of a
store: no panic, and the last cell alone changes. -/
theorem ExistStore_Set_last (cells : List Exist) (keys : List String) (x : Exist) :
    keys.foldl (fun st key => st.bind (fun s1 => ExistStore.Set s1 cells.length key))
        (.ok { cells := cells ++ [x] })
      = (.ok { cells := cells ++ [keys.foldl (fun result key => result.Set key) x] } :
          Except Panic ExistStore) := by
  induction keys generalizing x with
  | nil => rfl
  | cons key rest ih =>
    have hstep : ExistStore.Set { cells := cells ++ [x] } cells.length key
        = .ok { cells := cells ++ [x.Set key] } := by
      simp [ExistStore.Set, List.set_append]
    rw [List.foldl_cons, List.foldl_cons]
    have hb : (Except.ok { cells := cells ++ [x] } : Except Panic ExistStore).bind
        (fun s1 => ExistStore.Set s1 cells.length key)
          = ExistStore.Set { cells := cells ++ [x] } cells.length key := rfl
    rw [hb, hstep]
    exact ih (x.Set key)

/-- C27. For every initial capacity and every list of keys, after `NewExist` and
`Set` on each key in turn, `Exist` holds of a key exactly when the key is in the
list; a new set holds no key, a key that was set is in the set, and setting a
key a second time changes nothing.  The same holds through pointers: in every
store, `NewExist` followed by `Set` through the new pointer on each key does not
panic, afterwards `Exist` through that pointer answers whether the key is in the
list, and the sets that were in the store are as before.  The list `a`, the
empty string, `a` is an instance: the set holds `a` and the empty string, and
not `b`. -/
theorem C27_set_membership :
    (∀ (initCapacity : Int) (keys : List String) (k : String),
      (keys.foldl (fun e key => e.Set key) (NewExist initCapacity)).Exist k = true ↔ k ∈ keys)
    ∧ (∀ (s : ExistStore) (initCapacity : Int) (keys : List String) (k : String),
        ∃ s2 : ExistStore,
          keys.foldl (fun (st : Except Panic ExistStore) key => st.bind
              (fun s1 => ExistStore.Set s1 (s.NewExist initCapacity).2 key))
            (.ok (s.NewExist initCapacity).1) = .ok s2
          ∧ s2.Exist (s.NewExist initCapacity).2 k = .ok (decide (k ∈ keys))
          ∧ ∀ (e : Nat) (c : Exist), s.cells[e]? = some c → s2.cells[e]? = some c)
    ∧ (∀ (initCapacity : Int) (k : String), (NewExist initCapacity).Exist k = false)
    ∧ (∀ (e : Exist) (j : String), (e.Set j).Exist j = true)
    ∧ (∀ (e : Exist) (j : String), (e.Set j).Set j = e.Set j)
    ∧ (∀ (e : Exist) (j k : String), ((e.Set j).Set j).Exist k = (e.Set j).Exist k)
    ∧ ((["a", "", "a"].foldl (fun e key => e.Set key) (NewExist 5)).Exist "a" = true
        ∧ (["a", "", "a"].foldl (fun e key => e.Set key) (NewExist 5)).Exist "" = true
        ∧ (["a", "", "a"].foldl (fun e key => e.Set key) (NewExist 5)).Exist "b" = false) := by
  have hin : ∀ (e : Exist) (j : String), j ∈ e.data → e.Set j = e := by
    intro e j hj
    unfold Exist.Set
    rw [if_pos hj]
  have hset : ∀ (e : Exist) (j : String), (e.Set j).Set j = e.Set j :=
    fun e j => hin _ j ((Exist_Set_mem e j j).2 (Or.inl rfl))
  refine ⟨?_, ?_, ?_, ?_, hset, ?_, by decide⟩
  · intro initCapacity keys k
    unfold Exist.Exist
    rw [decide_eq_true_iff, Exist_fold_mem]
    simp [NewExist]
  · intro s initCapacity keys k
    refine ⟨_, ExistStore_Set_last s.cells keys (NewExist initCapacity), ?_, ?_⟩
    · simp only [ExistStore.Exist, ExistStore.NewExist]
      rw [List.getElem?_append_right (Nat.le_refl _)]
      simp only [Nat.sub_self, List.getElem?_cons_zero, Exist.Exist]
      congr 1
      rw [decide_eq_decide, Exist_fold_mem]
      simp [NewExist]
    · intro e c he
      have hlt : e < s.cells.length := by
        by_contra hge
        rw [List.getElem?_eq_none (Nat.le_of_not_lt hge)] at he
        cases he
      rw [List.getElem?_append_left hlt]
      exact he
  · intro initCapacity k
    simp [Exist.Exist, NewExist]
  · intro e j
    rw [Exist_Set_Exist]
    simp
  · intro e j k
    rw [hset]

/-- Copying through a pointer that holds a set: the store grows by one cell that
holds the copy. -/
theorem ExistStore_Copy_eq (s : ExistStore) (e : Nat) (c0 : Exist)
    (he : s.cells[e]? = some c0) :
    s.Copy e = .ok ({ cells := s.cells ++ [c0.Copy] }, s.cells.length) := by
  unfold ExistStore.Copy
  rw [he]
  simp only [ExistStore.NewExist]
  rw [ExistStore_Set_last]
  rfl

theorem ExistStore_lt (s : ExistStore) (e : Nat) (c0 : Exist)
    (he : s.cells[e]? = some c0) : e < s.cells.length := by
  by_contra hge
  rw [List.getElem?_eq_none (Nat.le_of_not_lt hge)] at he
  cases he

/-- C28. `Copy` gives an independent snapshot.  For every store of sets, every
pointer `e` to a set in it and all keys `k` and `j`: `Copy` returns a pointer `c`
to a new set, other than `e`, in which `Exist` answers for `k` what it answers
in the set at `e`, and the set at `e` is as before.  A later `Set(j)` through
`c` puts `j` into the copy and changes no answer of the set at `e`; a later
`Set(j)` through `e` puts `j` into the set at `e` and changes no answer of the
copy. -/
theorem C28_copy_independent (s : ExistStore) (e : Nat) (c0 : Exist)
    (he : s.cells[e]? = some c0) (k j : String) :
    ∃ s2 c, s.Copy e = .ok (s2, c) ∧ c ≠ e
      ∧ s2.Exist c k = s.Exist e k
      ∧ s2.Exist e k = s.Exist e k
      ∧ (∃ s3, s2.Set c j = .ok s3
          ∧ s3.Exist e k = s2.Exist e k
          ∧ s3.Exist c j = .ok true
          ∧ s3.Exist c k = .ok (decide (k = j) || c0.Exist k))
      ∧ (∃ s3, s2.Set e j = .ok s3
          ∧ s3.Exist c k = s2.Exist c k
          ∧ s3.Exist e j = .ok true
          ∧ s3.Exist e k = .ok (decide (k = j) || c0.Exist k)) := by
  have hlt := ExistStore_lt s e c0 he
  have hne : s.cells.length ≠ e := Nat.ne_of_gt hlt
  have he2 : (s.cells ++ [c0.Copy])[e]? = some c0 := by
    rw [List.getElem?_append_left hlt]
    exact he
  have hc2 : (s.cells ++ [c0.Copy])[s.cells.length]? = some c0.Copy := by
    simp
  have hl1 : s.cells.length < (s.cells ++ [c0.Copy]).length := by
    simp
  have hl2 : e < (s.cells ++ [c0.Copy]).length := by
    simp only [List.length_append, List.length_singleton]
    omega
  refine ⟨_, _, ExistStore_Copy_eq s e c0 he, hne, ?_, ?_, ?_, ?_⟩
  · simp only [ExistStore.Exist, hc2, he, Exist_Copy_Exist]
  · simp only [ExistStore.Exist, he2, he]
  · refine ⟨{ cells := (s.cells ++ [c0.Copy]).set s.cells.length (c0.Copy.Set j) }, ?_, ?_, ?_, ?_⟩
    · simp only [ExistStore.Set, hc2]
    · simp only [ExistStore.Exist]
      rw [List.getElem?_set_ne hne]
    · simp only [ExistStore.Exist]
      rw [List.getElem?_set_self hl1]
      simp [Exist_Set_Exist]
    · simp only [ExistStore.Exist]
      rw [List.getElem?_set_self hl1]
      simp only [Exist_Set_Exist, Exist_Copy_Exist]
  · refine ⟨{ cells := (s.cells ++ [c0.Copy]).set e (c0.Set j) }, ?_, ?_, ?_, ?_⟩
    · simp only [ExistStore.Set, he2]
    · simp only [ExistStore.Exist]
      rw [List.getElem?_set_ne (Ne.symm hne)]
    · simp only [ExistStore.Exist]
      rw [List.getElem?_set_self hl2]
      simp [Exist_Set_Exist]
    · simp only [ExistStore.Exist]
      rw [List.getElem?_set_self hl2]
      simp only [Exist_Set_Exist]

/-- Witness of C28: the set of the tests that holds `original-key`, copied, with
`copy-key` put into either set afterwards. -/
theorem C28_copy_independent_witness :
    sampleStore.cells[0]? = some { data := ["original-key"] }
    ∧ ∃ s2 c, sampleStore.Copy 0 = .ok (s2, c) ∧ c ≠ 0
      ∧ s2.Exist c "original-key" = sampleStore.Exist 0 "original-key"
      ∧ s2.Exist 0 "original-key" = sampleStore.Exist 0 "original-key"
      ∧ (∃ s3, s2.Set c "copy-key" = .ok s3
          ∧ s3.Exist 0 "original-key" = s2.Exist 0 "original-key"
          ∧ s3.Exist c "copy-key" = .ok true
          ∧ s3.Exist c "original-key"
              = .ok (decide ("original-key" = "copy-key")
                      || Exist.Exist { data := ["original-key"] } "original-key"))
      ∧ (∃ s3, s2.Set 0 "copy-key" = .ok s3
          ∧ s3.Exist c "original-key" = s2.Exist c "original-key"
          ∧ s3.Exist 0 "copy-key" = .ok true
          ∧ s3.Exist 0 "original-key"
              = .ok (decide ("original-key" = "copy-key")
                      || Exist.Exist { data := ["original-key"] } "original-key")) :=
  ⟨rfl, C28_copy_independent sampleStore 0 { data := ["original-key"] } rfl
    "original-key" "copy-key"⟩

/-! ## The composite that re-leveling builds -/

/-- C29. For every node, level and state of the process-wide variables, the
composite that `SetLevel` builds and records in the variable `core` consists in
order of: one file sink over the recorded file writer with the plain threshold
`level`, present exactly when a file writer is recorded; the recorded injected
sinks that are not nil; one console sink with the plain threshold `level`,
present exactly when the console is not hidden.  Every sink of it is a recorded
injected sink or a sink with that plain threshold over the recorded writer or
the console.  `SetLevel` returns a node over that composite when the node has no
own field or every sink of the composite can take fields; with an own field and
a sink that cannot (the recorded encoder is nil and a file or console sink is
made, or an injected sink lacks an encoder) it panics after recording the
composite, as for a node with an own field in a process without a build.  A
build that succeeds records the sinks its caller supplied and the hide-console
flag.  After the build of `hookExample`, whose composite writes to the generic
file, the dedicated file, the console and the hook, the composite of `SetLevel`
has two sinks, over the recorded writer and the console: neither the hook sink
nor a router is in it. -/
theorem C29_setLevel_composition :
    (∀ (n : logger) (level : zapcore.Level) (g : Globals),
      ∃ S : Tee,
        S = (match g.writeSyncer with
              | some ws => [some (Core.ioCore g.encoder ws (.plain (.level level)))]
              | none => [])
            ++ g.inputCores.filter (fun inputCore => inputCore.isSome)
            ++ (if g.HiddenConsole = true then []
                else [some (Core.ioCore g.encoder .stdout (.plain (.level level)))])
        ∧ (n.SetLevel level g).2 = { g with core := some S }
        ∧ S.length
            = (if g.writeSyncer.isSome = true then 1 else 0)
              + (g.inputCores.filter (fun inputCore => inputCore.isSome)).length
              + (if g.HiddenConsole = true then 0 else 1)
        ∧ (∀ c ∈ S,
            (c ∈ g.inputCores ∧ c.isSome = true)
            ∨ (∃ ws, g.writeSyncer = some ws
                ∧ c = some (Core.ioCore g.encoder ws (.plain (.level level))))
            ∨ (g.HiddenConsole = false
                ∧ c = some (Core.ioCore g.encoder .stdout (.plain (.level level)))))
        ∧ (∀ x, (CoreEnabler.plain (.level level)).Enabled x = true ↔ level ≤ x)
        ∧ (n.fields = [] ∨ S.withFaults = false →
            ∃ n2 u2, (n.SetLevel level g).1 = .ok n2 ∧ n2.underlying = some u2
              ∧ u2.core = S)
        ∧ (n.fields ≠ [] → S.withFaults = true →
            (n.SetLevel level g).1 = .error .nilPointer)
        ∧ (S.withFaults = true
            ↔ (g.encoder = none ∧ (g.writeSyncer ≠ none ∨ g.HiddenConsole = false))
              ∨ ∃ ws e, some (Core.ioCore none ws e) ∈ g.inputCores))
    ∧ (∀ (env : Env) (l : Config) (cores : Tee) (g : Globals) (root : logger),
        (l.Build env cores g).outcome = .ok root →
          (l.Build env cores g).globals.inputCores = cores
          ∧ (l.Build env cores g).globals.HiddenConsole = l.HideConsole)
    ∧ (∃ root u r ur,
        (hookExample.Build sampleEnv [] Globals.initial).outcome = .ok root
        ∧ root.underlying = some u
        ∧ u.core.map (fun c => c.bind Core.destination)
            = [some (rotatedFile "logs/app.log"), some (rotatedFile "logs/debug.log"),
               some .stdout, some (.addSync 1)]
        ∧ (root.SetLevel zapcore.InfoLevel
            (hookExample.Build sampleEnv [] Globals.initial).globals).1 = .ok r
        ∧ r.underlying = some ur
        ∧ ur.core
            = [some (Core.ioCore (hookExample.Build sampleEnv [] Globals.initial).globals.encoder
                      (rotatedFile "logs/debug.log") (.plain (.level zapcore.InfoLevel))),
               some (Core.ioCore (hookExample.Build sampleEnv [] Globals.initial).globals.encoder
                      .stdout (.plain (.level zapcore.InfoLevel)))])
    ∧ (fieldedNode.fields = [fieldA]
        ∧ fieldedNode.SetLevel zapcore.InfoLevel Globals.initial
            = (.error .nilPointer,
               { Globals.initial with
                 core := some [some (Core.ioCore none .stdout
                   (.plain (.level zapcore.InfoLevel)))] })) := by
  refine ⟨?_, ?_, ?_, ?_⟩
  · intro n level g
    refine ⟨SetLevel.sinks level g, rfl, SetLevel_globals n level g, ?_, ?_, ?_, ?_, ?_,
      SetLevel_sinks_withFaults level g⟩
    · simp only [SetLevel.sinks, List.length_append]
      cases g.writeSyncer <;> cases g.HiddenConsole <;> simp
    · intro c hc
      simp only [SetLevel.sinks, List.mem_append, List.mem_filter] at hc
      rcases hc with (hc | hc) | hc
      · cases hw : g.writeSyncer with
        | none => simp [hw] at hc
        | some ws =>
          simp only [hw, List.mem_singleton] at hc
          exact Or.inr (Or.inl ⟨ws, rfl, hc⟩)
      · exact Or.inl hc
      · cases hcon : g.HiddenConsole with
        | true => simp [hcon] at hc
        | false =>
          simp only [hcon, Bool.false_eq_true, if_false, List.mem_singleton] at hc
          exact Or.inr (Or.inr ⟨rfl, hc⟩)
    · intro x
      simp [CoreEnabler.Enabled, zapcore.LevelEnabler.Enabled]
    · intro hw
      exact ⟨_, _, congrArg Prod.fst (SetLevel_eq n level g hw), rfl, rfl⟩
    · intro hf hw
      exact congrArg Prod.fst (SetLevel_fault n level g hf hw)
  · intro env l cores g root hok
    obtain ⟨loc, rotate, hp, hz, hr, hw⟩ := Build_ok_inv env l cores g root hok
    rw [(Build_success env l cores g loc rotate hp hz hr hw).2]
    exact ⟨rfl, rfl⟩
  · have h := Build_success sampleEnv hookExample [] Globals.initial
      { name := "Asia/Shanghai" } RotateConfig.zero (by decide) (by decide) (Or.inl (by decide))
      (by decide)
    refine ⟨_, _, ?rv, ?urv, h.1, rfl, ?h1, ?h2, ?h3, ?h4⟩
    case h1 => decide
    case h2 =>
      refine congrArg Prod.fst (SetLevel_eq _ _ _ (Or.inl ?_))
      rfl
    case h3 => exact rfl
    case h4 =>
      rw [h.2]
      rfl
  · exact ⟨rfl, SetLevel_fault fieldedNode zapcore.InfoLevel Globals.initial (by decide)
      (by decide)⟩

/-! ## The own field list along sequences of operations -/

/-- The sinks that `SetLevel` merges do not depend on the recorded composite. -/
theorem SetLevel_sinks_core (level : zapcore.Level) (g : Globals) (t : Option Tee) :
    SetLevel.sinks level { g with core := t } = SetLevel.sinks level g := rfl

/-- One operation on a node that has an underlying logger whose sinks can take
fields, a de-dup set and no own fields returns such a node again, without a
panic, when the sinks that `SetLevel` merges can take fields at every level. -/
theorem NodeOp_run_wired (op : NodeOp) (n : logger) (g : Globals) (u : zap.Logger) (d : Exist)
    (hf : n.fields = []) (hu : n.underlying = some u) (hd : n.duplicateKeys = some d)
    (hw : u.core.withFaults = false)
    (hg : ∀ level, (SetLevel.sinks level g).withFaults = false) :
    ∃ n2 g2 u2 d2, op.run n g = (.ok n2, g2) ∧ n2.fields = []
      ∧ n2.underlying = some u2 ∧ n2.duplicateKeys = some d2
      ∧ u2.core.withFaults = false
      ∧ ∀ level, (SetLevel.sinks level g2).withFaults = false := by
  cases op with
  | derive s =>
    exact ⟨_, g, _, _, congrArg (fun r => (r, g)) (Derive_eq n s u d hu hd), hf, rfl, rfl,
      (by rw [Named_core]; exact hw), hg⟩
  | withFields fs =>
    exact ⟨_, g, _, _, congrArg (fun r => (r, g)) (With_eq n fs u d hu hd (Or.inr hw)),
      rfl, rfl, rfl, hw, hg⟩
  | withWhenNotExist key field =>
    cases hk : d.Exist key with
    | true =>
      exact ⟨n, g, u, d,
        congrArg (fun r => (r, g)) (WithWhenNotExist_present n key field d hd hk), hf, hu, hd,
        hw, hg⟩
    | false =>
      exact ⟨_, g, _, _,
        congrArg (fun r => (r, g)) (WithWhenNotExist_absent n key field u d hu hd hk hw),
        rfl, rfl, rfl, hw, hg⟩
  | start taskID =>
    exact ⟨_, g, _, _, congrArg (fun r => (r, g)) (With_eq n _ u d hu hd (Or.inr hw)),
      rfl, rfl, rfl, hw, hg⟩
  | addCallerSkip skip =>
    refine ⟨_, g, _, _, congrArg (fun r => (r, g)) (AddCallerSkip_eq n skip u hu), rfl, rfl,
      rfl, ?_, hg⟩
    split_ifs
    · exact hw
    · exact hw
  | setLevel level =>
    exact ⟨_, _, _, _, SetLevel_eq n level g (Or.inl hf), hf, rfl, rfl, hg level,
      fun level2 => hg level2⟩

/-- A sequence of operations from such a node ends, without a panic, in such a
node. -/
theorem runOps_wired (ops : List NodeOp) (n : logger) (g : Globals) (u : zap.Logger)
    (d : Exist) (hf : n.fields = []) (hu : n.underlying = some u)
    (hd : n.duplicateKeys = some d) (hw : u.core.withFaults = false)
    (hg : ∀ level, (SetLevel.sinks level g).withFaults = false) :
    ∃ n2 g2 u2 d2, runOps ops n g = (.ok n2, g2) ∧ n2.fields = []
      ∧ n2.underlying = some u2 ∧ n2.duplicateKeys = some d2
      ∧ u2.core.withFaults = false
      ∧ ∀ level, (SetLevel.sinks level g2).withFaults = false := by
  induction ops generalizing n g u d with
  | nil => exact ⟨n, g, u, d, rfl, hf, hu, hd, hw, hg⟩
  | cons op rest ih =>
    obtain ⟨n1, g1, u1, d1, h1, hf1, hu1, hd1, hw1, hg1⟩ :=
      NodeOp_run_wired op n g u d hf hu hd hw hg
    obtain ⟨n2, g2, u2, d2, h2, hf2, hu2, hd2, hw2, hg2⟩ := ih n1 g1 u1 d1 hf1 hu1 hd1 hw1 hg1
    refine ⟨n2, g2, u2, d2, ?_, hf2, hu2, hd2, hw2, hg2⟩
    simp only [runOps, h1]
    exact h2

/-- C30. For every successful build and every finite sequence of `Derive`,
`With`, `WithWhenNotExist`, `Start`, `AddCallerSkip` and `SetLevel` applied to
the returned root, no operation panics and the resulting node has an empty own
field list.  So the node `SetLevel` returns on it, at any level, has an empty
own field list and an underlying logger without context fields: each record it
emits carries the fields of the call alone; and its de-dup set holds no key. -/
theorem C30_own_fields_empty (env : Env) (l : Config) (cores : Tee) (g : Globals)
    (root : logger) (hok : (l.Build env cores g).outcome = .ok root) (ops : List NodeOp) :
    ∃ n g2,
      runOps ops root (l.Build env cores g).globals = (.ok n, g2)
      ∧ n.fields = []
      ∧ ∀ level, ∃ n2 u2 d2,
          (n.SetLevel level g2).1 = .ok n2
          ∧ n2.fields = []
          ∧ n2.underlying = some u2 ∧ u2.context = []
          ∧ (∀ msg fs, (n2.Info msg fs).entries
              = [{ Level := zapcore.InfoLevel, LoggerName := n.name, Message := msg,
                   Fields := fs }])
          ∧ n2.duplicateKeys = some d2 ∧ d2.data = [] ∧ ∀ k, d2.Exist k = false := by
  obtain ⟨loc, rotate, hp, hz, hr, hw⟩ := Build_ok_inv env l cores g root hok
  have h := (Build_success env l cores g loc rotate hp hz hr hw).1
  rw [h] at hok
  injection hok with hok
  obtain ⟨n, g2, u, d, hrun, hf, hu, hd, _, _⟩ :=
    runOps_wired ops root (l.Build env cores g).globals _ _
      (by rw [← hok]) (by rw [← hok]) (by rw [← hok]) (by exact hw)
      (fun level => SetLevel_after_Build env l cores g loc rotate level hp hz hr hw)
  refine ⟨n, g2, hrun, hf, ?_⟩
  intro level
  refine ⟨_, _, _, congrArg Prod.fst (SetLevel_eq n level g2 (Or.inl hf)), hf, rfl, hf, ?_,
    rfl, rfl, ?_⟩
  · intro msg fs
    simp only [logger.Info, logger.log, zap.Logger.log, hf, List.nil_append]
  · intro k
    simp [Exist.Exist, NewExist]

/-- Witness of C30: the build of `serviceExample`, followed by the six
operations, ending with a field attached after a re-leveling. -/
theorem C30_own_fields_empty_witness :
    ∃ root,
      (serviceExample.Build sampleEnv [] Globals.initial).outcome = .ok root
      ∧ ∃ n g2,
        runOps [.derive "user", .withFields [fieldA], .withWhenNotExist "b" fieldB,
                .start "65f0c0ffee", .addCallerSkip 1, .setLevel zapcore.WarnLevel,
                .withFields [fieldB]]
            root (serviceExample.Build sampleEnv [] Globals.initial).globals = (.ok n, g2)
        ∧ n.fields = []
        ∧ ∀ level, ∃ n2 u2 d2,
            (n.SetLevel level g2).1 = .ok n2
            ∧ n2.fields = []
            ∧ n2.underlying = some u2 ∧ u2.context = []
            ∧ (∀ msg fs, (n2.Info msg fs).entries
                = [{ Level := zapcore.InfoLevel, LoggerName := n.name, Message := msg,
                     Fields := fs }])
            ∧ n2.duplicateKeys = some d2 ∧ d2.data = [] ∧ ∀ k, d2.Exist k = false :=
  have h := Build_success sampleEnv serviceExample [] Globals.initial
    { name := "Asia/Shanghai" } RotateConfig.zero (by decide) (by decide) (Or.inr (by decide)) (by decide)
  ⟨_, h.1, C30_own_fields_empty sampleEnv serviceExample [] Globals.initial _ h.1 _⟩

/-! ## Lemmas on the operations in memory -/

/-- A pointer that holds a node lies below the end of the memory. -/
theorem Heap_lt (h : Heap) (p : Nat) (c : loggerCell) (hp : h.nodes[p]? = some c) :
    p < h.nodes.length := by
  by_contra hge
  rw [List.getElem?_eq_none (Nat.le_of_not_lt hge)] at hp
  cases hp

/-- What was in a list is there after the list has grown at its end. -/
theorem getElem?_grow {α : Type} (xs ys : List α) (p : Nat) (x : α) (hp : xs[p]? = some x) :
    (xs ++ ys)[p]? = some x := by
  have hlt : p < xs.length := by
    by_contra hge
    rw [List.getElem?_eq_none (Nat.le_of_not_lt hge)] at hp
    cases hp
  rw [List.getElem?_append_left hlt]
  exact hp

theorem getElem?_last {α : Type} (xs : List α) (x : α) : (xs ++ [x])[xs.length]? = some x := by
  simp


/-- The logger that `NewLogger` leaves in the new node when it is given a logger
that is not nil: named when `setName`, with the caller skip added when `skip` is
not negative. -/
def NewLogger.underlying (u : zap.Logger) (name : String) (skip : Int) (setName last : Bool) :
    zap.Logger :=
  let u1 := if setName then u.Named (if last then lastNameField name else name) else u
  if 0 ≤ skip then { u1 with callerSkip := wrapInt (u1.callerSkip + skip) } else u1

/-- The constructor on a logger that is not nil: it does not panic. -/
theorem NewLogger_some (u : zap.Logger) (name : String) (skip : Int) (setName last : Bool)
    (m : Option (GoMap zapcore.Level String)) (dk : Option Exist) (fields : List zap.Field) :
    NewLogger (some u) name skip setName last m dk fields
      = .ok { underlying := some (NewLogger.underlying u name skip setName last),
              levelToPath := m, duplicateKeys := some (ensureDuplicateKeys dk), name := name,
              fields := fields, skip := if 0 ≤ skip then skip else 0 } := by
  unfold NewLogger NewLogger.underlying
  cases setName <;> cases last <;> by_cases hs : 0 ≤ skip <;>
    simp only [zapNamed_some, zapAddCallerSkip, hs, if_true, if_false, Bool.false_eq_true] <;> rfl

theorem set_last {α : Type} (xs : List α) (a b : α) :
    (xs ++ [a]).set xs.length b = xs ++ [b] := by
  simp [List.set_append]

/-- The constructor in memory on a logger that is not nil: the memory grows by
one node, which is the node that the constructor returns as a value, with the
pointer to its set. -/
theorem Heap_NewLogger_some (h : Heap) (u : zap.Logger) (name : String) (skip : Int)
    (setName last : Bool) (m : Option (GoMap zapcore.Level String)) (dk : Option Nat)
    (fields : List zap.Field) :
    h.NewLogger (some u) name skip setName last m dk fields
      = (.ok (h.ensureDuplicateKeys dk).1.nodes.length,
         { (h.ensureDuplicateKeys dk).1 with
           nodes := (h.ensureDuplicateKeys dk).1.nodes ++
             [{ underlying := some (NewLogger.underlying u name skip setName last),
                levelToPath := m, duplicateKeys := some (h.ensureDuplicateKeys dk).2,
                name := name, fields := fields, skip := if 0 ≤ skip then skip else 0 }] }) := by
  unfold Heap.NewLogger NewLogger.underlying
  cases setName <;> cases last <;> by_cases hs : 0 ≤ skip <;>
    simp only [zapNamed_some, zapAddCallerSkip, hs, if_true, if_false, Bool.false_eq_true,
      Heap.write, set_last]

/-- Method `Derive` in memory on a node with an underlying logger and a set: the
memory grows by a copy of the set and by the derived node, which points to the
copy. -/
theorem Heap_Derive_eq (h : Heap) (l : Nat) (s : String) (c : loggerCell) (u : zap.Logger)
    (d : Nat) (st : Exist) (hl : h.nodes[l]? = some c) (hu : c.underlying = some u)
    (hd : c.duplicateKeys = some d) (hs : h.sets.cells[d]? = some st) :
    h.Derive l s
      = (.ok h.nodes.length,
         { globals := h.globals, sets := { cells := h.sets.cells ++ [st.Copy] },
           nodes := h.nodes ++
             [{ underlying := some (u.Named (lastNameField (derivedName c.name s))),
                levelToPath := c.levelToPath, duplicateKeys := some h.sets.cells.length,
                name := derivedName c.name s, fields := c.fields, skip := 0 }] }) := by
  unfold Heap.Derive
  simp only [hl, hu, hd, ExistStore_Copy_eq h.sets d st hs, intercalate_names,
    Heap_NewLogger_some, Heap.ensureDuplicateKeys, NewLogger.underlying]
  rfl

/-- Method `With` in memory on a node with an underlying logger and a set, when
there is no field to attach or every sink can take fields. -/
theorem Heap_With_eq (h : Heap) (l : Nat) (fields : List zap.Field) (c : loggerCell)
    (u : zap.Logger) (d : Nat) (st : Exist) (hl : h.nodes[l]? = some c)
    (hu : c.underlying = some u) (hd : c.duplicateKeys = some d)
    (hs : h.sets.cells[d]? = some st)
    (hw : c.fields ++ fields = [] ∨ u.core.withFaults = false) :
    h.With l fields
      = (.ok h.nodes.length,
         { globals := h.globals, sets := { cells := h.sets.cells ++ [st.Copy] },
           nodes := h.nodes ++
             [{ underlying := some (u.With (c.fields ++ fields)),
                levelToPath := c.levelToPath, duplicateKeys := some h.sets.cells.length,
                name := c.name, fields := [], skip := 0 }] }) := by
  unfold Heap.With
  simp only [hl, hu, hd, zapWith_ok u _ hw, ExistStore_Copy_eq h.sets d st hs,
    Heap_NewLogger_some, Heap.ensureDuplicateKeys, NewLogger.underlying]
  rfl

/-- Method `With` in memory when there is a field to attach and a sink cannot
take fields: a panic, and the memory is as it was. -/
theorem Heap_With_fault (h : Heap) (l : Nat) (fields : List zap.Field) (c : loggerCell)
    (u : zap.Logger) (hl : h.nodes[l]? = some c) (hu : c.underlying = some u)
    (hf : c.fields ++ fields ≠ []) (hw : u.core.withFaults = true) :
    h.With l fields = (.error .nilPointer, h) := by
  unfold Heap.With
  simp only [hl, hu, zapWith_fault u _ hf hw]

/-- Method `WithWhenNotExist` in memory when the set of the node holds the key:
the pointer returned is one to a new copy of the node; no set is made or
written. -/
theorem Heap_WithWhenNotExist_present (h : Heap) (l : Nat) (key : String) (field : zap.Field)
    (c : loggerCell) (d : Nat) (st : Exist) (hl : h.nodes[l]? = some c)
    (hd : c.duplicateKeys = some d) (hs : h.sets.cells[d]? = some st)
    (hk : st.Exist key = true) :
    h.WithWhenNotExist l key field
      = (.ok h.nodes.length, { h with nodes := h.nodes ++ [c] }) := by
  unfold Heap.WithWhenNotExist
  simp only [hl, hd, ExistStore.Exist, hs, hk]

/-- Method `WithWhenNotExist` in memory when the set of the node lacks the key:
the memory grows by a copy of the set into which the key is put, and by a node
that points to it. -/
theorem Heap_WithWhenNotExist_absent (h : Heap) (l : Nat) (key : String) (field : zap.Field)
    (c : loggerCell) (u : zap.Logger) (d : Nat) (st : Exist) (hl : h.nodes[l]? = some c)
    (hu : c.underlying = some u) (hd : c.duplicateKeys = some d)
    (hs : h.sets.cells[d]? = some st) (hk : st.Exist key = false)
    (hw : u.core.withFaults = false) :
    h.WithWhenNotExist l key field
      = (.ok h.nodes.length,
         { globals := h.globals, sets := { cells := h.sets.cells ++ [st.Copy.Set key] },
           nodes := h.nodes ++
             [{ underlying := some (u.With (c.fields ++ [field])),
                levelToPath := c.levelToPath, duplicateKeys := some h.sets.cells.length,
                name := c.name, fields := [], skip := 0 }] }) := by
  have hset : ExistStore.Set { cells := h.sets.cells ++ [st.Copy] } h.sets.cells.length key
      = .ok { cells := h.sets.cells ++ [st.Copy.Set key] } := by
    simp [ExistStore.Set, List.set_append]
  unfold Heap.WithWhenNotExist
  simp only [hl, hu, hd, ExistStore.Exist, hs, hk, ExistStore_Copy_eq h.sets d st hs, hset,
    zapWith_ok u _ (Or.inr hw), Heap_NewLogger_some, Heap.ensureDuplicateKeys,
    NewLogger.underlying]
  rfl

/-- Method `WithWhenNotExist` in memory when the set of the node lacks the key and
a sink cannot take fields: a panic after the new set was made and written; the
nodes and the sets made before are as they were. -/
theorem Heap_WithWhenNotExist_fault (h : Heap) (l : Nat) (key : String) (field : zap.Field)
    (c : loggerCell) (u : zap.Logger) (d : Nat) (st : Exist) (hl : h.nodes[l]? = some c)
    (hu : c.underlying = some u) (hd : c.duplicateKeys = some d)
    (hs : h.sets.cells[d]? = some st) (hk : st.Exist key = false)
    (hw : u.core.withFaults = true) :
    h.WithWhenNotExist l key field
      = (.error .nilPointer,
         { globals := h.globals, sets := { cells := h.sets.cells ++ [st.Copy.Set key] },
           nodes := h.nodes }) := by
  have hset : ExistStore.Set { cells := h.sets.cells ++ [st.Copy] } h.sets.cells.length key
      = .ok { cells := h.sets.cells ++ [st.Copy.Set key] } := by
    simp [ExistStore.Set, List.set_append]
  unfold Heap.WithWhenNotExist
  simp only [hl, hu, hd, ExistStore.Exist, hs, hk, ExistStore_Copy_eq h.sets d st hs, hset,
    zapWith_fault u (c.fields ++ [field]) (by simp) hw]

/-- Method `AddCallerSkip` in memory on a node with an underlying logger and a
set: the memory grows by one node, which points to the set of the node. -/
theorem Heap_AddCallerSkip_eq (h : Heap) (l : Nat) (skip : Int) (c : loggerCell)
    (u : zap.Logger) (d : Nat) (hl : h.nodes[l]? = some c) (hu : c.underlying = some u)
    (hd : c.duplicateKeys = some d) :
    h.AddCallerSkip l skip
      = (.ok h.nodes.length,
         { h with
           nodes := h.nodes ++
             [{ underlying :=
                  some (if 0 ≤ skip then { u with callerSkip := wrapInt (u.callerSkip + skip) }
                        else u),
                levelToPath := c.levelToPath, duplicateKeys := some d,
                name := c.name, fields := [], skip := if 0 ≤ skip then skip else 0 }] }) := by
  unfold Heap.AddCallerSkip
  simp only [hl, hu, hd, Heap_NewLogger_some, Heap.ensureDuplicateKeys, NewLogger.underlying]
  rfl

/-- The logger of the node that `NewLogger` makes for `SetLevel`, from a new
logger: named by the name path and skipping one frame. -/
theorem NewLogger_underlying_fresh (t : Tee) (ctx : List zap.Field) (a : Bool)
    (name : String) :
    NewLogger.underlying
        { core := t, context := ctx, name := "", addCaller := a, callerSkip := 0 }
        name 1 true false
      = { core := t, context := ctx, name := name, addCaller := a, callerSkip := 1 } := by
  unfold NewLogger.underlying zap.Logger.Named
  by_cases hn : name = ""
  · subst hn
    rfl
  · simp only [hn, if_true, if_false, Bool.false_eq_true]
    rfl

/-- Method `SetLevel` in memory in terms of the sinks it merges. -/
theorem Heap_SetLevel_unfold (h : Heap) (l : Nat) (level : zapcore.Level) (c : loggerCell)
    (hl : h.nodes[l]? = some c) :
    h.SetLevel l level
      = match zapNewWith (SetLevel.sinks level h.globals) false c.fields with
        | .error p =>
          (.error p,
           { h with globals := { h.globals with core := some (SetLevel.sinks level h.globals) } })
        | .ok withFields =>
          Heap.NewLogger
            { h with globals := { h.globals with core := some (SetLevel.sinks level h.globals) } }
            (some { withFields with addCaller := true }) c.name 1 true false c.levelToPath none
            c.fields := by
  have hc : (if (!h.globals.HiddenConsole) = true then
        [some (Core.ioCore h.globals.encoder .stdout (.plain (.level level)))] else [])
      = (if h.globals.HiddenConsole = true then ([] : Tee)
          else [some (Core.ioCore h.globals.encoder .stdout (.plain (.level level)))]) := by
    cases h.globals.HiddenConsole <;> rfl
  simp only [Heap.SetLevel, hl, SetLevel.sinks, hc]

/-- A `SetLevel` in memory that returns: the node has no own field or every sink
of the new composite can take fields.  The variable `core` is assigned, and the
memory grows by a new empty set and by the new node, which points to it. -/
theorem Heap_SetLevel_eq (h : Heap) (l : Nat) (level : zapcore.Level) (c : loggerCell)
    (hl : h.nodes[l]? = some c)
    (hw : c.fields = [] ∨ (SetLevel.sinks level h.globals).withFaults = false) :
    h.SetLevel l level
      = (.ok h.nodes.length,
         { globals := { h.globals with core := some (SetLevel.sinks level h.globals) },
           sets := { cells := h.sets.cells ++ [NewExist 10] },
           nodes := h.nodes ++
             [{ underlying := some
                  { core := SetLevel.sinks level h.globals, context := c.fields,
                    name := c.name, addCaller := true, callerSkip := 1 },
                levelToPath := c.levelToPath, duplicateKeys := some h.sets.cells.length,
                name := c.name, fields := c.fields, skip := 1 }] }) := by
  rw [Heap_SetLevel_unfold h l level c hl, zapNewWith_ok _ _ _ hw]
  simp only [Heap_NewLogger_some, Heap.ensureDuplicateKeys, ExistStore.NewExist,
    NewLogger_underlying_fresh]
  rfl

/-- A `SetLevel` in memory that panics: the node has an own field and a sink of
the new composite cannot take fields.  The variable `core` has been assigned;
nothing else has changed. -/
theorem Heap_SetLevel_fault (h : Heap) (l : Nat) (level : zapcore.Level) (c : loggerCell)
    (hl : h.nodes[l]? = some c) (hf : c.fields ≠ [])
    (hw : (SetLevel.sinks level h.globals).withFaults = true) :
    h.SetLevel l level
      = (.error .nilPointer,
         { h with globals := { h.globals with core := some (SetLevel.sinks level h.globals) } }) := by
  rw [Heap_SetLevel_unfold h l level c hl]
  cases hfs : c.fields with
  | nil => exact absurd hfs hf
  | cons f rest => rw [zapNewWith_fault _ _ _ _ hw]

/-- The node at the end of a memory that has just grown by it and by its set, as
a value. -/
theorem Heap_view_last (g : Globals) (cells : List Exist) (nodes : List loggerCell)
    (x : Exist) (cell : loggerCell) (hd : cell.duplicateKeys = some cells.length) :
    Heap.view { globals := g, sets := { cells := cells ++ [x] }, nodes := nodes ++ [cell] }
        nodes.length
      = some { underlying := cell.underlying, levelToPath := cell.levelToPath,
               duplicateKeys := some x, name := cell.name, fields := cell.fields,
               skip := cell.skip } := by
  unfold Heap.view
  simp only [getElem?_last, hd, Option.some_bind]

/-- The operations in memory return pointers to the nodes that the operations on
values return.  For a pointer to a node with an underlying logger and a set,
whose value is `n`: `Derive`, `AddCallerSkip`, and each of `With`,
`WithWhenNotExist` and `SetLevel` when it returns, give a pointer to a node whose
value is the node that the same method gives for `n`; and the three panic in
memory exactly when they panic on `n`. -/
theorem Heap_refines (h : Heap) (l : Nat) (c : loggerCell) (u : zap.Logger) (d : Nat)
    (st : Exist) (n : logger) (hl : h.nodes[l]? = some c) (hu : c.underlying = some u)
    (hd : c.duplicateKeys = some d) (hs : h.sets.cells[d]? = some st)
    (hv : h.view l = some n) :
    (∀ s, ∃ n2, n.Derive s = .ok n2 ∧ (h.Derive l s).1 = .ok h.nodes.length
        ∧ (h.Derive l s).2.view h.nodes.length = some n2)
    ∧ (∀ fs,
        (c.fields ++ fs = [] ∨ u.core.withFaults = false →
          ∃ n2, n.With fs = .ok n2 ∧ (h.With l fs).1 = .ok h.nodes.length
            ∧ (h.With l fs).2.view h.nodes.length = some n2)
        ∧ (c.fields ++ fs ≠ [] → u.core.withFaults = true →
            n.With fs = .error .nilPointer ∧ (h.With l fs).1 = .error .nilPointer))
    ∧ (∀ key field,
        (st.Exist key = true ∨ u.core.withFaults = false →
          ∃ n2, n.WithWhenNotExist key field = .ok n2
            ∧ (h.WithWhenNotExist l key field).1 = .ok h.nodes.length
            ∧ (h.WithWhenNotExist l key field).2.view h.nodes.length = some n2)
        ∧ (st.Exist key = false → u.core.withFaults = true →
            n.WithWhenNotExist key field = .error .nilPointer
              ∧ (h.WithWhenNotExist l key field).1 = .error .nilPointer))
    ∧ (∀ skip, ∃ n2, n.AddCallerSkip skip = .ok n2
        ∧ (h.AddCallerSkip l skip).1 = .ok h.nodes.length
        ∧ (h.AddCallerSkip l skip).2.view h.nodes.length = some n2)
    ∧ (∀ level, (h.SetLevel l level).2.globals = (n.SetLevel level h.globals).2
        ∧ (c.fields = [] ∨ (SetLevel.sinks level h.globals).withFaults = false →
            ∃ n2, (n.SetLevel level h.globals).1 = .ok n2
              ∧ (h.SetLevel l level).1 = .ok h.nodes.length
              ∧ (h.SetLevel l level).2.view h.nodes.length = some n2)
        ∧ (c.fields ≠ [] → (SetLevel.sinks level h.globals).withFaults = true →
            (n.SetLevel level h.globals).1 = .error .nilPointer
              ∧ (h.SetLevel l level).1 = .error .nilPointer)) := by
  have hn : n = { underlying := some u, levelToPath := c.levelToPath,
                  duplicateKeys := some st, name := c.name, fields := c.fields,
                  skip := c.skip } := by
    unfold Heap.view at hv
    simp only [hl, hd, hu, Option.some_bind, hs, Option.some.injEq] at hv
    exact hv.symm
  subst hn
  refine ⟨?_, ?_, ?_, ?_, ?_⟩
  · intro s
    rw [Heap_Derive_eq h l s c u d st hl hu hd hs]
    exact ⟨_, Derive_eq _ s u st rfl rfl, rfl, Heap_view_last _ _ _ _ _ rfl⟩
  · intro fs
    refine ⟨?_, ?_⟩
    · intro hw
      rw [Heap_With_eq h l fs c u d st hl hu hd hs hw]
      exact ⟨_, With_eq _ fs u st rfl rfl hw, rfl, Heap_view_last _ _ _ _ _ rfl⟩
    · intro hf hw
      rw [Heap_With_fault h l fs c u hl hu hf hw]
      exact ⟨With_fault _ fs u rfl hf hw, rfl⟩
  · intro key field
    refine ⟨?_, ?_⟩
    · intro hw
      cases hk : st.Exist key with
      | true =>
        rw [Heap_WithWhenNotExist_present h l key field c d st hl hd hs hk]
        refine ⟨_, WithWhenNotExist_present _ key field st rfl hk, rfl, ?_⟩
        simp only [Heap.view, getElem?_last, hd, Option.some_bind, hs, hu]
      | false =>
        have hw2 : u.core.withFaults = false := by
          rcases hw with hw | hw
          · rw [hk] at hw
            cases hw
          · exact hw
        rw [Heap_WithWhenNotExist_absent h l key field c u d st hl hu hd hs hk hw2]
        exact ⟨_, WithWhenNotExist_absent _ key field u st rfl rfl hk hw2, rfl,
          Heap_view_last _ _ _ _ _ rfl⟩
    · intro hk hw
      rw [Heap_WithWhenNotExist_fault h l key field c u d st hl hu hd hs hk hw]
      exact ⟨WithWhenNotExist_fault _ key field u st rfl rfl hk hw, rfl⟩
  · intro skip
    rw [Heap_AddCallerSkip_eq h l skip c u d hl hu hd]
    refine ⟨_, AddCallerSkip_eq _ skip u rfl, rfl, ?_⟩
    simp only [Heap.view, getElem?_last, Option.some_bind, hs, ensureDuplicateKeys]
  · intro level
    refine ⟨?_, ?_, ?_⟩
    · rw [SetLevel_globals]
      by_cases hw : c.fields = [] ∨ (SetLevel.sinks level h.globals).withFaults = false
      · rw [Heap_SetLevel_eq h l level c hl hw]
      · have hf : c.fields ≠ [] := fun hf => hw (Or.inl hf)
        have hw2 : (SetLevel.sinks level h.globals).withFaults = true := by
          cases hx : (SetLevel.sinks level h.globals).withFaults with
          | true => rfl
          | false => exact absurd (Or.inr hx) hw
        rw [Heap_SetLevel_fault h l level c hl hf hw2]
    · intro hw
      rw [Heap_SetLevel_eq h l level c hl hw]
      exact ⟨_, congrArg Prod.fst (SetLevel_eq _ level h.globals hw), rfl,
        Heap_view_last _ _ _ _ _ rfl⟩
    · intro hf hw
      rw [Heap_SetLevel_fault h l level c hl hf hw]
      exact ⟨congrArg Prod.fst (SetLevel_fault _ level h.globals hf hw), rfl⟩

/-! ## Snapshot semantics of re-leveling -/

/-- C13. `SetLevel` has snapshot semantics.  For every memory, every pointer `l`
to a node and every level, whether the call returns or panics: every node made
before, the receiver included, is afterwards the node it was (same underlying
logger and composite, name, own fields, pointer to its set), every set holds
what it held, and of the process-wide variables only `core` has changed, to the
new composite.  The call returns when the node has no own field or every sink of
the new composite can take fields, and panics otherwise.  When it returns, the
pointer is a new one, to a node with the name path of the receiver over the new
composite, each sink of which is a recorded injected sink or accepts exactly the
levels at or above `level`; and a node derived from it sits on the same
composite. -/
theorem C13_setLevel_snapshot (h : Heap) (l : Nat) (c : loggerCell) (level : zapcore.Level)
    (hl : h.nodes[l]? = some c) :
    (∀ (p : Nat) (cell : loggerCell),
      h.nodes[p]? = some cell → (h.SetLevel l level).2.nodes[p]? = some cell)
    ∧ (∀ (e : Nat) (st : Exist),
        h.sets.cells[e]? = some st → (h.SetLevel l level).2.sets.cells[e]? = some st)
    ∧ (h.SetLevel l level).2.globals
        = { h.globals with core := some (SetLevel.sinks level h.globals) }
    ∧ (c.fields = [] ∨ (SetLevel.sinks level h.globals).withFaults = false →
        ∃ (r : Nat) (cell : loggerCell) (u2 : zap.Logger),
          (h.SetLevel l level).1 = .ok r ∧ h.nodes.length ≤ r
          ∧ (h.SetLevel l level).2.nodes[r]? = some cell
          ∧ cell.name = c.name ∧ cell.underlying = some u2
          ∧ u2.core = SetLevel.sinks level h.globals
          ∧ (∀ sink ∈ u2.core, sink ∈ h.globals.inputCores
              ∨ ∃ enc ws, sink = some (Core.ioCore enc ws (.plain (.level level)))
                  ∧ ∀ x, (Core.ioCore enc ws (.plain (.level level))).Enabled x = true
                        ↔ level ≤ x)
          ∧ ∀ s, ∃ (d : Nat) (dcell : loggerCell) (ud : zap.Logger),
              ((h.SetLevel l level).2.Derive r s).1 = .ok d
              ∧ ((h.SetLevel l level).2.Derive r s).2.nodes[d]? = some dcell
              ∧ dcell.underlying = some ud ∧ ud.core = u2.core)
    ∧ (c.fields ≠ [] → (SetLevel.sinks level h.globals).withFaults = true →
        (h.SetLevel l level).1 = .error .nilPointer) := by
  have hframe : (∀ (p : Nat) (cell : loggerCell),
        h.nodes[p]? = some cell → (h.SetLevel l level).2.nodes[p]? = some cell)
      ∧ (∀ (e : Nat) (st : Exist),
          h.sets.cells[e]? = some st → (h.SetLevel l level).2.sets.cells[e]? = some st)
      ∧ (h.SetLevel l level).2.globals
          = { h.globals with core := some (SetLevel.sinks level h.globals) } := by
    by_cases hw : c.fields = [] ∨ (SetLevel.sinks level h.globals).withFaults = false
    · rw [Heap_SetLevel_eq h l level c hl hw]
      exact ⟨fun p cell hp => getElem?_grow _ _ p cell hp,
        fun e st he => getElem?_grow _ _ e st he, rfl⟩
    · have hf : c.fields ≠ [] := fun hf => hw (Or.inl hf)
      have hw2 : (SetLevel.sinks level h.globals).withFaults = true := by
        cases hx : (SetLevel.sinks level h.globals).withFaults with
        | true => rfl
        | false => exact absurd (Or.inr hx) hw
      rw [Heap_SetLevel_fault h l level c hl hf hw2]
      exact ⟨fun p cell hp => hp, fun e st he => he, rfl⟩
  refine ⟨hframe.1, hframe.2.1, hframe.2.2, ?_, ?_⟩
  · intro hw
    rw [Heap_SetLevel_eq h l level c hl hw]
    refine ⟨h.nodes.length, _, _, rfl, Nat.le_refl _, getElem?_last _ _, rfl, rfl, rfl, ?_, ?_⟩
    · intro sink hsink
      exact SetLevel_sinks_mem level h.globals sink hsink
    · intro s
      rw [Heap_Derive_eq _ h.nodes.length s _ _ h.sets.cells.length (NewExist 10)
        (getElem?_last _ _) rfl rfl (getElem?_last _ _)]
      exact ⟨_, _, _, rfl, getElem?_last _ _, rfl, Named_core _ _⟩
  · intro hf hw
    rw [Heap_SetLevel_fault h l level c hl hf hw]

/-- Witness of C13: the node of the tests in memory, re-leveled at info. -/
theorem C13_setLevel_snapshot_witness :
    sampleHeap.nodes[0]? = some { underlying := observedNode.underlying, levelToPath := none,
                                  duplicateKeys := some 0, name := "test", fields := [],
                                  skip := 0 }
    ∧ (∀ (p : Nat) (cell : loggerCell),
        sampleHeap.nodes[p]? = some cell
          → (sampleHeap.SetLevel 0 zapcore.InfoLevel).2.nodes[p]? = some cell)
    ∧ (∀ (e : Nat) (st : Exist),
        sampleHeap.sets.cells[e]? = some st
          → (sampleHeap.SetLevel 0 zapcore.InfoLevel).2.sets.cells[e]? = some st)
    ∧ (sampleHeap.SetLevel 0 zapcore.InfoLevel).2.globals
        = { sampleHeap.globals with
            core := some (SetLevel.sinks zapcore.InfoLevel sampleHeap.globals) }
    ∧ (([] : List zap.Field) = []
          ∨ (SetLevel.sinks zapcore.InfoLevel sampleHeap.globals).withFaults = false →
        ∃ (r : Nat) (cell : loggerCell) (u2 : zap.Logger),
          (sampleHeap.SetLevel 0 zapcore.InfoLevel).1 = .ok r ∧ sampleHeap.nodes.length ≤ r
          ∧ (sampleHeap.SetLevel 0 zapcore.InfoLevel).2.nodes[r]? = some cell
          ∧ cell.name = "test" ∧ cell.underlying = some u2
          ∧ u2.core = SetLevel.sinks zapcore.InfoLevel sampleHeap.globals
          ∧ (∀ sink ∈ u2.core, sink ∈ sampleHeap.globals.inputCores
              ∨ ∃ enc ws, sink = some (Core.ioCore enc ws (.plain (.level zapcore.InfoLevel)))
                  ∧ ∀ x, (Core.ioCore enc ws (.plain (.level zapcore.InfoLevel))).Enabled x
                      = true ↔ zapcore.InfoLevel ≤ x)
          ∧ ∀ s, ∃ (d : Nat) (dcell : loggerCell) (ud : zap.Logger),
              ((sampleHeap.SetLevel 0 zapcore.InfoLevel).2.Derive r s).1 = .ok d
              ∧ ((sampleHeap.SetLevel 0 zapcore.InfoLevel).2.Derive r s).2.nodes[d]?
                  = some dcell
              ∧ dcell.underlying = some ud ∧ ud.core = u2.core)
    ∧ (([] : List zap.Field) ≠ []
        → (SetLevel.sinks zapcore.InfoLevel sampleHeap.globals).withFaults = true
        → (sampleHeap.SetLevel 0 zapcore.InfoLevel).1 = .error .nilPointer) :=
  ⟨rfl, C13_setLevel_snapshot sampleHeap 0 _ zapcore.InfoLevel rfl⟩

/-! ## The de-dup sets of sibling branches -/

/-- C16 as amended. For every memory, every pointer `p` to a node with an
underlying logger, every sink of which can take fields, whose de-dup set lacks
`k`, and all names `a` and `b`: the
branches derived with `a` and with `b` each point to a set of their own, other
than the set of the node and than each other.  `WithWhenNotExist` with `k` on the
first branch returns a node with one more set of its own, the only one that
holds `k`: the node, both branches and their sets are afterwards as they were,
so each of the three sets answers for every key as the set of the node did.  The
same call on the second branch is therefore not suppressed, and the records of
its result carry the fields of the records of the branch, then the own field
list of the node, then the field: the field once more than before when the own
field list does not hold it. -/
theorem C16_sibling_dedup_independent (h : Heap) (p : Nat) (a b k : String) (f : zap.Field)
    (c : loggerCell) (u : zap.Logger) (d : Nat) (st : Exist)
    (hp : h.nodes[p]? = some c) (hu : c.underlying = some u) (hd : c.duplicateKeys = some d)
    (hs : h.sets.cells[d]? = some st) (hk : st.Exist k = false)
    (hw : u.core.withFaults = false) :
    ∃ (pa pb wa wb : Nat) (h1 h2 h3 h4 : Heap) (ca cb cwa cwb : loggerCell)
      (da db dwa : Nat) (ub wub : zap.Logger) (nwb : logger),
      h.Derive p a = (.ok pa, h1) ∧ h1.Derive p b = (.ok pb, h2)
      ∧ h2.nodes[pa]? = some ca ∧ h2.nodes[pb]? = some cb
      ∧ ca.duplicateKeys = some da ∧ cb.duplicateKeys = some db
      ∧ d ≠ da ∧ d ≠ db ∧ da ≠ db
      ∧ h2.WithWhenNotExist pa k f = (.ok wa, h3)
      ∧ h3.nodes[p]? = some c ∧ h3.nodes[pa]? = some ca ∧ h3.nodes[pb]? = some cb
      ∧ h3.nodes[wa]? = some cwa ∧ cwa.duplicateKeys = some dwa
      ∧ dwa ≠ d ∧ dwa ≠ da ∧ dwa ≠ db
      ∧ h3.sets.Exist dwa k = .ok true
      ∧ (∀ j, h3.sets.Exist d j = .ok (st.Exist j))
      ∧ (∀ j, h3.sets.Exist da j = .ok (st.Exist j))
      ∧ (∀ j, h3.sets.Exist db j = .ok (st.Exist j))
      ∧ h3.WithWhenNotExist pb k f = (.ok wb, h4)
      ∧ h4.nodes[wb]? = some cwb ∧ h4.view wb = some nwb
      ∧ cb.underlying = some ub ∧ cwb.underlying = some wub
      ∧ wub.context = ub.context ++ c.fields ++ [f]
      ∧ (∀ lvl msg cf,
          (nwb.log lvl msg cf).entries.map Entry.Fields = [ub.context ++ c.fields ++ [f] ++ cf])
      ∧ (f ∉ c.fields → wub.context.count f = ub.context.count f + 1) := by
  have hdlt := ExistStore_lt h.sets d st hs
  have hcopy : st.Copy.Exist k = false := by rw [Exist_Copy_Exist]; exact hk
  have hwn : ∀ seg, (u.Named seg).core.withFaults = false := by
    intro seg
    rw [Named_core]
    exact hw
  -- the first derivation
  obtain ⟨H1, hH1n, hH1s, e1⟩ : ∃ H1 : Heap,
      H1.nodes = h.nodes ++
        [{ underlying := some (u.Named (lastNameField (derivedName c.name a))),
           levelToPath := c.levelToPath, duplicateKeys := some h.sets.cells.length,
           name := derivedName c.name a, fields := c.fields, skip := 0 }]
      ∧ H1.sets.cells = h.sets.cells ++ [st.Copy]
      ∧ h.Derive p a = (.ok h.nodes.length, H1) :=
    ⟨_, rfl, rfl, Heap_Derive_eq h p a c u d st hp hu hd hs⟩
  have hp1 : H1.nodes[p]? = some c := by
    rw [hH1n]; exact getElem?_grow _ _ p c hp
  have hs1 : H1.sets.cells[d]? = some st := by
    rw [hH1s]; exact getElem?_grow _ _ d st hs
  have hpa1 : H1.nodes[h.nodes.length]?
      = some { underlying := some (u.Named (lastNameField (derivedName c.name a))),
               levelToPath := c.levelToPath, duplicateKeys := some h.sets.cells.length,
               name := derivedName c.name a, fields := c.fields, skip := 0 } := by
    rw [hH1n]; exact getElem?_last _ _
  have hsa1 : H1.sets.cells[h.sets.cells.length]? = some st.Copy := by
    rw [hH1s]; exact getElem?_last _ _
  have l1 : H1.sets.cells.length = h.sets.cells.length + 1 := by
    rw [hH1s]; simp
  -- the second derivation
  obtain ⟨H2, hH2n, hH2s, e2⟩ : ∃ H2 : Heap,
      H2.nodes = H1.nodes ++
        [{ underlying := some (u.Named (lastNameField (derivedName c.name b))),
           levelToPath := c.levelToPath, duplicateKeys := some H1.sets.cells.length,
           name := derivedName c.name b, fields := c.fields, skip := 0 }]
      ∧ H2.sets.cells = H1.sets.cells ++ [st.Copy]
      ∧ H1.Derive p b = (.ok H1.nodes.length, H2) :=
    ⟨_, rfl, rfl, Heap_Derive_eq H1 p b c u d st hp1 hu hd hs1⟩
  have hp2 : H2.nodes[p]? = some c := by
    rw [hH2n]; exact getElem?_grow _ _ p c hp1
  have hpa2 := getElem?_grow H1.nodes
    [{ underlying := some (u.Named (lastNameField (derivedName c.name b))),
       levelToPath := c.levelToPath, duplicateKeys := some H1.sets.cells.length,
       name := derivedName c.name b, fields := c.fields, skip := 0 }] _ _ hpa1
  rw [← hH2n] at hpa2
  have hpb2 : H2.nodes[H1.nodes.length]?
      = some { underlying := some (u.Named (lastNameField (derivedName c.name b))),
               levelToPath := c.levelToPath, duplicateKeys := some H1.sets.cells.length,
               name := derivedName c.name b, fields := c.fields, skip := 0 } := by
    rw [hH2n]; exact getElem?_last _ _
  have hs2 : H2.sets.cells[d]? = some st := by
    rw [hH2s]; exact getElem?_grow _ _ d st hs1
  have hsa2 : H2.sets.cells[h.sets.cells.length]? = some st.Copy := by
    rw [hH2s]; exact getElem?_grow _ _ _ _ hsa1
  have hsb2 : H2.sets.cells[H1.sets.cells.length]? = some st.Copy := by
    rw [hH2s]; exact getElem?_last _ _
  have l2 : H2.sets.cells.length = h.sets.cells.length + 2 := by
    rw [hH2s, List.length_append, l1]; rfl
  -- the field attached on the first branch
  obtain ⟨H3, hH3n, hH3s, e3⟩ : ∃ H3 : Heap,
      H3.nodes = H2.nodes ++
        [{ underlying := some
             ((u.Named (lastNameField (derivedName c.name a))).With (c.fields ++ [f])),
           levelToPath := c.levelToPath, duplicateKeys := some H2.sets.cells.length,
           name := derivedName c.name a, fields := [], skip := 0 }]
      ∧ H3.sets.cells = H2.sets.cells ++ [st.Copy.Copy.Set k]
      ∧ H2.WithWhenNotExist h.nodes.length k f = (.ok H2.nodes.length, H3) :=
    ⟨_, rfl, rfl, Heap_WithWhenNotExist_absent H2 _ k f _ _ _ _ hpa2 rfl rfl hsa2 hcopy (hwn _)⟩
  have hp3 : H3.nodes[p]? = some c := by
    rw [hH3n]; exact getElem?_grow _ _ p c hp2
  have hpa3 := getElem?_grow H2.nodes
    [{ underlying := some
         ((u.Named (lastNameField (derivedName c.name a))).With (c.fields ++ [f])),
       levelToPath := c.levelToPath, duplicateKeys := some H2.sets.cells.length,
       name := derivedName c.name a, fields := [], skip := 0 }] _ _ hpa2
  rw [← hH3n] at hpa3
  have hpb3 := getElem?_grow H2.nodes
    [{ underlying := some
         ((u.Named (lastNameField (derivedName c.name a))).With (c.fields ++ [f])),
       levelToPath := c.levelToPath, duplicateKeys := some H2.sets.cells.length,
       name := derivedName c.name a, fields := [], skip := 0 }] _ _ hpb2
  rw [← hH3n] at hpb3
  have hwa3 : H3.nodes[H2.nodes.length]?
      = some { underlying := some
                 ((u.Named (lastNameField (derivedName c.name a))).With (c.fields ++ [f])),
               levelToPath := c.levelToPath, duplicateKeys := some H2.sets.cells.length,
               name := derivedName c.name a, fields := [], skip := 0 } := by
    rw [hH3n]; exact getElem?_last _ _
  have hs3 : H3.sets.cells[d]? = some st := by
    rw [hH3s]; exact getElem?_grow _ _ d st hs2
  have hsa3 : H3.sets.cells[h.sets.cells.length]? = some st.Copy := by
    rw [hH3s]; exact getElem?_grow _ _ _ _ hsa2
  have hsb3 : H3.sets.cells[H1.sets.cells.length]? = some st.Copy := by
    rw [hH3s]; exact getElem?_grow _ _ _ _ hsb2
  have hswa3 : H3.sets.cells[H2.sets.cells.length]? = some (st.Copy.Copy.Set k) := by
    rw [hH3s]; exact getElem?_last _ _
  -- the field attached on the second branch
  obtain ⟨H4, hH4n, hH4s, e4⟩ : ∃ H4 : Heap,
      H4.nodes = H3.nodes ++
        [{ underlying := some
             ((u.Named (lastNameField (derivedName c.name b))).With (c.fields ++ [f])),
           levelToPath := c.levelToPath, duplicateKeys := some H3.sets.cells.length,
           name := derivedName c.name b, fields := [], skip := 0 }]
      ∧ H4.sets.cells = H3.sets.cells ++ [st.Copy.Copy.Set k]
      ∧ H3.WithWhenNotExist H1.nodes.length k f = (.ok H3.nodes.length, H4) :=
    ⟨_, rfl, rfl, Heap_WithWhenNotExist_absent H3 _ k f _ _ _ _ hpb3 rfl rfl hsb3 hcopy (hwn _)⟩
  have hwb4 : H4.nodes[H3.nodes.length]?
      = some { underlying := some
                 ((u.Named (lastNameField (derivedName c.name b))).With (c.fields ++ [f])),
               levelToPath := c.levelToPath, duplicateKeys := some H3.sets.cells.length,
               name := derivedName c.name b, fields := [], skip := 0 } := by
    rw [hH4n]; exact getElem?_last _ _
  have hset : (st.Copy.Copy.Set k).Exist k = true := by
    rw [Exist_Set_Exist]
    simp
  have hview : H4.view H3.nodes.length
      = some { underlying := some
                 ((u.Named (lastNameField (derivedName c.name b))).With (c.fields ++ [f])),
               levelToPath := c.levelToPath,
               duplicateKeys := H4.sets.cells[H3.sets.cells.length]?,
               name := derivedName c.name b, fields := [], skip := 0 } := by
    unfold Heap.view
    rw [hwb4]
    rfl
  refine ⟨_, _, _, _, H1, H2, H3, H4, _, _, _, _, _, _, _, _, _, _, e1, e2, hpa2, hpb2, rfl, rfl,
    ?_, ?_, ?_, e3, hp3, hpa3, hpb3, hwa3, rfl, ?_, ?_, ?_, ?_, ?_, ?_, ?_, e4, hwb4, hview,
    rfl, rfl, ?_, ?_, ?_⟩
  · omega
  · omega
  · omega
  · omega
  · omega
  · omega
  · simp only [ExistStore.Exist, hswa3, hset]
  · intro j
    simp only [ExistStore.Exist, hs3]
  · intro j
    simp only [ExistStore.Exist, hsa3, Exist_Copy_Exist]
  · intro j
    simp only [ExistStore.Exist, hsb3, Exist_Copy_Exist]
  · simp [zap.Logger.With, Named_context, List.append_assoc]
  · intro lvl msg cf
    rw [log_some _ _ rfl]
    simp [zap.Logger.With, Named_context, List.append_assoc]
  · intro hf
    simp [zap.Logger.With, Named_context, List.count_append,
      List.count_eq_zero_of_not_mem hf]

/-- Witness of C16 as amended: the node of the tests in memory, the branches `a`
and `b`, the key `k` and the field `fieldA`. -/
theorem C16_sibling_dedup_independent_witness :
    ∃ (c : loggerCell) (u : zap.Logger) (st : Exist),
      sampleHeap.nodes[0]? = some c ∧ c.underlying = some u ∧ c.duplicateKeys = some 0
      ∧ sampleHeap.sets.cells[0]? = some st ∧ st.Exist "k" = false
      ∧ u.core.withFaults = false
      ∧ ∃ (pa pb wa wb : Nat) (h1 h2 h3 h4 : Heap) (ca cb cwa cwb : loggerCell)
          (da db dwa : Nat) (ub wub : zap.Logger) (nwb : logger),
        sampleHeap.Derive 0 "a" = (.ok pa, h1) ∧ h1.Derive 0 "b" = (.ok pb, h2)
        ∧ h2.nodes[pa]? = some ca ∧ h2.nodes[pb]? = some cb
        ∧ ca.duplicateKeys = some da ∧ cb.duplicateKeys = some db
        ∧ 0 ≠ da ∧ 0 ≠ db ∧ da ≠ db
        ∧ h2.WithWhenNotExist pa "k" fieldA = (.ok wa, h3)
        ∧ h3.nodes[0]? = some c ∧ h3.nodes[pa]? = some ca ∧ h3.nodes[pb]? = some cb
        ∧ h3.nodes[wa]? = some cwa ∧ cwa.duplicateKeys = some dwa
        ∧ dwa ≠ 0 ∧ dwa ≠ da ∧ dwa ≠ db
        ∧ h3.sets.Exist dwa "k" = .ok true
        ∧ (∀ j, h3.sets.Exist 0 j = .ok (st.Exist j))
        ∧ (∀ j, h3.sets.Exist da j = .ok (st.Exist j))
        ∧ (∀ j, h3.sets.Exist db j = .ok (st.Exist j))
        ∧ h3.WithWhenNotExist pb "k" fieldA = (.ok wb, h4)
        ∧ h4.nodes[wb]? = some cwb ∧ h4.view wb = some nwb
        ∧ cb.underlying = some ub ∧ cwb.underlying = some wub
        ∧ wub.context = ub.context ++ c.fields ++ [fieldA]
        ∧ (∀ lvl msg cf,
            (nwb.log lvl msg cf).entries.map Entry.Fields
              = [ub.context ++ c.fields ++ [fieldA] ++ cf])
        ∧ (fieldA ∉ c.fields → wub.context.count fieldA = ub.context.count fieldA + 1) :=
  ⟨_, _, _, rfl, rfl, rfl, rfl, by decide, by decide,
    C16_sibling_dedup_independent sampleHeap 0 "a" "b" "k" fieldA _ _ 0 _ rfl rfl rfl rfl
      (by decide) (by decide)⟩

end log2
